import Mathlib

/-!
# go-sql-parser: the scanner and the parsing engine

A shallow embedding of `sql.go` (package `sqlparser`) and `query/query.go`.

* A Go `string` is a sequence of bytes; `Text` is a list of naturals, one per byte.
  Cursor positions and lengths are byte counts, as in the source.
* `Parser` carries the four fields of the Go struct; the methods `peek`, `pop`,
  `popWhitespace`, `peekWithLength`, `peekIdentifierWithLength` are functions on it.
* The three `for` loops of the source are recursive functions with an iteration bound
  (`popWhitespaceLoop`, `identifierLoop`, `loop`).  The first two are bounded by the
  text length, which they can never use up; the main loop of `Parse` has no such bound
  in the source, so `Parse` takes the number of iterations it may run as an argument
  and answers `none` when that number is used up.
* `Outcome` is what `Parse` hands back: `ok q` for `return p.Query, nil`,
  `error msg` for `return nil, fmt.Errorf(msg)`, `panic` for a run-time panic.

The definitions come first: the embedding of the source, then the notions the statements
and proofs use (`scan`, `afterPop` and `run` restate the scanner and the loop in terms of
the text still unread, and are proved equal to the embedded code).  The theorems follow;
the last section settles the claims about the program.
-/

namespace SqlParser

/-! ## Data model -/

/-- A Go string, byte by byte. -/
abbrev Text := List Nat

/-- The bytes (UTF-8) of a string literal. -/
def str (s : String) : Text := s.toUTF8.data.toList.map UInt8.toNat

/-- The record `query.Query`; `Type_` is the field `Type`. -/
structure Query where
  Type_ : Text := []
  TableName : Text := []
  Fields : List Text := []
  Condition : List Text := []
  GroupByFields : List Text := []
  HavingCondition : List Text := []
  OrderByFields : List Text := []
  InsertValues : List (List Text) := []
  UpdateValues : List Text := []
deriving DecidableEq, Repr

/-- The type `step` with its 31 named constants, in declaration order, and `stepEnd`
for the value `-1` that `Parse` assigns at lines 216 and 228 and that is none of them. -/
inductive step where
  | stepType
  | stepSelectField
  | stepSelectFrom
  | stepSelectComma
  | stepSelectFromTable
  | stepInsertTable
  | stepInsertFieldsOpeningParens
  | stepInsertFields
  | stepInsertFieldsCommaOrClosingParens
  | stepInsertValuesOpeningParens
  | stepInsertValuesRWord
  | stepInsertValues
  | stepInsertValuesCommaOrClosingParens
  | stepInsertValuesCommaBeforeOpeningParens
  | stepUpdateTable
  | stepUpdateSet
  | stepUpdateField
  | stepUpdateEquals
  | stepUpdateValue
  | stepUpdateComma
  | stepDeleteFromTable
  | stepWhere
  | stepWhereField
  | stepWhereOperator
  | stepWhereValue
  | stepOrderBy
  | stepGroupBy
  | stepOrderByField
  | stepGroupByField
  | stepOrderByComma
  | stepGroupByComma
  | stepEnd
deriving DecidableEq, Repr

/-- The struct `Parser`.  The field `Query` is a pointer in the source, nil until
`Parse` allocates a record; here it holds the record itself, empty at first. -/
structure Parser where
  SQL : Text := []
  i : Nat := 0
  Query : Query := {}
  step : step := step.stepType
deriving DecidableEq, Repr

/-- The parser `&sqlparser.Parser{}`: every field at its zero value. -/
def freshParser : Parser := {}

/-- What a call of `Parse` returns. -/
inductive Outcome where
  | ok (q : Query)
  | error (msg : String)
  | panic
deriving DecidableEq, Repr

/-! ## Library functions -/

/-- Upper case of one ASCII byte. -/
def upperByte (b : Nat) : Nat := if 97 ≤ b ∧ b ≤ 122 then b - 32 else b

/-- The function `strings.ToUpper`, on the bytes of the string.  ASCII letters are
mapped byte by byte.  The only runes outside ASCII whose upper case is an ASCII letter
are U+017F (bytes C5 BF, upper case `S`) and U+0131 (bytes C4 B1, upper case `I`);
they are mapped as Go maps them.  Every other byte from 0x80 on is kept: Go turns the
rune it belongs to into another rune outside ASCII, so on such a text both results
hold a byte outside ASCII and differ from every reserved word and keyword, which is
all the program ever asks of them. -/
def ToUpper : Text → Text
  | [] => []
  | [b] => [upperByte b]
  | b :: c :: rest =>
    if b = 0xC5 ∧ c = 0xBF then 0x53 :: ToUpper rest
    else if b = 0xC4 ∧ c = 0xB1 then 0x49 :: ToUpper rest
    else upperByte b :: ToUpper (c :: rest)

/-- The slice expression `s[a:b]`. -/
def slice (s : Text) (a b : Nat) : Text := (s.take b).drop a

/-! ## Scanner -/

/-- The function `min` of the source. -/
def min (a b : Nat) : Nat := if a ≤ b then a else b

/-- The table `reservedWords`, in declaration order. -/
def reservedWords : List Text :=
  [str "(", str ")", str ">=", str "<=", str "!=", str ",", str "=", str ">", str "<",
   str "SELECT", str "INSERT", str "INTO", str "VALUES", str "UPDATE",
   str "DELETE", str "WHERE", str "FROM", str "SET", str "GROUP BY",
   str "ORDER BY", str "HAVING"]

/-- The loop of `popWhitespace`: `for ; i < len(SQL) && SQL[i] == ' '; i++`. -/
def popWhitespaceLoop (SQL : Text) : Nat → Nat → Nat
  | 0, i => i
  | fuel + 1, i =>
    if i < SQL.length ∧ SQL.getD i 0 = 32 then popWhitespaceLoop SQL fuel (i + 1) else i

/-- The method `popWhitespace`. -/
def popWhitespace (p : Parser) : Parser :=
  { p with i := popWhitespaceLoop p.SQL p.SQL.length p.i }

/-- The loop of `peekIdentifierWithLength`, from `j` on, with the two returns. -/
def identifierLoop (SQL : Text) (i : Nat) : Nat → Nat → Text × Nat
  | 0, _ => (SQL.drop i, (SQL.drop i).length)
  | fuel + 1, j =>
    if i + j < SQL.length then
      if SQL.getD (i + j) 0 = 32 ∨ SQL.getD (i + j) 0 = 44 ∨ SQL.getD (i + j) 0 = 41 then
        (slice SQL i (i + j), j)
      else identifierLoop SQL i fuel (j + 1)
    else (SQL.drop i, (SQL.drop i).length)

/-- The method `peekIdentifierWithLength`. -/
def peekIdentifierWithLength (p : Parser) : Text × Nat :=
  identifierLoop p.SQL p.i p.SQL.length 1

/-- The loop `for _, rWord := range reservedWords` of `peekWithLength`, over the entries
still to try: the first entry that matches is returned. -/
def reservedLoop (p : Parser) : List Text → Option (Text × Nat)
  | [] => none
  | rWord :: rWords =>
    let token := slice p.SQL p.i (min p.SQL.length (p.i + rWord.length))
    let upToken := ToUpper token
    if upToken = rWord then some (upToken, upToken.length)
    else reservedLoop p rWords

/-- The method `peekWithLength`. -/
def peekWithLength (p : Parser) : Text × Nat :=
  if p.i ≥ p.SQL.length then ([], 0)
  else
    match reservedLoop p reservedWords with
    | some r => r
    | none => peekIdentifierWithLength p

/-- The method `peek`. -/
def peek (p : Parser) : Text := (peekWithLength p).1

/-- The method `pop`. -/
def pop (p : Parser) : Parser :=
  popWhitespace { p with i := p.i + (peekWithLength p).2 }

/-! ## Parsing engine -/

/-- The value `fmt.Errorf("syntax error\n")` returned with a nil record. -/
def parseError : Outcome := Outcome.error "syntax error\n"

/-- One pass through the body of the `for` loop of `Parse`: the `switch p.step`.
The result is the parser after the pass and, when the pass executes a `return`
(or panics), what is returned; `none` means that the loop goes on. -/
def iterate (p : Parser) : Parser × Option Outcome :=
  match p.step with
  | .stepType =>
    let kw := ToUpper (peek p)
    if kw = str "SELECT" then
      (pop { p with Query := { p.Query with Type_ := str "SELECT" }, step := .stepSelectField },
        none)
    else if kw = str "UPDATE" then
      (pop { p with Query := { p.Query with Type_ := str "UPDATE" }, step := .stepUpdateTable },
        none)
    else if kw = str "INSERT" then
      let p1 := pop { p with Query := { p.Query with Type_ := str "INSERT" } }
      if peek p1 = str "INTO" then ({ pop p1 with step := .stepInsertTable }, none)
      else (p1, some parseError)
    else if kw = str "DELETE" then
      let p1 := pop { p with Query := { p.Query with Type_ := str "DELETE" } }
      if peek p1 ≠ str "FROM" then (p1, some parseError)
      else ({ pop p1 with step := .stepDeleteFromTable }, none)
    else (p, some parseError)
  | .stepSelectField =>
    let filedName := peek p
    (pop { p with Query := { p.Query with Fields := p.Query.Fields ++ [filedName] },
                  step := .stepSelectComma }, none)
  | .stepSelectComma =>
    let comma := peek p
    if comma ≠ str "," then ({ p with step := .stepSelectFrom }, none)
    else (pop { p with step := .stepSelectField }, none)
  | .stepSelectFrom =>
    if peek p ≠ str "FROM" then (p, some parseError)
    else (pop { p with step := .stepSelectFromTable }, none)
  | .stepSelectFromTable =>
    let tableName := peek p
    (pop { p with Query := { p.Query with TableName := tableName }, step := .stepWhere }, none)
  | .stepDeleteFromTable =>
    ({ pop { p with Query := { p.Query with TableName := peek p } } with step := .stepWhere },
      none)
  | .stepWhere =>
    if peek p ≠ str "WHERE" then (p, some parseError)
    else (pop { p with step := .stepWhereField }, none)
  | .stepWhereField =>
    let opeField := peek p
    (pop { p with Query := { p.Query with Condition := p.Query.Condition ++ [opeField] },
                  step := .stepWhereOperator }, none)
  | .stepWhereOperator =>
    let operator := peek p
    (pop { p with Query := { p.Query with Condition := p.Query.Condition ++ [operator] },
                  step := .stepWhereValue }, none)
  | .stepWhereValue =>
    let opeValue := peek p
    let p1 := pop { p with Query := { p.Query with Condition := p.Query.Condition ++ [opeValue] } }
    let next := peek p1
    if next = str "ORDER BY" then ({ p1 with step := .stepOrderBy }, none)
    else if next = str "GROUP BY" then ({ p1 with step := .stepGroupBy }, none)
    else ({ p1 with step := .stepWhereOperator }, none)
  | .stepOrderBy => ({ pop p with step := .stepOrderByField }, none)
  | .stepGroupBy => ({ pop p with step := .stepGroupByField }, none)
  | .stepOrderByField =>
    let field := peek p
    let p1 := pop { p with Query := { p.Query with
                      OrderByFields := p.Query.OrderByFields ++ [field] } }
    if peek p1 = str "," then ({ p1 with step := .stepOrderByComma }, none)
    else ({ p1 with step := .stepEnd }, none)
  | .stepGroupByField =>
    let field := peek p
    let p1 := pop { p with Query := { p.Query with
                      GroupByFields := p.Query.GroupByFields ++ [field] } }
    let next := peek p1
    if next = str "ORDER BY" then ({ p1 with step := .stepOrderBy }, none)
    else if next = str "," then ({ p1 with step := .stepGroupByComma }, none)
    else ({ p1 with step := .stepEnd }, none)
  | .stepOrderByComma => ({ pop p with step := .stepOrderByField }, none)
  | .stepGroupByComma => ({ pop p with step := .stepGroupByField }, none)
  | .stepInsertTable =>
    ({ pop { p with Query := { p.Query with TableName := peek p } } with
         step := .stepInsertFieldsOpeningParens }, none)
  | .stepInsertFieldsOpeningParens =>
    let openingParens := peek p
    if openingParens = str "(" then ({ pop p with step := .stepInsertFields }, none)
    else if openingParens = str "VALUES" then ({ p with step := .stepInsertValuesRWord }, none)
    else (p, some parseError)
  | .stepInsertFields =>
    let field := peek p
    ({ pop { p with Query := { p.Query with Fields := p.Query.Fields ++ [field] } } with
         step := .stepInsertFieldsCommaOrClosingParens }, none)
  | .stepInsertFieldsCommaOrClosingParens =>
    let tok := peek p
    if tok = str "," then ({ pop p with step := .stepInsertFields }, none)
    else if tok = str ")" then ({ pop p with step := .stepInsertValuesRWord }, none)
    else (p, some parseError)
  | .stepInsertValuesRWord =>
    if peek p ≠ str "VALUES" then (p, some parseError)
    else ({ pop p with step := .stepInsertValuesOpeningParens }, none)
  | .stepInsertValuesOpeningParens =>
    let openingParens := peek p
    if openingParens = str "(" then
      ({ pop { p with Query := { p.Query with
                 InsertValues := p.Query.InsertValues ++ [[]] } } with
           step := .stepInsertValues }, none)
    else (p, some parseError)
  | .stepInsertValues =>
    let value := peek p
    match p.Query.InsertValues.getLast? with
    | none => (p, some Outcome.panic)
    | some last =>
      ({ pop { p with Query := { p.Query with
                 InsertValues := p.Query.InsertValues.dropLast ++ [last ++ [value]] } } with
           step := .stepInsertValuesCommaOrClosingParens }, none)
  | .stepInsertValuesCommaOrClosingParens =>
    let tok := peek p
    if tok = str "," then ({ pop p with step := .stepInsertValues }, none)
    else if tok = str ")" then
      ({ pop p with step := .stepInsertValuesCommaBeforeOpeningParens }, none)
    else (p, some parseError)
  | .stepInsertValuesCommaBeforeOpeningParens =>
    if peek p = str "," then ({ pop p with step := .stepInsertValuesOpeningParens }, none)
    else (p, some parseError)
  | .stepUpdateTable =>
    let tableName := peek p
    if tableName = str "SET" then (p, some parseError)
    else ({ pop { p with Query := { p.Query with TableName := tableName } } with
              step := .stepUpdateSet }, none)
  | .stepUpdateSet =>
    let set := peek p
    if set ≠ str "SET" then (p, some parseError)
    else ({ pop p with step := .stepUpdateField }, none)
  | .stepUpdateField =>
    ({ pop { p with Query := { p.Query with Fields := p.Query.Fields ++ [peek p] } } with
         step := .stepUpdateEquals }, none)
  | .stepUpdateEquals =>
    if peek p ≠ str "=" then (p, some parseError)
    else ({ pop p with step := .stepUpdateValue }, none)
  | .stepUpdateValue =>
    ({ pop { p with Query := { p.Query with
               UpdateValues := p.Query.UpdateValues ++ [peek p] } } with
         step := .stepUpdateComma }, none)
  | .stepUpdateComma =>
    let tok := peek p
    if tok = str "," then ({ pop p with step := .stepUpdateField }, none)
    else if tok = str "WHERE" then ({ p with step := .stepWhere }, none)
    else (p, none)
  | .stepEnd => (p, none)

/-- The `for p.i < len(p.SQL)` loop of `Parse` and the `return p.Query, nil` after it,
run for at most `fuel` passes; `none` when the passes are used up before a return.
The parser is handed back with the outcome, as the caller of the Go method keeps it. -/
def loop : Nat → Parser → Option (Parser × Outcome)
  | 0, _ => none
  | fuel + 1, p =>
    if p.i < p.SQL.length then
      match iterate p with
      | (p', some out) => some (p', out)
      | (p', none) => loop fuel p'
    else some (p, Outcome.ok p.Query)

/-- The method `Parse` with the parser it leaves behind: the three assignments at its
head (the cursor `i` is not among them), then the loop. -/
def ParseRun (fuel : Nat) (p : Parser) (sql : Text) : Option (Parser × Outcome) :=
  loop fuel { p with SQL := sql, Query := {}, step := step.stepType }

/-- The method `Parse`: what it returns within `fuel` passes of its loop. -/
def Parse (fuel : Nat) (p : Parser) (sql : Text) : Option Outcome :=
  (ParseRun fuel p sql).map Prod.snd

/-! ## Notions used in the statements and in the proofs -/

/-- The text from the cursor on: `p.SQL[p.i:]`, empty when the cursor is at or past
the end. -/
def rest (p : Parser) : Text := p.SQL.drop p.i

/-- The bytes at which `peekIdentifierWithLength` stops. -/
def isDelim (b : Nat) : Bool := decide (b = 32 ∨ b = 44 ∨ b = 41)

/-- The first entry of `reservedWords` that matches at the head of `s`, if any: the
outcome of the loop over the table in `peekWithLength`. -/
def firstReserved (s : Text) : Option Text :=
  reservedWords.find? (fun rw => decide (ToUpper (s.take rw.length) = rw))

/-- The text `r` without its leading spaces. -/
def skip (r : Text) : Text := r.dropWhile (fun b => decide (b = 32))

/-- The scanner as a function of the text from the cursor on: the token and its length.
`peekWithLength_eq_scan` shows that `peekWithLength` computes it. -/
def scan (s : Text) : Text × Nat :=
  if s = [] then ([], 0)
  else
    match firstReserved s with
    | some rw => (rw, rw.length)
    | none =>
      (s.take (1 + ((s.drop 1).takeWhile (fun b => !isDelim b)).length),
        1 + ((s.drop 1).takeWhile (fun b => !isDelim b)).length)

/-- The text left after `pop`: the token is dropped, then the spaces after it. -/
def afterPop (s : Text) : Text := skip (s.drop (scan s).2)

/-- The parser with cursor 0 on the text `s`, record `q`, state `st`. -/
def onText (s : Text) (q : Query) (st : step) : Parser :=
  { SQL := s, i := 0, Query := q, step := st }

/-- The parser restarted at cursor 0 on its unread text. -/
def norm (p : Parser) : Parser := onText (rest p) p.Query p.step

/-- The outcome of the loop within `fuel` passes, started on the unread text `s` with
record `q` in state `st`. -/
def run (fuel : Nat) (s : Text) (q : Query) (st : step) : Option Outcome :=
  (loop fuel (onText s q st)).map Prod.snd

/-- A reserved word matches at the head of `s`: the test of `peekWithLength`. -/
def matchesAt (s rw : Text) : Prop := ToUpper (s.take rw.length) = rw

instance (s rw : Text) : Decidable (matchesAt s rw) := by unfold matchesAt; infer_instance

/-- A token that is not a reserved word and that the identifier scan reads whole:
non-empty, without space, comma or closing parenthesis, and with no reserved word
matching at its head. -/
def Plain (tok : Text) : Prop :=
  tok ≠ [] ∧ (∀ b ∈ tok, isDelim b = false) ∧ ∀ rw ∈ reservedWords, ¬ matchesAt tok rw

instance (tok : Text) : Decidable (Plain tok) := by unfold Plain; infer_instance

/-- The text `r` after a token starts with a space followed by `BY` in either case. -/
def byAhead (r : Text) : Bool :=
  match r with
  | 32 :: b :: y :: _ => upperByte b == 66 && upperByte y == 89
  | _ => false

/-- What may stand right after an identifier for the scanner to cut it there: nothing,
or a space, comma or closing parenthesis. -/
def Cut (r : Text) : Prop := r = [] ∨ ∃ d r', r = d :: r' ∧ isDelim d = true

/-- At the head of the text `s` the scanner finds the token `tok`, and `pop` leaves the
text `s'`. -/
def Reads (s tok s' : Text) : Prop := s ≠ [] ∧ (scan s).1 = tok ∧ afterPop s = s'

/-- The parser after `k` passes of the loop body. -/
def advance : Nat → Parser → Parser
  | 0, p => p
  | k + 1, p => advance k (iterate p).1

/-- How `Fields` and `UpdateValues` stand to each other in each state an UPDATE parse
can be in: one field ahead while the engine waits for `=` or for the value, level
otherwise; the states of the other statement kinds are not reached. -/
def updateShape (st : step) (q : Query) : Prop :=
  match st with
  | .stepUpdateEquals | .stepUpdateValue => q.Fields.length = q.UpdateValues.length + 1
  | .stepUpdateTable | .stepUpdateSet | .stepUpdateField | .stepUpdateComma
  | .stepWhere | .stepWhereField | .stepWhereOperator | .stepWhereValue
  | .stepOrderBy | .stepGroupBy | .stepOrderByField | .stepGroupByField
  | .stepOrderByComma | .stepGroupByComma | .stepEnd =>
    q.Fields.length = q.UpdateValues.length
  | _ => False

/-- The invariant of the loop behind `updateShape`: the record is empty in the first
state, and once the kind is UPDATE the state and the two lists fit together. -/
def updateInv (p : Parser) : Prop :=
  (p.step = step.stepType → p.Query = {}) ∧
  (p.step ≠ step.stepType → p.Query.Type_ = str "UPDATE" → updateShape p.step p.Query)

/-- The comparison operators. -/
def operators : List Text := [str "=", str ">", str "<", str ">=", str "<=", str "!="]

/-- Started on the unread text `s` with record `q` in state `st`, the loop returns
`out` after finitely many passes. -/
def Yields (s : Text) (q : Query) (st : step) (out : Outcome) : Prop :=
  ∃ fuel, run fuel s q st = some out

/-- The text `f1, f2, ..., fn`: the items separated by a comma and one space. -/
def commaList : List Text → Text
  | [] => []
  | [f] => f
  | f :: g :: fs => f ++ str ", " ++ commaList (g :: fs)

/-- The text `c1 c2 ... cn`: the items separated by one space. -/
def spaceList : List Text → Text
  | [] => []
  | [c] => c
  | c :: d :: cs => c ++ str " " ++ spaceList (d :: cs)

/-- The text `f,  g, h ...`: a first item, then each further item after a comma and the
given number of spaces. -/
def commaListSp : Text → List (Nat × Text) → Text
  | f, [] => f
  | f, (k, g) :: more => f ++ str "," ++ List.replicate k 32 ++ commaListSp g more

/-- The last item of such a list. -/
def lastItem : Text → List (Nat × Text) → Text
  | f, [] => f
  | _, (_, g) :: more => lastItem g more

/-- The items before the last one. -/
def initItems : Text → List (Nat × Text) → List Text
  | _, [] => []
  | f, (_, g) :: more => f :: initItems g more

/-- The text `f1 = v1, f2 = v2, ..., fn = vn`. -/
def assignList : List (Text × Text) → Text
  | [] => []
  | [(f, v)] => f ++ str " = " ++ v
  | (f, v) :: p :: ps => f ++ str " = " ++ v ++ str ", " ++ assignList (p :: ps)

/-- A token of a WHERE condition: a comparison operator, or a plain token other than
`GROUP` and `ORDER` in any case. -/
def CondTok (c : Text) : Prop :=
  c ∈ operators ∨
    (Plain c ∧ c.map upperByte ≠ str "GROUP" ∧ c.map upperByte ≠ str "ORDER")

instance (c : Text) : Decidable (CondTok c) := by unfold CondTok; infer_instance

/-- The text ` GROUP BY g1, ..., gk`, empty when there is no field. -/
def groupClause : List Text → Text
  | [] => []
  | g :: gs => str " GROUP BY " ++ commaList (g :: gs)

/-- The text ` ORDER BY o1, ..., om`, empty when there is no field. -/
def orderClause : List Text → Text
  | [] => []
  | o :: os => str " ORDER BY " ++ commaList (o :: os)

/-- A non-empty comma-separated list: the first item, then each further item with the
number of spaces between the comma and it. -/
abbrev Items := Text × List (Nat × Text)

/-- The tokens of the list, in order. -/
def itemTokens (it : Items) : List Text := it.1 :: it.2.map Prod.snd

/-- Every item is a plain token. -/
def PlainItems (it : Items) : Prop := Plain it.1 ∧ ∀ m ∈ it.2, Plain m.2

instance (it : Items) : Decidable (PlainItems it) := by unfold PlainItems; infer_instance

/-- The text `(x1,x2, ...)` of a parenthesised group. -/
def groupText (it : Items) : Text := str "(" ++ commaListSp it.1 it.2 ++ str ")"

/-- The column group of an INSERT with the space before it; nothing when there are no
columns. -/
def columnsText : Option Items → Text
  | none => []
  | some it => str " " ++ groupText it

/-- The column names given by the column group. -/
def columnTokens : Option Items → List Text
  | none => []
  | some it => itemTokens it

/-- The text of the rows of an INSERT: the first group, then each further group after a
comma and the given number of spaces. -/
def rowsText : Items → List (Nat × Items) → Text
  | r, [] => groupText r
  | r, (k, r') :: more => groupText r ++ str "," ++ List.replicate k 32 ++ rowsText r' more

/-- The tokens a state insists on: in these states `Parse` returns the error on any
other token.  (The state after a SELECT field takes a comma, and hands any other token
to the state that insists on `FROM`.) -/
def accepted : step → List Text
  | .stepSelectComma => [str ",", str "FROM"]
  | .stepSelectFrom => [str "FROM"]
  | .stepWhere => [str "WHERE"]
  | .stepUpdateSet => [str "SET"]
  | .stepUpdateEquals => [str "="]
  | .stepInsertFieldsOpeningParens => [str "(", str "VALUES"]
  | .stepInsertFieldsCommaOrClosingParens => [str ",", str ")"]
  | .stepInsertValuesCommaOrClosingParens => [str ",", str ")"]
  | .stepInsertValuesRWord => [str "VALUES"]
  | .stepInsertValuesOpeningParens => [str "("]
  | .stepInsertValuesCommaBeforeOpeningParens => [str ","]
  | _ => []

/-- The parser stands where a specific token is required and the next token is not
one the position accepts: in one of the states of `accepted`, or in the first state
right after `INSERT` (which requires `INTO`) or after `DELETE` (which requires `FROM`). -/
def MissingRequired (p : Parser) : Prop :=
  (accepted p.step ≠ [] ∧ peek p ∉ accepted p.step) ∨
  (p.step = step.stepType ∧ ToUpper (peek p) = str "INSERT" ∧ peek (pop p) ≠ str "INTO") ∨
  (p.step = step.stepType ∧ ToUpper (peek p) = str "DELETE" ∧ peek (pop p) ≠ str "FROM")

instance (p : Parser) : Decidable (MissingRequired p) := by
  unfold MissingRequired; infer_instance

/-- The parser at the head of the loop when `Parse` is called on a fresh parser with the
text `sql`. -/
def start (sql : Text) : Parser :=
  { freshParser with SQL := sql, Query := {}, step := step.stepType }

/-- The four statement kinds. -/
def kinds : List Text := [str "SELECT", str "INSERT", str "UPDATE", str "DELETE"]

/-- The first pass of the loop is over and the kind of the statement is set. -/
def kindSet (p : Parser) : Prop := p.step ≠ step.stepType ∧ p.Query.Type_ ∈ kinds

/-- A letter, a digit or an underscore. -/
def isWordByte (b : Nat) : Bool :=
  decide ((65 ≤ b ∧ b ≤ 90) ∨ (97 ≤ b ∧ b ≤ 122) ∨ (48 ≤ b ∧ b ≤ 57) ∨ b = 95)

/-- An identifier: a non-empty run of letters, digits and underscores. -/
def Identifier (t : Text) : Prop := t ≠ [] ∧ ∀ b ∈ t, isWordByte b = true

instance (t : Text) : Decidable (Identifier t) := by unfold Identifier; infer_instance

/-- The text `t` is matched text of `sql`: a contiguous part of `sql`, or a reserved word
that is the upper-case form of a contiguous part of `sql`. -/
def Raw (sql t : Text) : Prop :=
  t <:+: sql ∨ (t ∈ reservedWords ∧ ∃ w, w <:+: sql ∧ ToUpper w = t)

/-- Every text stored in the record is matched text of `sql`. -/
def AllRaw (sql : Text) (q : Query) : Prop :=
  Raw sql q.TableName ∧ (∀ t ∈ q.Fields, Raw sql t) ∧ (∀ t ∈ q.Condition, Raw sql t) ∧
  (∀ t ∈ q.GroupByFields, Raw sql t) ∧ (∀ t ∈ q.OrderByFields, Raw sql t) ∧
  (∀ row ∈ q.InsertValues, ∀ t ∈ row, Raw sql t) ∧ (∀ t ∈ q.UpdateValues, Raw sql t)

/-- What keeps a run in range: the cursor is not past the end of the text, and while a
row of values is being read `InsertValues` has a last row. -/
def inRange (p : Parser) : Prop :=
  p.i ≤ p.SQL.length ∧
    (p.step = step.stepInsertValues ∨ p.step = step.stepInsertValuesCommaOrClosingParens →
      p.Query.InsertValues ≠ [])

/-! ## The scanner reads only the text from the cursor on -/

theorem rest_ne_nil_iff (p : Parser) : rest p ≠ [] ↔ p.i < p.SQL.length := by
  simp [rest]

theorem slice_min (SQL : Text) (i L : Nat) :
    slice SQL i (min SQL.length (i + L)) = (SQL.drop i).take L := by
  unfold slice min
  split
  · rename_i h
    rw [List.take_of_length_le (Nat.le_refl _), List.take_of_length_le]
    simp only [List.length_drop]; omega
  · rw [List.drop_take]; congr 1; omega

theorem slice_add (SQL : Text) (i j : Nat) : slice SQL i (i + j) = (SQL.drop i).take j := by
  unfold slice
  rw [List.drop_take]; congr 1; omega

theorem getD_add (SQL : Text) (i j : Nat) : SQL.getD (i + j) 0 = ((SQL.drop i).drop j).headD 0 := by
  rw [List.drop_drop]
  cases h : List.drop (i + j) SQL with
  | nil =>
    have : SQL.length ≤ i + j := by simpa using h
    simp [List.getD_eq_getElem?_getD, List.getElem?_eq_none this]
  | cons b t =>
    have hlt : i + j < SQL.length := by
      by_contra hc
      have : List.drop (i + j) SQL = [] := by simp; omega
      simp [this] at h
    rw [List.drop_eq_getElem_cons hlt] at h
    simp only [List.cons.injEq] at h
    simp [List.getD_eq_getElem?_getD, List.getElem?_eq_getElem hlt, h.1]

/-- Closed form of the identifier loop, in terms of the text from the cursor on. -/
theorem identifierLoop_eq (SQL : Text) (i : Nat) :
    ∀ (fuel j : Nat), i + j ≤ SQL.length → SQL.length ≤ fuel + (i + j) →
      identifierLoop SQL i fuel j =
        ((SQL.drop i).take (j + (((SQL.drop i).drop j).takeWhile (fun b => !isDelim b)).length),
          j + (((SQL.drop i).drop j).takeWhile (fun b => !isDelim b)).length) := by
  intro fuel
  induction fuel with
  | zero =>
    intro j h1 h2
    have hj : (SQL.drop i).length = j := by simp only [List.length_drop]; omega
    have hd : (SQL.drop i).drop j = [] := List.drop_eq_nil_of_le (le_of_eq hj)
    simp only [identifierLoop, hd, List.takeWhile_nil, List.length_nil, Nat.add_zero]
    rw [List.take_of_length_le (by omega), hj]
  | succ fuel ih =>
    intro j h1 h2
    unfold identifierLoop
    by_cases hlt : i + j < SQL.length
    · simp only [hlt, if_true]
      have hd : (SQL.drop i).drop j = SQL[i + j] :: (SQL.drop i).drop (j + 1) := by
        rw [List.drop_drop, List.drop_drop, List.drop_eq_getElem_cons hlt]; rfl
      have hg : SQL.getD (i + j) 0 = SQL[i + j] := by
        rw [getD_add, hd]; rfl
      rw [hg]
      by_cases hdel : SQL[i + j] = 32 ∨ SQL[i + j] = 44 ∨ SQL[i + j] = 41
      · have hk : List.takeWhile (fun b => !isDelim b)
            (SQL[i + j] :: (SQL.drop i).drop (j + 1)) = [] := by
          rw [List.takeWhile_cons]; simp [isDelim, hdel]
        simp only [hdel, if_true, hd, slice_add, hk, List.length_nil, Nat.add_zero]
      · simp only [hdel, if_false, hd]
        rw [ih (j + 1) (by omega) (by omega)]
        simp only [List.takeWhile_cons, isDelim, hdel, decide_False, Bool.not_false, if_true,
          List.length_cons]
        have : j + 1 + (List.takeWhile (fun b => !isDelim b) ((SQL.drop i).drop (j + 1))).length
            = j + ((List.takeWhile (fun b => !isDelim b) ((SQL.drop i).drop (j + 1))).length + 1) := by
          omega
        simp only [isDelim] at this ⊢
        rw [this]
    · simp only [hlt, if_false]
      have hj : (SQL.drop i).length = j := by simp only [List.length_drop]; omega
      have hd : (SQL.drop i).drop j = [] := List.drop_eq_nil_of_le (le_of_eq hj)
      simp only [hd, List.takeWhile_nil, List.length_nil, Nat.add_zero]
      rw [List.take_of_length_le (by omega), hj]

/-- Closed form of the whitespace loop: the text from the new cursor on is the text from
the old cursor on without its leading spaces. -/
theorem popWhitespaceLoop_drop (SQL : Text) :
    ∀ (fuel i : Nat), SQL.length ≤ fuel + i →
      SQL.drop (popWhitespaceLoop SQL fuel i) = (SQL.drop i).dropWhile (fun b => decide (b = 32)) := by
  intro fuel
  induction fuel with
  | zero =>
    intro i h
    have : SQL.drop i = [] := by simp; omega
    simp [popWhitespaceLoop, this]
  | succ fuel ih =>
    intro i h
    unfold popWhitespaceLoop
    by_cases hlt : i < SQL.length
    · have hd : SQL.drop i = SQL[i] :: SQL.drop (i + 1) := List.drop_eq_getElem_cons hlt
      have hg : SQL.getD i 0 = SQL[i] := by
        simp [List.getD_eq_getElem?_getD, List.getElem?_eq_getElem hlt]
      by_cases hsp : SQL[i] = 32
      · simp only [hlt, hg, hsp, and_self, if_true]
        rw [ih (i + 1) (by omega), hd]
        simp [List.dropWhile_cons, hsp]
      · simp only [hlt, hg, hsp, and_false, if_false]
        rw [hd, List.dropWhile_cons]
        simp only [hsp, decide_False, Bool.false_eq_true, if_false]
    · have : SQL.drop i = [] := by simp; omega
      simp [hlt, this]

theorem reservedLoop_eq_find (p : Parser) (rws : List Text) :
    reservedLoop p rws =
      (rws.find? (fun rw => decide (ToUpper ((rest p).take rw.length) = rw))).map
        (fun rw => (rw, rw.length)) := by
  induction rws with
  | nil => rfl
  | cons rw rws ih =>
    simp only [reservedLoop, slice_min, List.find?_cons]
    by_cases h : ToUpper (List.take rw.length (List.drop p.i p.SQL)) = rw
    · simp [rest, h]
    · simp [rest, h, ih]

theorem peekWithLength_eq_scan (p : Parser) : peekWithLength p = scan (rest p) := by
  unfold peekWithLength scan firstReserved
  by_cases h : p.i ≥ p.SQL.length
  · have : rest p = [] := by simp [rest]; omega
    simp [h, this]
  · have hne : rest p ≠ [] := by simp [rest]; omega
    simp only [h, if_false, hne, reservedLoop_eq_find]
    cases List.find? (fun rw => decide (ToUpper (List.take rw.length (rest p)) = rw))
        reservedWords with
    | some rw => rfl
    | none =>
      simp only [Option.map_none', peekIdentifierWithLength]
      rw [identifierLoop_eq p.SQL p.i p.SQL.length 1 (by omega) (by omega)]
      rfl

theorem peek_eq_scan (p : Parser) : peek p = (scan (rest p)).1 := by
  simp [peek, peekWithLength_eq_scan]

theorem rest_pop (p : Parser) : rest (pop p) = afterPop (rest p) := by
  unfold pop popWhitespace rest afterPop
  simp only
  rw [popWhitespaceLoop_drop p.SQL p.SQL.length _ (by omega), peekWithLength_eq_scan,
    ← List.drop_drop]
  rfl

@[simp] theorem pop_Query (p : Parser) : (pop p).Query = p.Query := rfl

@[simp] theorem pop_step (p : Parser) : (pop p).step = p.step := rfl

@[simp] theorem pop_SQL (p : Parser) : (pop p).SQL = p.SQL := rfl

@[simp] theorem rest_mk (s : Text) (i : Nat) (q : Query) (st : step) :
    rest { SQL := s, i := i, Query := q, step := st } = s.drop i := rfl

/-! ## The engine depends on the parser only through the unread text -/

@[simp] theorem rest_onText (s : Text) (q : Query) (st : step) : rest (onText s q st) = s := rfl

@[simp] theorem norm_onText (s : Text) (q : Query) (st : step) :
    norm (onText s q st) = onText s q st := rfl

theorem norm_eq (p : Parser) (s : Text) (q : Query) (st : step)
    (hs : rest p = s) (hq : p.Query = q) (hst : p.step = st) : norm p = onText s q st := by
  simp [norm, hs, hq, hst]

theorem rest_with (a : Parser) (q : Query) (st : step) :
    rest { SQL := a.SQL, i := a.i, Query := q, step := st } = rest a := rfl

theorem rest_zero (s : Text) (q : Query) (st : step) :
    rest { SQL := s, i := 0, Query := q, step := st } = s := rfl

theorem iterate_norm (p : Parser) :
    (iterate (norm p)).2 = (iterate p).2 ∧ norm (iterate (norm p)).1 = norm (iterate p).1 := by
  cases hst : p.step <;>
    simp only [iterate, norm, onText, hst, peek_eq_scan, rest_pop, pop_Query, pop_step,
      rest_with, rest_zero] <;>
    (try split_ifs) <;> (try split) <;>
    simp only [rest_pop, pop_Query, pop_step, rest_with, rest_zero, hst, and_self]

/-- The loop returns the same outcome from a parser and from the parser restarted at
cursor 0 on its unread text. -/
theorem loop_norm (fuel : Nat) :
    ∀ p : Parser, (loop fuel (norm p)).map Prod.snd = (loop fuel p).map Prod.snd := by
  induction fuel with
  | zero => intro p; rfl
  | succ fuel ih =>
    intro p
    have hlt : (norm p).i < (norm p).SQL.length ↔ p.i < p.SQL.length := by
      rw [← rest_ne_nil_iff, ← rest_ne_nil_iff]; rfl
    obtain ⟨h2, h1⟩ := iterate_norm p
    unfold loop
    by_cases h : p.i < p.SQL.length
    · simp only [h, hlt, if_true]
      rcases hp : iterate p with ⟨p', o⟩
      rcases hn : iterate (norm p) with ⟨pn, o2⟩
      rw [hp, hn] at h2 h1
      simp only at h2 h1
      subst h2
      cases o2 with
      | some out => rfl
      | none =>
        simp only
        rw [← ih pn, ← ih p', h1]
    · simp only [h, hlt, if_false]
      rfl

theorem Parse_eq_run (fuel : Nat) (sql : Text) :
    Parse fuel freshParser sql = run fuel sql {} step.stepType := rfl

theorem run_nil (fuel : Nat) (q : Query) (st : step) :
    run (fuel + 1) [] q st = some (Outcome.ok q) := rfl

/-- One pass that goes on: the run continues from the text, record and state it leaves. -/
theorem run_pass (fuel : Nat) (s : Text) (q : Query) (st : step) (s' : Text) (q' : Query)
    (st' : step) (hs : s ≠ [])
    (h : iterate (onText s q st) = ((iterate (onText s q st)).1, none))
    (hn : norm (iterate (onText s q st)).1 = onText s' q' st') :
    run (fuel + 1) s q st = run fuel s' q' st' := by
  have hlt : (onText s q st).i < (onText s q st).SQL.length := by
    rw [← rest_ne_nil_iff]; exact hs
  unfold run
  rw [loop]
  simp only [hlt, if_true]
  rw [h]
  simp only
  rw [← loop_norm, hn]

/-- One pass that returns. -/
theorem run_return (fuel : Nat) (s : Text) (q : Query) (st : step) (out : Outcome) (hs : s ≠ [])
    (h : (iterate (onText s q st)).2 = some out) :
    run (fuel + 1) s q st = some out := by
  have hlt : (onText s q st).i < (onText s q st).SQL.length := by
    rw [← rest_ne_nil_iff]; exact hs
  unfold run
  rw [loop]
  simp only [hlt, if_true]
  rcases hp : iterate (onText s q st) with ⟨p', o⟩
  rw [hp] at h
  simp only at h
  subst h
  rfl

/-! ## Upper case and the reserved-word table -/

theorem upperByte_delim (d : Nat) (h : isDelim d = true) : upperByte d = d := by
  simp only [isDelim, decide_eq_true_eq] at h
  rcases h with h | h | h <;> subst h <;> rfl

theorem ToUpper_length_le (s : Text) : (ToUpper s).length ≤ s.length := by
  induction s using ToUpper.induct with
  | case1 => simp [ToUpper]
  | case2 b => simp [ToUpper]
  | case3 b c rest h ih => obtain ⟨rfl, rfl⟩ := h; simp [ToUpper]; omega
  | case4 b c rest h1 h2 ih => obtain ⟨rfl, rfl⟩ := h2; simp [ToUpper]; omega
  | case5 b c rest h1 h2 ih =>
    simp only [ToUpper, h1, h2, if_false, List.length_cons] at ih ⊢; omega

theorem ToUpper_eq_map (s : Text) (h : (ToUpper s).length = s.length) :
    ToUpper s = s.map upperByte := by
  induction s using ToUpper.induct with
  | case1 => rfl
  | case2 b => rfl
  | case3 b c rest h1 ih =>
    obtain ⟨rfl, rfl⟩ := h1
    simp [ToUpper] at h
    have := ToUpper_length_le rest
    omega
  | case4 b c rest h1 h2 ih =>
    obtain ⟨rfl, rfl⟩ := h2
    simp [ToUpper] at h
    have := ToUpper_length_le rest
    omega
  | case5 b c rest h1 h2 ih =>
    simp only [ToUpper, h1, h2, if_false, List.length_cons] at h ih ⊢
    rw [ih (by omega)]
    rfl

theorem matchesAt_map (s rw : Text) (h : matchesAt s rw) :
    rw.length ≤ s.length ∧ (s.take rw.length).map upperByte = rw := by
  unfold matchesAt at h
  have h1 := ToUpper_length_le (s.take rw.length)
  have h2 : (s.take rw.length).length ≤ rw.length := by simp
  have h3 : (ToUpper (s.take rw.length)).length = rw.length := by rw [h]
  have h4 : (s.take rw.length).length = rw.length := by omega
  refine ⟨?_, ?_⟩
  · simp only [List.length_take] at h4; omega
  · rw [← ToUpper_eq_map _ (by omega), h]

/-- In a reserved word a space, comma or closing parenthesis after the first byte is
the space of `GROUP BY` or `ORDER BY`. -/
theorem reserved_delim :
    ∀ rw ∈ reservedWords, ∀ k < rw.length, 1 ≤ k → isDelim (rw.getD k 0) = true →
      k = 5 ∧ rw.getD 5 0 = 32 ∧ rw.drop 6 = [66, 89] ∧
        (rw.take 5 = str "GROUP" ∨ rw.take 5 = str "ORDER") := by
  decide

/-- After a plain token cut by the end of the text or by a delimiter, no reserved word
matches, unless the token is `GROUP` or `ORDER` and ` BY` comes next. -/
theorem not_matchesAt_plain (tok r : Text) (hp : Plain tok) (hc : Cut r)
    (hby : byAhead r = false ∨
      (tok.map upperByte ≠ str "GROUP" ∧ tok.map upperByte ≠ str "ORDER")) :
    ∀ rw ∈ reservedWords, ¬ matchesAt (tok ++ r) rw := by
  intro rw hrw hm
  by_cases hle : rw.length ≤ tok.length
  · apply hp.2.2 rw hrw
    unfold matchesAt at hm ⊢
    rwa [List.take_append_of_le_length hle] at hm
  · obtain ⟨hlen, hmap⟩ := matchesAt_map _ _ hm
    have htok : 1 ≤ tok.length := by
      have := hp.1
      cases tok with
      | nil => exact absurd rfl this
      | cons a t => simp
    rcases hc with rfl | ⟨d, r', rfl, hd⟩
    · simp at hlen; omega
    · have heq : rw = tok.map upperByte ++
          d :: (r'.take (rw.length - tok.length - 1)).map upperByte := by
        conv_lhs => rw [← hmap]
        rw [List.take_append_eq_append_take, List.take_of_length_le (by omega)]
        have : rw.length - tok.length = (rw.length - tok.length - 1) + 1 := by omega
        rw [this, List.take_succ_cons]
        simp [upperByte_delim d hd]
      have hget : rw.getD tok.length 0 = d := by
        rw [heq, List.getD_eq_getElem?_getD, List.getElem?_append_right (by simp)]
        simp
      obtain ⟨h5, h32, hdrop, htake⟩ :=
        reserved_delim rw hrw tok.length (by omega) htok (by rw [hget]; exact hd)
      have hd32 : d = 32 := by rw [← hget, h5]; exact h32
      have htk : rw.take 5 = tok.map upperByte := by
        rw [heq, List.take_append_of_le_length (by simp [h5])]
        exact List.take_of_length_le (by simp [h5])
      have hdr : (r'.take (rw.length - tok.length - 1)).map upperByte = [66, 89] := by
        rw [← hdrop]
        conv_rhs => rw [heq]
        rw [List.drop_append_eq_append_drop]
        simp [h5]
      rcases hby with hby | hby
      · subst hd32
        match r', hdr with
        | [], h => simp at h
        | [_], h =>
          have := congrArg List.length h
          simp only [List.length_map, List.length_take, List.length_cons, List.length_nil] at this
          omega
        | b :: y :: r'', h =>
          cases hn : rw.length - tok.length - 1 with
          | zero => rw [hn] at h; simp at h
          | succ n =>
            cases n with
            | zero => rw [hn] at h; simp at h
            | succ n =>
              rw [hn] at h
              simp only [List.take_succ_cons, List.map_cons, List.cons.injEq] at h
              simp [byAhead, h.1, h.2.1] at hby
      · rw [← htk] at hby
        rcases htake with h | h
        · exact hby.1 h
        · exact hby.2 h

theorem takeWhile_cut (t r : Text) (ht : ∀ b ∈ t, isDelim b = false) (hc : Cut r) :
    (t ++ r).takeWhile (fun b => !isDelim b) = t := by
  rw [List.takeWhile_append_of_pos (by intro b hb; simp [ht b hb])]
  rcases hc with rfl | ⟨d, r', rfl, hd⟩
  · simp
  · simp [List.takeWhile_cons, hd]

theorem firstReserved_none (s : Text) (h : ∀ rw ∈ reservedWords, ¬ matchesAt s rw) :
    firstReserved s = none := by
  unfold firstReserved
  rw [List.find?_eq_none]
  intro rw hrw
  simpa [matchesAt] using h rw hrw

/-- The scanner on a plain token. -/
theorem scan_plain (tok r : Text) (hp : Plain tok) (hc : Cut r)
    (hby : byAhead r = false ∨
      (tok.map upperByte ≠ str "GROUP" ∧ tok.map upperByte ≠ str "ORDER")) :
    scan (tok ++ r) = (tok, tok.length) := by
  have hne : tok ++ r ≠ [] := by
    have := hp.1
    cases tok with
    | nil => exact absurd rfl this
    | cons a t => simp
  unfold scan
  rw [firstReserved_none _ (not_matchesAt_plain tok r hp hc hby)]
  simp only [hne, if_false]
  obtain ⟨a, t, rfl⟩ : ∃ a t, tok = a :: t := by
    cases tok with
    | nil => exact absurd rfl hp.1
    | cons a t => exact ⟨a, t, rfl⟩
  have ht : ∀ b ∈ t, isDelim b = false := fun b hb => hp.2.1 b (List.mem_cons_of_mem _ hb)
  have hk : ((a :: t ++ r).drop 1).takeWhile (fun b => !isDelim b) = t := by
    simpa using takeWhile_cut t r ht hc
  rw [hk]
  have hl : 1 + t.length = (a :: t).length := by simp; omega
  rw [hl, List.take_left']
  rfl

theorem afterPop_plain (tok r : Text) (hp : Plain tok) (hc : Cut r)
    (hby : byAhead r = false ∨
      (tok.map upperByte ≠ str "GROUP" ∧ tok.map upperByte ≠ str "ORDER")) :
    afterPop (tok ++ r) = skip r := by
  unfold afterPop
  rw [scan_plain tok r hp hc hby]
  simp

/-! ## The scanner on reserved words -/

theorem reservedWords_eq : reservedWords =
    [[40], [41], [62, 61], [60, 61], [33, 61], [44], [61], [62], [60],
     [83, 69, 76, 69, 67, 84], [73, 78, 83, 69, 82, 84], [73, 78, 84, 79],
     [86, 65, 76, 85, 69, 83], [85, 80, 68, 65, 84, 69], [68, 69, 76, 69, 84, 69],
     [87, 72, 69, 82, 69], [70, 82, 79, 77], [83, 69, 84],
     [71, 82, 79, 85, 80, 32, 66, 89], [79, 82, 68, 69, 82, 32, 66, 89],
     [72, 65, 86, 73, 78, 71]] := by decide

theorem ToUpper_cons (b : Nat) (s : Text) (h1 : b ≠ 197) (h2 : b ≠ 196) :
    ToUpper (b :: s) = upperByte b :: ToUpper s := by
  cases s with
  | nil => rfl
  | cons c t => simp [ToUpper, h1, h2]

theorem scan_reserved (s rw : Text) (hne : s ≠ []) (h : firstReserved s = some rw) :
    scan s = (rw, rw.length) := by
  unfold scan
  rw [h]
  simp [hne]

/-! ## The passes of the loop, as equations on the unread text -/

/-- One pass of the loop, in terms of the unread text. -/
theorem run_succ (fuel : Nat) (s : Text) (q : Query) (st : step) (hs : s ≠ []) :
    run (fuel + 1) s q st =
      match iterate (onText s q st) with
      | (_, some out) => some out
      | (p', none) => run fuel (rest p') p'.Query p'.step := by
  have hlt : (onText s q st).i < (onText s q st).SQL.length := by
    rw [← rest_ne_nil_iff]; exact hs
  unfold run
  rw [loop]
  simp only [hlt, if_true]
  rcases iterate (onText s q st) with ⟨p', o⟩
  cases o with
  | some out => rfl
  | none =>
    simp only
    rw [← loop_norm]
    rfl

theorem run_selectField (fuel : Nat) (s : Text) (q : Query) (hs : s ≠ []) :
    run (fuel + 1) s q step.stepSelectField =
      run fuel (afterPop s) { q with Fields := q.Fields ++ [(scan s).1] }
        step.stepSelectComma := by
  rw [run_succ fuel s q _ hs]
  simp only [iterate, onText, peek_eq_scan, rest_pop, pop_Query, pop_step, rest_with, rest_zero]

theorem run_selectComma (fuel : Nat) (s : Text) (q : Query) (hs : s ≠ []) :
    run (fuel + 1) s q step.stepSelectComma =
      if (scan s).1 ≠ str "," then run fuel s q step.stepSelectFrom
      else run fuel (afterPop s) q step.stepSelectField := by
  rw [run_succ fuel s q _ hs]
  simp only [iterate, onText, peek_eq_scan, rest_pop, pop_Query, pop_step, rest_with, rest_zero]
  split_ifs <;>
    simp only [rest_pop, pop_Query, pop_step, rest_with, rest_zero]

theorem run_selectFrom (fuel : Nat) (s : Text) (q : Query) (hs : s ≠ []) :
    run (fuel + 1) s q step.stepSelectFrom =
      if (scan s).1 ≠ str "FROM" then some parseError
      else run fuel (afterPop s) q step.stepSelectFromTable := by
  rw [run_succ fuel s q _ hs]
  simp only [iterate, onText, peek_eq_scan, rest_pop, pop_Query, pop_step, rest_with, rest_zero]
  split_ifs <;>
    simp only [rest_pop, pop_Query, pop_step, rest_with, rest_zero]

theorem run_type (fuel : Nat) (s : Text) (q : Query) (hs : s ≠ []) :
    run (fuel + 1) s q step.stepType =
      if ToUpper (scan s).1 = str "SELECT" then
        run fuel (afterPop s) { q with Type_ := str "SELECT" } step.stepSelectField
      else if ToUpper (scan s).1 = str "UPDATE" then
        run fuel (afterPop s) { q with Type_ := str "UPDATE" } step.stepUpdateTable
      else if ToUpper (scan s).1 = str "INSERT" then
        if (scan (afterPop s)).1 = str "INTO" then
          run fuel (afterPop (afterPop s)) { q with Type_ := str "INSERT" } step.stepInsertTable
        else some parseError
      else if ToUpper (scan s).1 = str "DELETE" then
        if (scan (afterPop s)).1 ≠ str "FROM" then some parseError
        else run fuel (afterPop (afterPop s)) { q with Type_ := str "DELETE" }
          step.stepDeleteFromTable
      else some parseError := by
  rw [run_succ fuel s q _ hs]
  simp only [iterate, onText, peek_eq_scan, rest_pop, pop_Query, pop_step, rest_with, rest_zero]
  split_ifs <;>
    simp only [rest_pop, pop_Query, pop_step, rest_with, rest_zero]

theorem run_selectFromTable (fuel : Nat) (s : Text) (q : Query) (hs : s ≠ []) :
    run (fuel + 1) s q step.stepSelectFromTable =
      run fuel (afterPop s) { q with TableName := (scan s).1 } step.stepWhere := by
  rw [run_succ fuel s q _ hs]
  simp only [iterate, onText, peek_eq_scan, rest_pop, pop_Query, pop_step, rest_with, rest_zero]

theorem run_deleteFromTable (fuel : Nat) (s : Text) (q : Query) (hs : s ≠ []) :
    run (fuel + 1) s q step.stepDeleteFromTable =
      run fuel (afterPop s) { q with TableName := (scan s).1 } step.stepWhere := by
  rw [run_succ fuel s q _ hs]
  simp only [iterate, onText, peek_eq_scan, rest_pop, pop_Query, pop_step, rest_with, rest_zero]

theorem run_where (fuel : Nat) (s : Text) (q : Query) (hs : s ≠ []) :
    run (fuel + 1) s q step.stepWhere =
      if (scan s).1 ≠ str "WHERE" then some parseError
      else run fuel (afterPop s) q step.stepWhereField := by
  rw [run_succ fuel s q _ hs]
  simp only [iterate, onText, peek_eq_scan, rest_pop, pop_Query, pop_step, rest_with, rest_zero]
  split_ifs <;>
    simp only [rest_pop, pop_Query, pop_step, rest_with, rest_zero]

theorem run_whereField (fuel : Nat) (s : Text) (q : Query) (hs : s ≠ []) :
    run (fuel + 1) s q step.stepWhereField =
      run fuel (afterPop s) { q with Condition := q.Condition ++ [(scan s).1] }
        step.stepWhereOperator := by
  rw [run_succ fuel s q _ hs]
  simp only [iterate, onText, peek_eq_scan, rest_pop, pop_Query, pop_step, rest_with, rest_zero]

theorem run_whereOperator (fuel : Nat) (s : Text) (q : Query) (hs : s ≠ []) :
    run (fuel + 1) s q step.stepWhereOperator =
      run fuel (afterPop s) { q with Condition := q.Condition ++ [(scan s).1] }
        step.stepWhereValue := by
  rw [run_succ fuel s q _ hs]
  simp only [iterate, onText, peek_eq_scan, rest_pop, pop_Query, pop_step, rest_with, rest_zero]

theorem run_whereValue (fuel : Nat) (s : Text) (q : Query) (hs : s ≠ []) :
    run (fuel + 1) s q step.stepWhereValue =
      if (scan (afterPop s)).1 = str "ORDER BY" then
        run fuel (afterPop s) { q with Condition := q.Condition ++ [(scan s).1] }
          step.stepOrderBy
      else if (scan (afterPop s)).1 = str "GROUP BY" then
        run fuel (afterPop s) { q with Condition := q.Condition ++ [(scan s).1] }
          step.stepGroupBy
      else
        run fuel (afterPop s) { q with Condition := q.Condition ++ [(scan s).1] }
          step.stepWhereOperator := by
  rw [run_succ fuel s q _ hs]
  simp only [iterate, onText, peek_eq_scan, rest_pop, pop_Query, pop_step, rest_with, rest_zero]
  split_ifs <;>
    simp only [rest_pop, pop_Query, pop_step, rest_with, rest_zero]

theorem run_orderBy (fuel : Nat) (s : Text) (q : Query) (hs : s ≠ []) :
    run (fuel + 1) s q step.stepOrderBy =
      run fuel (afterPop s) q step.stepOrderByField := by
  rw [run_succ fuel s q _ hs]
  simp only [iterate, onText, peek_eq_scan, rest_pop, pop_Query, pop_step, rest_with, rest_zero]

theorem run_groupBy (fuel : Nat) (s : Text) (q : Query) (hs : s ≠ []) :
    run (fuel + 1) s q step.stepGroupBy =
      run fuel (afterPop s) q step.stepGroupByField := by
  rw [run_succ fuel s q _ hs]
  simp only [iterate, onText, peek_eq_scan, rest_pop, pop_Query, pop_step, rest_with, rest_zero]

theorem run_orderByField (fuel : Nat) (s : Text) (q : Query) (hs : s ≠ []) :
    run (fuel + 1) s q step.stepOrderByField =
      if (scan (afterPop s)).1 = str "," then
        run fuel (afterPop s) { q with OrderByFields := q.OrderByFields ++ [(scan s).1] }
          step.stepOrderByComma
      else
        run fuel (afterPop s) { q with OrderByFields := q.OrderByFields ++ [(scan s).1] }
          step.stepEnd := by
  rw [run_succ fuel s q _ hs]
  simp only [iterate, onText, peek_eq_scan, rest_pop, pop_Query, pop_step, rest_with, rest_zero]
  split_ifs <;>
    simp only [rest_pop, pop_Query, pop_step, rest_with, rest_zero]

theorem run_groupByField (fuel : Nat) (s : Text) (q : Query) (hs : s ≠ []) :
    run (fuel + 1) s q step.stepGroupByField =
      if (scan (afterPop s)).1 = str "ORDER BY" then
        run fuel (afterPop s) { q with GroupByFields := q.GroupByFields ++ [(scan s).1] }
          step.stepOrderBy
      else if (scan (afterPop s)).1 = str "," then
        run fuel (afterPop s) { q with GroupByFields := q.GroupByFields ++ [(scan s).1] }
          step.stepGroupByComma
      else
        run fuel (afterPop s) { q with GroupByFields := q.GroupByFields ++ [(scan s).1] }
          step.stepEnd := by
  rw [run_succ fuel s q _ hs]
  simp only [iterate, onText, peek_eq_scan, rest_pop, pop_Query, pop_step, rest_with, rest_zero]
  split_ifs <;>
    simp only [rest_pop, pop_Query, pop_step, rest_with, rest_zero]

theorem run_orderByComma (fuel : Nat) (s : Text) (q : Query) (hs : s ≠ []) :
    run (fuel + 1) s q step.stepOrderByComma =
      run fuel (afterPop s) q step.stepOrderByField := by
  rw [run_succ fuel s q _ hs]
  simp only [iterate, onText, peek_eq_scan, rest_pop, pop_Query, pop_step, rest_with, rest_zero]

theorem run_groupByComma (fuel : Nat) (s : Text) (q : Query) (hs : s ≠ []) :
    run (fuel + 1) s q step.stepGroupByComma =
      run fuel (afterPop s) q step.stepGroupByField := by
  rw [run_succ fuel s q _ hs]
  simp only [iterate, onText, peek_eq_scan, rest_pop, pop_Query, pop_step, rest_with, rest_zero]

theorem run_insertTable (fuel : Nat) (s : Text) (q : Query) (hs : s ≠ []) :
    run (fuel + 1) s q step.stepInsertTable =
      run fuel (afterPop s) { q with TableName := (scan s).1 }
        step.stepInsertFieldsOpeningParens := by
  rw [run_succ fuel s q _ hs]
  simp only [iterate, onText, peek_eq_scan, rest_pop, pop_Query, pop_step, rest_with, rest_zero]

theorem run_insertFieldsOpeningParens (fuel : Nat) (s : Text) (q : Query) (hs : s ≠ []) :
    run (fuel + 1) s q step.stepInsertFieldsOpeningParens =
      if (scan s).1 = str "(" then run fuel (afterPop s) q step.stepInsertFields
      else if (scan s).1 = str "VALUES" then run fuel s q step.stepInsertValuesRWord
      else some parseError := by
  rw [run_succ fuel s q _ hs]
  simp only [iterate, onText, peek_eq_scan, rest_pop, pop_Query, pop_step, rest_with, rest_zero]
  split_ifs <;>
    simp only [rest_pop, pop_Query, pop_step, rest_with, rest_zero]

theorem run_insertFields (fuel : Nat) (s : Text) (q : Query) (hs : s ≠ []) :
    run (fuel + 1) s q step.stepInsertFields =
      run fuel (afterPop s) { q with Fields := q.Fields ++ [(scan s).1] }
        step.stepInsertFieldsCommaOrClosingParens := by
  rw [run_succ fuel s q _ hs]
  simp only [iterate, onText, peek_eq_scan, rest_pop, pop_Query, pop_step, rest_with, rest_zero]

theorem run_insertFieldsCommaOrClosingParens (fuel : Nat) (s : Text) (q : Query) (hs : s ≠ []) :
    run (fuel + 1) s q step.stepInsertFieldsCommaOrClosingParens =
      if (scan s).1 = str "," then run fuel (afterPop s) q step.stepInsertFields
      else if (scan s).1 = str ")" then run fuel (afterPop s) q step.stepInsertValuesRWord
      else some parseError := by
  rw [run_succ fuel s q _ hs]
  simp only [iterate, onText, peek_eq_scan, rest_pop, pop_Query, pop_step, rest_with, rest_zero]
  split_ifs <;>
    simp only [rest_pop, pop_Query, pop_step, rest_with, rest_zero]

theorem run_insertValuesRWord (fuel : Nat) (s : Text) (q : Query) (hs : s ≠ []) :
    run (fuel + 1) s q step.stepInsertValuesRWord =
      if (scan s).1 ≠ str "VALUES" then some parseError
      else run fuel (afterPop s) q step.stepInsertValuesOpeningParens := by
  rw [run_succ fuel s q _ hs]
  simp only [iterate, onText, peek_eq_scan, rest_pop, pop_Query, pop_step, rest_with, rest_zero]
  split_ifs <;>
    simp only [rest_pop, pop_Query, pop_step, rest_with, rest_zero]

theorem run_insertValuesOpeningParens (fuel : Nat) (s : Text) (q : Query) (hs : s ≠ []) :
    run (fuel + 1) s q step.stepInsertValuesOpeningParens =
      if (scan s).1 = str "(" then
        run fuel (afterPop s) { q with InsertValues := q.InsertValues ++ [[]] }
          step.stepInsertValues
      else some parseError := by
  rw [run_succ fuel s q _ hs]
  simp only [iterate, onText, peek_eq_scan, rest_pop, pop_Query, pop_step, rest_with, rest_zero]
  split_ifs <;>
    simp only [rest_pop, pop_Query, pop_step, rest_with, rest_zero]

theorem run_insertValuesCommaOrClosingParens (fuel : Nat) (s : Text) (q : Query) (hs : s ≠ []) :
    run (fuel + 1) s q step.stepInsertValuesCommaOrClosingParens =
      if (scan s).1 = str "," then run fuel (afterPop s) q step.stepInsertValues
      else if (scan s).1 = str ")" then
        run fuel (afterPop s) q step.stepInsertValuesCommaBeforeOpeningParens
      else some parseError := by
  rw [run_succ fuel s q _ hs]
  simp only [iterate, onText, peek_eq_scan, rest_pop, pop_Query, pop_step, rest_with, rest_zero]
  split_ifs <;>
    simp only [rest_pop, pop_Query, pop_step, rest_with, rest_zero]

theorem run_insertValuesCommaBeforeOpeningParens (fuel : Nat) (s : Text) (q : Query) (hs : s ≠ []) :
    run (fuel + 1) s q step.stepInsertValuesCommaBeforeOpeningParens =
      if (scan s).1 = str "," then run fuel (afterPop s) q step.stepInsertValuesOpeningParens
      else some parseError := by
  rw [run_succ fuel s q _ hs]
  simp only [iterate, onText, peek_eq_scan, rest_pop, pop_Query, pop_step, rest_with, rest_zero]
  split_ifs <;>
    simp only [rest_pop, pop_Query, pop_step, rest_with, rest_zero]

theorem run_updateTable (fuel : Nat) (s : Text) (q : Query) (hs : s ≠ []) :
    run (fuel + 1) s q step.stepUpdateTable =
      if (scan s).1 = str "SET" then some parseError
      else run fuel (afterPop s) { q with TableName := (scan s).1 } step.stepUpdateSet := by
  rw [run_succ fuel s q _ hs]
  simp only [iterate, onText, peek_eq_scan, rest_pop, pop_Query, pop_step, rest_with, rest_zero]
  split_ifs <;>
    simp only [rest_pop, pop_Query, pop_step, rest_with, rest_zero]

theorem run_updateSet (fuel : Nat) (s : Text) (q : Query) (hs : s ≠ []) :
    run (fuel + 1) s q step.stepUpdateSet =
      if (scan s).1 ≠ str "SET" then some parseError
      else run fuel (afterPop s) q step.stepUpdateField := by
  rw [run_succ fuel s q _ hs]
  simp only [iterate, onText, peek_eq_scan, rest_pop, pop_Query, pop_step, rest_with, rest_zero]
  split_ifs <;>
    simp only [rest_pop, pop_Query, pop_step, rest_with, rest_zero]

theorem run_updateField (fuel : Nat) (s : Text) (q : Query) (hs : s ≠ []) :
    run (fuel + 1) s q step.stepUpdateField =
      run fuel (afterPop s) { q with Fields := q.Fields ++ [(scan s).1] }
        step.stepUpdateEquals := by
  rw [run_succ fuel s q _ hs]
  simp only [iterate, onText, peek_eq_scan, rest_pop, pop_Query, pop_step, rest_with, rest_zero]

theorem run_updateEquals (fuel : Nat) (s : Text) (q : Query) (hs : s ≠ []) :
    run (fuel + 1) s q step.stepUpdateEquals =
      if (scan s).1 ≠ str "=" then some parseError
      else run fuel (afterPop s) q step.stepUpdateValue := by
  rw [run_succ fuel s q _ hs]
  simp only [iterate, onText, peek_eq_scan, rest_pop, pop_Query, pop_step, rest_with, rest_zero]
  split_ifs <;>
    simp only [rest_pop, pop_Query, pop_step, rest_with, rest_zero]

theorem run_updateValue (fuel : Nat) (s : Text) (q : Query) (hs : s ≠ []) :
    run (fuel + 1) s q step.stepUpdateValue =
      run fuel (afterPop s) { q with UpdateValues := q.UpdateValues ++ [(scan s).1] }
        step.stepUpdateComma := by
  rw [run_succ fuel s q _ hs]
  simp only [iterate, onText, peek_eq_scan, rest_pop, pop_Query, pop_step, rest_with, rest_zero]

theorem run_updateComma (fuel : Nat) (s : Text) (q : Query) (hs : s ≠ []) :
    run (fuel + 1) s q step.stepUpdateComma =
      if (scan s).1 = str "," then run fuel (afterPop s) q step.stepUpdateField
      else if (scan s).1 = str "WHERE" then run fuel s q step.stepWhere
      else run fuel s q step.stepUpdateComma := by
  rw [run_succ fuel s q _ hs]
  simp only [iterate, onText, peek_eq_scan, rest_pop, pop_Query, pop_step, rest_with, rest_zero]
  split_ifs <;>
    simp only [rest_pop, pop_Query, pop_step, rest_with, rest_zero]

theorem run_end (fuel : Nat) (s : Text) (q : Query) (hs : s ≠ []) :
    run (fuel + 1) s q step.stepEnd =
      run fuel s q step.stepEnd := by
  rw [run_succ fuel s q _ hs]
  simp only [iterate, onText, peek_eq_scan, rest_pop, pop_Query, pop_step, rest_with, rest_zero]

theorem run_insertValues (fuel : Nat) (s : Text) (q : Query) (hs : s ≠ []) :
    run (fuel + 1) s q step.stepInsertValues =
      match q.InsertValues.getLast? with
      | none => some Outcome.panic
      | some last =>
        run fuel (afterPop s)
          { q with InsertValues := q.InsertValues.dropLast ++ [last ++ [(scan s).1]] }
          step.stepInsertValuesCommaOrClosingParens := by
  rw [run_succ fuel s q _ hs]
  cases h : q.InsertValues.getLast? <;>
    simp only [iterate, onText, peek_eq_scan, rest_pop, pop_Query, pop_step, rest_with,
      rest_zero, h]

/-! ## Reading one token -/

theorem skip_nil : skip [] = [] := rfl

theorem skip_space (r : Text) : skip (32 :: r) = skip r := by simp [skip]

theorem skip_cons (b : Nat) (r : Text) (h : b ≠ 32) : skip (b :: r) = b :: r := by
  simp [skip, h]

theorem skip_replicate (k : Nat) (r : Text) : skip (List.replicate k 32 ++ r) = skip r := by
  induction k with
  | zero => rfl
  | succ k ih => rw [List.replicate_succ, List.cons_append, skip_space, ih]

theorem skip_plain (tok r : Text) (hp : Plain tok) : skip (tok ++ r) = tok ++ r := by
  obtain ⟨hne, hd, _⟩ := hp
  cases tok with
  | nil => exact absurd rfl hne
  | cons a t =>
    have := hd a (List.mem_cons_self _ _)
    have ha : a ≠ 32 := by
      intro h; subst h; simp [isDelim] at this
    rw [List.cons_append, skip_cons a _ ha]

theorem reads_plain (tok r : Text) (hp : Plain tok) (hc : Cut r)
    (hby : byAhead r = false ∨
      (tok.map upperByte ≠ str "GROUP" ∧ tok.map upperByte ≠ str "ORDER")) :
    Reads (tok ++ r) tok (skip r) := by
  refine ⟨?_, ?_, afterPop_plain tok r hp hc hby⟩
  · have := hp.1
    cases tok with
    | nil => exact absurd rfl this
    | cons a t => simp
  · rw [scan_plain tok r hp hc hby]

theorem reads_reserved (kw r : Text) (hne : kw ≠ [])
    (h : firstReserved (kw ++ r) = some kw) : Reads (kw ++ r) kw (skip r) := by
  have hs : kw ++ r ≠ [] := by
    cases kw with
    | nil => exact absurd rfl hne
    | cons a t => simp
  refine ⟨hs, ?_, ?_⟩
  · rw [scan_reserved _ _ hs h]
  · unfold afterPop
    rw [scan_reserved _ _ hs h]
    simp

theorem first_SELECT (r : Text) : firstReserved (str "SELECT" ++ r) = some (str "SELECT") := by
  have h : str "SELECT" = [83, 69, 76, 69, 67, 84] := by decide
  rw [h, firstReserved, reservedWords_eq]
  simp [List.find?_cons, ToUpper_cons, upperByte, ToUpper]

theorem first_INSERT (r : Text) : firstReserved (str "INSERT" ++ r) = some (str "INSERT") := by
  have h : str "INSERT" = [73, 78, 83, 69, 82, 84] := by decide
  rw [h, firstReserved, reservedWords_eq]
  simp [List.find?_cons, ToUpper_cons, upperByte, ToUpper]

theorem first_INTO (r : Text) : firstReserved (str "INTO" ++ r) = some (str "INTO") := by
  have h : str "INTO" = [73, 78, 84, 79] := by decide
  rw [h, firstReserved, reservedWords_eq]
  simp [List.find?_cons, ToUpper_cons, upperByte, ToUpper]

theorem first_VALUES (r : Text) : firstReserved (str "VALUES" ++ r) = some (str "VALUES") := by
  have h : str "VALUES" = [86, 65, 76, 85, 69, 83] := by decide
  rw [h, firstReserved, reservedWords_eq]
  simp [List.find?_cons, ToUpper_cons, upperByte, ToUpper]

theorem first_UPDATE (r : Text) : firstReserved (str "UPDATE" ++ r) = some (str "UPDATE") := by
  have h : str "UPDATE" = [85, 80, 68, 65, 84, 69] := by decide
  rw [h, firstReserved, reservedWords_eq]
  simp [List.find?_cons, ToUpper_cons, upperByte, ToUpper]

theorem first_DELETE (r : Text) : firstReserved (str "DELETE" ++ r) = some (str "DELETE") := by
  have h : str "DELETE" = [68, 69, 76, 69, 84, 69] := by decide
  rw [h, firstReserved, reservedWords_eq]
  simp [List.find?_cons, ToUpper_cons, upperByte, ToUpper]

theorem first_WHERE (r : Text) : firstReserved (str "WHERE" ++ r) = some (str "WHERE") := by
  have h : str "WHERE" = [87, 72, 69, 82, 69] := by decide
  rw [h, firstReserved, reservedWords_eq]
  simp [List.find?_cons, ToUpper_cons, upperByte, ToUpper]

theorem first_FROM (r : Text) : firstReserved (str "FROM" ++ r) = some (str "FROM") := by
  have h : str "FROM" = [70, 82, 79, 77] := by decide
  rw [h, firstReserved, reservedWords_eq]
  simp [List.find?_cons, ToUpper_cons, upperByte, ToUpper]

theorem first_SET (r : Text) : firstReserved (str "SET" ++ r) = some (str "SET") := by
  have h : str "SET" = [83, 69, 84] := by decide
  rw [h, firstReserved, reservedWords_eq]
  simp [List.find?_cons, ToUpper_cons, upperByte, ToUpper]

theorem first_GROUP_BY (r : Text) :
    firstReserved (str "GROUP BY" ++ r) = some (str "GROUP BY") := by
  have h : str "GROUP BY" = [71, 82, 79, 85, 80, 32, 66, 89] := by decide
  rw [h, firstReserved, reservedWords_eq]
  simp [List.find?_cons, ToUpper_cons, upperByte, ToUpper]

theorem first_ORDER_BY (r : Text) :
    firstReserved (str "ORDER BY" ++ r) = some (str "ORDER BY") := by
  have h : str "ORDER BY" = [79, 82, 68, 69, 82, 32, 66, 89] := by decide
  rw [h, firstReserved, reservedWords_eq]
  simp [List.find?_cons, ToUpper_cons, upperByte, ToUpper]

theorem first_open (r : Text) : firstReserved (str "(" ++ r) = some (str "(") := by
  have h : str "(" = [40] := by decide
  rw [h, firstReserved, reservedWords_eq]
  simp [List.find?_cons, ToUpper_cons, upperByte, ToUpper]

theorem first_close (r : Text) : firstReserved (str ")" ++ r) = some (str ")") := by
  have h : str ")" = [41] := by decide
  rw [h, firstReserved, reservedWords_eq]
  simp [List.find?_cons, ToUpper_cons, upperByte, ToUpper]

theorem first_comma (r : Text) : firstReserved (str "," ++ r) = some (str ",") := by
  have h : str "," = [44] := by decide
  rw [h, firstReserved, reservedWords_eq]
  simp [List.find?_cons, ToUpper_cons, upperByte, ToUpper]

theorem first_eq (r : Text) : firstReserved (str "=" ++ r) = some (str "=") := by
  have h : str "=" = [61] := by decide
  rw [h, firstReserved, reservedWords_eq]
  simp [List.find?_cons, ToUpper_cons, upperByte, ToUpper]

/-! ## Runs that never return -/

/-- More passes do not change a result already returned. -/
theorem loop_mono (fuel d : Nat) :
    ∀ (p : Parser) (r : Parser × Outcome), loop fuel p = some r → loop (fuel + d) p = some r := by
  induction fuel with
  | zero => intro p r h; simp [loop] at h
  | succ fuel ih =>
    intro p r h
    have e : fuel + 1 + d = (fuel + d) + 1 := by omega
    rw [e]
    unfold loop at h ⊢
    by_cases hlt : p.i < p.SQL.length
    · simp only [hlt, if_true] at h ⊢
      rcases hp : iterate p with ⟨p', o⟩
      rw [hp] at h
      cases o with
      | some out => exact h
      | none => exact ih p' r h
    · simp only [hlt, if_false] at h ⊢
      exact h

theorem loop_pass (fuel : Nat) (p p' : Parser) (hlt : p.i < p.SQL.length)
    (hp : iterate p = (p', none)) : loop (fuel + 1) p = loop fuel p' := by
  rw [loop]
  simp only [hlt, if_true, hp]

theorem loop_add (k n : Nat) :
    ∀ p : Parser, loop k p = none → loop (k + n) p = loop n (advance k p) := by
  induction k with
  | zero => intro p _; simp [advance]
  | succ k ih =>
    intro p h
    have e : k + 1 + n = (k + n) + 1 := by omega
    rw [e]
    rw [loop] at h
    by_cases hlt : p.i < p.SQL.length
    · simp only [hlt, if_true] at h
      rcases hp : iterate p with ⟨p', o⟩
      rw [hp] at h
      cases o with
      | some out => simp at h
      | none =>
        simp only at h
        rw [loop_pass _ p p' hlt hp, ih p' h]
        simp [advance, hp]
    · simp [hlt] at h

/-- A parser before the end of its text that a pass leaves unchanged never returns. -/
theorem loop_stuck (p : Parser) (hlt : p.i < p.SQL.length) (h : iterate p = (p, none)) :
    ∀ fuel, loop fuel p = none := by
  intro fuel
  induction fuel with
  | zero => rfl
  | succ fuel ih =>
    rw [loop_pass fuel p p hlt h]
    exact ih

/-- A run that reaches such a parser in `k` passes never returns. -/
theorem loop_diverges (k : Nat) (p : Parser) (h1 : loop k p = none)
    (h2 : (advance k p).i < (advance k p).SQL.length)
    (h3 : iterate (advance k p) = (advance k p, none)) : ∀ fuel, loop fuel p = none := by
  intro fuel
  by_cases hle : fuel ≤ k
  · cases hf : loop fuel p with
    | none => rfl
    | some r =>
      have := loop_mono fuel (k - fuel) p r hf
      have e : fuel + (k - fuel) = k := by omega
      rw [e, h1] at this
      exact absurd this (by simp)
  · have e : fuel = k + (fuel - k) := by omega
    rw [e, loop_add k _ p h1]
    exact loop_stuck _ h2 h3 _

theorem Parse_mono (fuel d : Nat) (p : Parser) (sql : Text) (out : Outcome)
    (h : Parse fuel p sql = some out) : Parse (fuel + d) p sql = some out := by
  unfold Parse ParseRun at h ⊢
  cases hl : loop fuel { p with SQL := sql, Query := {}, step := step.stepType } with
  | none => rw [hl] at h; simp at h
  | some r =>
    rw [hl] at h
    rw [loop_mono fuel d _ r hl]
    exact h

/-! ## UPDATE: the lengths of Fields and UpdateValues -/

theorem iterate_updateInv (p : Parser) (h : updateInv p) (hn : (iterate p).2 = none) :
    updateInv (iterate p).1 := by
  obtain ⟨h1, h2⟩ := h
  have e1 : str "SELECT" ≠ str "UPDATE" := by decide
  have e2 : str "INSERT" ≠ str "UPDATE" := by decide
  have e3 : str "DELETE" ≠ str "UPDATE" := by decide
  cases hst : p.step <;> simp only [hst, ne_eq, not_true_eq_false, not_false_eq_true,
      true_implies, false_implies, reduceCtorEq] at h1 h2 <;>
    simp only [iterate, hst] at hn ⊢ <;>
    (try split at hn) <;> (try split_ifs at hn ⊢) <;>
    (try simp only [reduceCtorEq] at hn) <;>
    simp_all [updateInv, updateShape, e1, e2, e3]

/-- A pass of the loop returns only with an error or a panic. -/
theorem iterate_not_ok (p : Parser) (q : Query) : (iterate p).2 ≠ some (Outcome.ok q) := by
  cases hst : p.step <;> simp only [iterate, hst] <;>
    (try split) <;> (try split_ifs) <;> simp [parseError]

theorem loop_updateInv (fuel : Nat) :
    ∀ (p p' : Parser) (q : Query), updateInv p → loop fuel p = some (p', Outcome.ok q) →
      updateInv p' ∧ q = p'.Query := by
  induction fuel with
  | zero => intro p p' q _ h; simp [loop] at h
  | succ fuel ih =>
    intro p p' q hinv h
    rw [loop] at h
    by_cases hlt : p.i < p.SQL.length
    · simp only [hlt, if_true] at h
      have hpres := iterate_updateInv p hinv
      rcases hp : iterate p with ⟨p1, o⟩
      rw [hp] at h hpres
      cases o with
      | some out =>
        simp only [Option.some.injEq, Prod.mk.injEq] at h
        obtain ⟨rfl, rfl⟩ := h
        have := iterate_not_ok p q
        rw [hp] at this
        exact absurd rfl this
      | none => exact ih p1 p' q (hpres rfl) h
    · simp only [hlt, if_false, Option.some.injEq, Prod.mk.injEq, Outcome.ok.injEq] at h
      obtain ⟨rfl, rfl⟩ := h
      exact ⟨hinv, rfl⟩

/-! ## Operators and keywords in either case -/

theorem first_operator (op : Text) (h : op ∈ operators) (r : Text)
    (hr : r = [] ∨ ∃ r', r = 32 :: r') : firstReserved (op ++ r) = some op := by
  have e1 : str "=" = [61] := by decide
  have e2 : str ">" = [62] := by decide
  have e3 : str "<" = [60] := by decide
  have e4 : str ">=" = [62, 61] := by decide
  have e5 : str "<=" = [60, 61] := by decide
  have e6 : str "!=" = [33, 61] := by decide
  simp only [operators, e1, e2, e3, e4, e5, e6, List.mem_cons, List.mem_singleton,
    List.not_mem_nil, or_false] at h
  rcases hr with rfl | ⟨r', rfl⟩ <;> rcases h with rfl | rfl | rfl | rfl | rfl | rfl <;>
    rw [firstReserved, reservedWords_eq] <;>
    simp [List.find?_cons, ToUpper_cons, upperByte, ToUpper]

theorem operator_ne_nil (op : Text) (h : op ∈ operators) : op ≠ [] := by
  intro e
  subst e
  revert h
  decide

theorem upperByte_idem (b : Nat) : upperByte (upperByte b) = upperByte b := by
  unfold upperByte
  split_ifs <;> omega

theorem ToUpper_of_ascii (s : Text) (h : ∀ b ∈ s, b ≠ 197 ∧ b ≠ 196) :
    ToUpper s = s.map upperByte := by
  induction s with
  | nil => rfl
  | cons b t ih =>
    rw [ToUpper_cons b t (h b (List.mem_cons_self _ _)).1 (h b (List.mem_cons_self _ _)).2,
      ih (fun c hc => h c (List.mem_cons_of_mem _ hc))]
    rfl

theorem reserved_upper : ∀ rw ∈ reservedWords, ToUpper rw = rw := by decide

theorem reserved_ascii : ∀ rw ∈ reservedWords, ∀ b ∈ rw, b < 128 := by decide

theorem matchesAt_upper (s rw : Text) (hrw : rw ∈ reservedWords) :
    matchesAt s rw ↔ matchesAt (s.map upperByte) rw := by
  constructor
  · intro h
    obtain ⟨_, hm⟩ := matchesAt_map s rw h
    unfold matchesAt
    rw [← List.map_take, hm]
    exact reserved_upper rw hrw
  · intro h
    obtain ⟨_, hm⟩ := matchesAt_map _ rw h
    rw [← List.map_take, List.map_map] at hm
    have e : (s.take rw.length).map (upperByte ∘ upperByte)
        = (s.take rw.length).map upperByte := by
      apply List.map_congr_left
      intro b _
      exact upperByte_idem b
    have hm' : (s.take rw.length).map upperByte = rw := by rw [← e]; exact hm
    unfold matchesAt
    rw [ToUpper_of_ascii, hm']
    intro b hb
    have hmem : upperByte b ∈ rw := by
      rw [← hm']
      exact List.mem_map_of_mem _ hb
    have hlt := reserved_ascii rw hrw _ hmem
    unfold upperByte at hlt
    split_ifs at hlt <;> omega

theorem find_congr (l : List Text) (f g : Text → Bool) (h : ∀ x ∈ l, f x = g x) :
    l.find? f = l.find? g := by
  induction l with
  | nil => rfl
  | cons x t ih =>
    rw [List.find?_cons, List.find?_cons, h x (List.mem_cons_self _ _),
      ih (fun y hy => h y (List.mem_cons_of_mem _ hy))]

/-- The reserved word found at the head of a text does not depend on letter case. -/
theorem firstReserved_upper (s : Text) : firstReserved s = firstReserved (s.map upperByte) := by
  unfold firstReserved
  apply find_congr
  intro rw hrw
  have := matchesAt_upper s rw hrw
  unfold matchesAt at this
  simp only [this]

/-- A keyword written in any mix of upper and lower case is read as the keyword. -/
theorem reads_mixed (k kw r : Text) (hk : k.map upperByte = kw) (hne : kw ≠ [])
    (hfirst : ∀ r', firstReserved (kw ++ r') = some kw) : Reads (k ++ r) kw (skip r) := by
  have hlen : k.length = kw.length := by rw [← hk]; simp
  have hs : k ++ r ≠ [] := by
    intro e
    have : k = [] := (List.append_eq_nil.mp e).1
    rw [this] at hk
    exact hne hk.symm
  have hf : firstReserved (k ++ r) = some kw := by
    rw [firstReserved_upper, List.map_append, hk]
    exact hfirst _
  refine ⟨hs, ?_, ?_⟩
  · rw [scan_reserved _ _ hs hf]
  · unfold afterPop
    rw [scan_reserved _ _ hs hf]
    simp only
    rw [← hlen, List.drop_left]

/-! ## Runs that return -/

theorem yields_nil (q : Query) (st : step) : Yields [] q st (Outcome.ok q) := ⟨1, rfl⟩

theorem yields_step {s s' : Text} {q q' : Query} {st st' : step} {out : Outcome}
    (h : ∀ fuel, run (fuel + 1) s q st = run fuel s' q' st') (hy : Yields s' q' st' out) :
    Yields s q st out := by
  obtain ⟨fuel, hf⟩ := hy
  exact ⟨fuel + 1, by rw [h, hf]⟩

/-- The same with the text, record and state after the pass given outright. -/
theorem yields_via (s' : Text) (q' : Query) (st' : step) {s : Text} {q : Query} {st : step}
    {out : Outcome} (h : ∀ fuel, run (fuel + 1) s q st = run fuel s' q' st')
    (hy : Yields s' q' st' out) : Yields s q st out := yields_step h hy

theorem yields_return {s : Text} {q : Query} {st : step} {out : Outcome}
    (h : ∀ fuel, run (fuel + 1) s q st = some out) : Yields s q st out := ⟨1, h 0⟩

theorem yields_Parse {sql : Text} {out : Outcome} (h : Yields sql {} step.stepType out) :
    ∃ fuel, Parse fuel freshParser sql = some out := h

/-! ## The passes of the loop, token by token -/

theorem close_ne_comma : str ")" ≠ str "," := by decide

theorem yields_selectField {s tok s' : Text} {q : Query} {out : Outcome}
    (hr : Reads s tok s')
    (hy : Yields s' { q with Fields := q.Fields ++ [tok] } step.stepSelectComma out) :
    Yields s q step.stepSelectField out := by
  obtain ⟨hne, h1, h2⟩ := hr
  refine yields_step (fun fuel => ?_) hy
  rw [run_selectField fuel s q hne]
  simp [h1, h2]

theorem yields_selectComma {s s' : Text} {q : Query} {out : Outcome}
    (hr : Reads s (str ",") s')
    (hy : Yields s' q step.stepSelectField out) :
    Yields s q step.stepSelectComma out := by
  obtain ⟨hne, h1, h2⟩ := hr
  refine yields_step (fun fuel => ?_) hy
  rw [run_selectComma fuel s q hne]
  simp [h1, h2]

theorem yields_selectFromTable {s tok s' : Text} {q : Query} {out : Outcome}
    (hr : Reads s tok s')
    (hy : Yields s' { q with TableName := tok } step.stepWhere out) :
    Yields s q step.stepSelectFromTable out := by
  obtain ⟨hne, h1, h2⟩ := hr
  refine yields_step (fun fuel => ?_) hy
  rw [run_selectFromTable fuel s q hne]
  simp [h1, h2]

theorem yields_deleteFromTable {s tok s' : Text} {q : Query} {out : Outcome}
    (hr : Reads s tok s')
    (hy : Yields s' { q with TableName := tok } step.stepWhere out) :
    Yields s q step.stepDeleteFromTable out := by
  obtain ⟨hne, h1, h2⟩ := hr
  refine yields_step (fun fuel => ?_) hy
  rw [run_deleteFromTable fuel s q hne]
  simp [h1, h2]

theorem yields_where {s s' : Text} {q : Query} {out : Outcome}
    (hr : Reads s (str "WHERE") s')
    (hy : Yields s' q step.stepWhereField out) :
    Yields s q step.stepWhere out := by
  obtain ⟨hne, h1, h2⟩ := hr
  refine yields_step (fun fuel => ?_) hy
  rw [run_where fuel s q hne]
  simp [h1, h2]

theorem yields_whereField {s tok s' : Text} {q : Query} {out : Outcome}
    (hr : Reads s tok s')
    (hy : Yields s' { q with Condition := q.Condition ++ [tok] } step.stepWhereOperator out) :
    Yields s q step.stepWhereField out := by
  obtain ⟨hne, h1, h2⟩ := hr
  refine yields_step (fun fuel => ?_) hy
  rw [run_whereField fuel s q hne]
  simp [h1, h2]

theorem yields_whereOperator {s tok s' : Text} {q : Query} {out : Outcome}
    (hr : Reads s tok s')
    (hy : Yields s' { q with Condition := q.Condition ++ [tok] } step.stepWhereValue out) :
    Yields s q step.stepWhereOperator out := by
  obtain ⟨hne, h1, h2⟩ := hr
  refine yields_step (fun fuel => ?_) hy
  rw [run_whereOperator fuel s q hne]
  simp [h1, h2]

theorem yields_insertTable {s tok s' : Text} {q : Query} {out : Outcome}
    (hr : Reads s tok s')
    (hy : Yields s' { q with TableName := tok } step.stepInsertFieldsOpeningParens out) :
    Yields s q step.stepInsertTable out := by
  obtain ⟨hne, h1, h2⟩ := hr
  refine yields_step (fun fuel => ?_) hy
  rw [run_insertTable fuel s q hne]
  simp [h1, h2]

theorem yields_insertFieldsOpeningParens {s s' : Text} {q : Query} {out : Outcome}
    (hr : Reads s (str "(") s')
    (hy : Yields s' q step.stepInsertFields out) :
    Yields s q step.stepInsertFieldsOpeningParens out := by
  obtain ⟨hne, h1, h2⟩ := hr
  refine yields_step (fun fuel => ?_) hy
  rw [run_insertFieldsOpeningParens fuel s q hne]
  simp [h1, h2]

theorem yields_insertFields {s tok s' : Text} {q : Query} {out : Outcome}
    (hr : Reads s tok s')
    (hy : Yields s' { q with Fields := q.Fields ++ [tok] } step.stepInsertFieldsCommaOrClosingParens out) :
    Yields s q step.stepInsertFields out := by
  obtain ⟨hne, h1, h2⟩ := hr
  refine yields_step (fun fuel => ?_) hy
  rw [run_insertFields fuel s q hne]
  simp [h1, h2]

theorem yields_insertFieldsComma {s s' : Text} {q : Query} {out : Outcome}
    (hr : Reads s (str ",") s')
    (hy : Yields s' q step.stepInsertFields out) :
    Yields s q step.stepInsertFieldsCommaOrClosingParens out := by
  obtain ⟨hne, h1, h2⟩ := hr
  refine yields_step (fun fuel => ?_) hy
  rw [run_insertFieldsCommaOrClosingParens fuel s q hne]
  simp [h1, h2]

theorem yields_insertFieldsClose {s s' : Text} {q : Query} {out : Outcome}
    (hr : Reads s (str ")") s')
    (hy : Yields s' q step.stepInsertValuesRWord out) :
    Yields s q step.stepInsertFieldsCommaOrClosingParens out := by
  obtain ⟨hne, h1, h2⟩ := hr
  refine yields_step (fun fuel => ?_) hy
  rw [run_insertFieldsCommaOrClosingParens fuel s q hne]
  simp [h1, h2, close_ne_comma]

theorem yields_insertValuesRWord {s s' : Text} {q : Query} {out : Outcome}
    (hr : Reads s (str "VALUES") s')
    (hy : Yields s' q step.stepInsertValuesOpeningParens out) :
    Yields s q step.stepInsertValuesRWord out := by
  obtain ⟨hne, h1, h2⟩ := hr
  refine yields_step (fun fuel => ?_) hy
  rw [run_insertValuesRWord fuel s q hne]
  simp [h1, h2]

theorem yields_insertValuesOpeningParens {s s' : Text} {q : Query} {out : Outcome}
    (hr : Reads s (str "(") s')
    (hy : Yields s' { q with InsertValues := q.InsertValues ++ [[]] } step.stepInsertValues out) :
    Yields s q step.stepInsertValuesOpeningParens out := by
  obtain ⟨hne, h1, h2⟩ := hr
  refine yields_step (fun fuel => ?_) hy
  rw [run_insertValuesOpeningParens fuel s q hne]
  simp [h1, h2]

theorem yields_insertValuesComma {s s' : Text} {q : Query} {out : Outcome}
    (hr : Reads s (str ",") s')
    (hy : Yields s' q step.stepInsertValues out) :
    Yields s q step.stepInsertValuesCommaOrClosingParens out := by
  obtain ⟨hne, h1, h2⟩ := hr
  refine yields_step (fun fuel => ?_) hy
  rw [run_insertValuesCommaOrClosingParens fuel s q hne]
  simp [h1, h2]

theorem yields_insertValuesClose {s s' : Text} {q : Query} {out : Outcome}
    (hr : Reads s (str ")") s')
    (hy : Yields s' q step.stepInsertValuesCommaBeforeOpeningParens out) :
    Yields s q step.stepInsertValuesCommaOrClosingParens out := by
  obtain ⟨hne, h1, h2⟩ := hr
  refine yields_step (fun fuel => ?_) hy
  rw [run_insertValuesCommaOrClosingParens fuel s q hne]
  simp [h1, h2, close_ne_comma]

theorem yields_insertRowsComma {s s' : Text} {q : Query} {out : Outcome}
    (hr : Reads s (str ",") s')
    (hy : Yields s' q step.stepInsertValuesOpeningParens out) :
    Yields s q step.stepInsertValuesCommaBeforeOpeningParens out := by
  obtain ⟨hne, h1, h2⟩ := hr
  refine yields_step (fun fuel => ?_) hy
  rw [run_insertValuesCommaBeforeOpeningParens fuel s q hne]
  simp [h1, h2]

theorem yields_updateTable {s tok s' : Text} {q : Query} {out : Outcome}
    (hr : Reads s tok s')
    (hset : tok ≠ str "SET")
    (hy : Yields s' { q with TableName := tok } step.stepUpdateSet out) :
    Yields s q step.stepUpdateTable out := by
  obtain ⟨hne, h1, h2⟩ := hr
  refine yields_step (fun fuel => ?_) hy
  rw [run_updateTable fuel s q hne]
  simp [h1, h2, hset]

theorem yields_updateSet {s s' : Text} {q : Query} {out : Outcome}
    (hr : Reads s (str "SET") s')
    (hy : Yields s' q step.stepUpdateField out) :
    Yields s q step.stepUpdateSet out := by
  obtain ⟨hne, h1, h2⟩ := hr
  refine yields_step (fun fuel => ?_) hy
  rw [run_updateSet fuel s q hne]
  simp [h1, h2]

theorem yields_updateField {s tok s' : Text} {q : Query} {out : Outcome}
    (hr : Reads s tok s')
    (hy : Yields s' { q with Fields := q.Fields ++ [tok] } step.stepUpdateEquals out) :
    Yields s q step.stepUpdateField out := by
  obtain ⟨hne, h1, h2⟩ := hr
  refine yields_step (fun fuel => ?_) hy
  rw [run_updateField fuel s q hne]
  simp [h1, h2]

theorem yields_updateEquals {s s' : Text} {q : Query} {out : Outcome}
    (hr : Reads s (str "=") s')
    (hy : Yields s' q step.stepUpdateValue out) :
    Yields s q step.stepUpdateEquals out := by
  obtain ⟨hne, h1, h2⟩ := hr
  refine yields_step (fun fuel => ?_) hy
  rw [run_updateEquals fuel s q hne]
  simp [h1, h2]

theorem yields_updateValue {s tok s' : Text} {q : Query} {out : Outcome}
    (hr : Reads s tok s')
    (hy : Yields s' { q with UpdateValues := q.UpdateValues ++ [tok] } step.stepUpdateComma out) :
    Yields s q step.stepUpdateValue out := by
  obtain ⟨hne, h1, h2⟩ := hr
  refine yields_step (fun fuel => ?_) hy
  rw [run_updateValue fuel s q hne]
  simp [h1, h2]

theorem yields_updateComma {s s' : Text} {q : Query} {out : Outcome}
    (hr : Reads s (str ",") s')
    (hy : Yields s' q step.stepUpdateField out) :
    Yields s q step.stepUpdateComma out := by
  obtain ⟨hne, h1, h2⟩ := hr
  refine yields_step (fun fuel => ?_) hy
  rw [run_updateComma fuel s q hne]
  simp [h1, h2]

theorem yields_orderBy {s tok s' : Text} {q : Query} {out : Outcome}
    (hr : Reads s tok s')
    (hy : Yields s' q step.stepOrderByField out) :
    Yields s q step.stepOrderBy out := by
  obtain ⟨hne, h1, h2⟩ := hr
  refine yields_step (fun fuel => ?_) hy
  rw [run_orderBy fuel s q hne]
  simp [h1, h2]

theorem yields_groupBy {s tok s' : Text} {q : Query} {out : Outcome}
    (hr : Reads s tok s')
    (hy : Yields s' q step.stepGroupByField out) :
    Yields s q step.stepGroupBy out := by
  obtain ⟨hne, h1, h2⟩ := hr
  refine yields_step (fun fuel => ?_) hy
  rw [run_groupBy fuel s q hne]
  simp [h1, h2]

theorem yields_orderByComma {s tok s' : Text} {q : Query} {out : Outcome}
    (hr : Reads s tok s')
    (hy : Yields s' q step.stepOrderByField out) :
    Yields s q step.stepOrderByComma out := by
  obtain ⟨hne, h1, h2⟩ := hr
  refine yields_step (fun fuel => ?_) hy
  rw [run_orderByComma fuel s q hne]
  simp [h1, h2]

theorem yields_groupByComma {s tok s' : Text} {q : Query} {out : Outcome}
    (hr : Reads s tok s')
    (hy : Yields s' q step.stepGroupByField out) :
    Yields s q step.stepGroupByComma out := by
  obtain ⟨hne, h1, h2⟩ := hr
  refine yields_step (fun fuel => ?_) hy
  rw [run_groupByComma fuel s q hne]
  simp [h1, h2]

theorem scan_nil : scan [] = ([], 0) := rfl

theorem upper_SELECT : ToUpper (str "SELECT") = str "SELECT" := by decide

theorem upper_UPDATE : ToUpper (str "UPDATE") = str "UPDATE" := by decide

theorem upper_INSERT : ToUpper (str "INSERT") = str "INSERT" := by decide

theorem upper_DELETE : ToUpper (str "DELETE") = str "DELETE" := by decide

theorem yields_type_select {s s' : Text} {q : Query} {out : Outcome}
    (hr : Reads s (str "SELECT") s')
    (hy : Yields s' { q with Type_ := str "SELECT" } step.stepSelectField out) :
    Yields s q step.stepType out := by
  obtain ⟨hne, h1, h2⟩ := hr
  refine yields_step (fun fuel => ?_) hy
  rw [run_type fuel s q hne]
  simp [h1, h2, upper_SELECT]

theorem yields_type_update {s s' : Text} {q : Query} {out : Outcome}
    (hr : Reads s (str "UPDATE") s')
    (hy : Yields s' { q with Type_ := str "UPDATE" } step.stepUpdateTable out) :
    Yields s q step.stepType out := by
  obtain ⟨hne, h1, h2⟩ := hr
  have e : str "UPDATE" ≠ str "SELECT" := by decide
  refine yields_step (fun fuel => ?_) hy
  rw [run_type fuel s q hne]
  simp [h1, h2, upper_UPDATE, e]

theorem yields_type_insert {s s' s'' : Text} {q : Query} {out : Outcome}
    (hr : Reads s (str "INSERT") s') (hi : Reads s' (str "INTO") s'')
    (hy : Yields s'' { q with Type_ := str "INSERT" } step.stepInsertTable out) :
    Yields s q step.stepType out := by
  obtain ⟨hne, h1, h2⟩ := hr
  obtain ⟨_, h3, h4⟩ := hi
  have e1 : str "INSERT" ≠ str "SELECT" := by decide
  have e2 : str "INSERT" ≠ str "UPDATE" := by decide
  refine yields_step (fun fuel => ?_) hy
  rw [run_type fuel s q hne]
  simp [h1, h2, h3, h4, upper_INSERT, e1, e2]

theorem yields_type_delete {s s' s'' : Text} {q : Query} {out : Outcome}
    (hr : Reads s (str "DELETE") s') (hi : Reads s' (str "FROM") s'')
    (hy : Yields s'' { q with Type_ := str "DELETE" } step.stepDeleteFromTable out) :
    Yields s q step.stepType out := by
  obtain ⟨hne, h1, h2⟩ := hr
  obtain ⟨_, h3, h4⟩ := hi
  have e1 : str "DELETE" ≠ str "SELECT" := by decide
  have e2 : str "DELETE" ≠ str "UPDATE" := by decide
  have e3 : str "DELETE" ≠ str "INSERT" := by decide
  refine yields_step (fun fuel => ?_) hy
  rw [run_type fuel s q hne]
  simp [h1, h2, h3, h4, upper_DELETE, e1, e2, e3]

/-- After the last field of a SELECT: the state that looks for a comma passes the text
on unread, and the next state consumes `FROM`. -/
theorem yields_selectComma_from {s s' : Text} {q : Query} {out : Outcome}
    (hr : Reads s (str "FROM") s') (hy : Yields s' q step.stepSelectFromTable out) :
    Yields s q step.stepSelectComma out := by
  obtain ⟨hne, h1, h2⟩ := hr
  have e : str "FROM" ≠ str "," := by decide
  refine yields_via s q
    step.stepSelectFrom (fun fuel => ?_) ?_
  · rw [run_selectComma fuel s q hne]
    simp [h1, e]
  · refine yields_step (fun fuel => ?_) hy
    rw [run_selectFrom fuel s q hne]
    simp [h1, h2]

/-- An INSERT without a column group: `VALUES` is passed on unread, then consumed. -/
theorem yields_insertNoFields {s s' : Text} {q : Query} {out : Outcome}
    (hr : Reads s (str "VALUES") s') (hy : Yields s' q step.stepInsertValuesOpeningParens out) :
    Yields s q step.stepInsertFieldsOpeningParens out := by
  obtain ⟨hne, h1, h2⟩ := hr
  have e : str "VALUES" ≠ str "(" := by decide
  refine yields_via s q
    step.stepInsertValuesRWord (fun fuel => ?_) ?_
  · rw [run_insertFieldsOpeningParens fuel s q hne]
    simp [h1, e]
  · refine yields_step (fun fuel => ?_) hy
    rw [run_insertValuesRWord fuel s q hne]
    simp [h1, h2]

theorem yields_insertValues {s tok s' : Text} {q : Query} {out : Outcome}
    {rows : List (List Text)} {row : List Text}
    (hr : Reads s tok s') (hq : q.InsertValues = rows ++ [row])
    (hy : Yields s' { q with InsertValues := rows ++ [row ++ [tok]] }
      step.stepInsertValuesCommaOrClosingParens out) :
    Yields s q step.stepInsertValues out := by
  obtain ⟨hne, h1, h2⟩ := hr
  refine yields_step (fun fuel => ?_) hy
  rw [run_insertValues fuel s q hne]
  simp [h1, h2, hq]

theorem yields_whereValue {s tok s' : Text} {q : Query} {out : Outcome}
    (hr : Reads s tok s') (ho : (scan s').1 ≠ str "ORDER BY") (hg : (scan s').1 ≠ str "GROUP BY")
    (hy : Yields s' { q with Condition := q.Condition ++ [tok] } step.stepWhereOperator out) :
    Yields s q step.stepWhereValue out := by
  obtain ⟨hne, h1, h2⟩ := hr
  refine yields_step (fun fuel => ?_) hy
  rw [run_whereValue fuel s q hne]
  simp only [h2, h1, ho, hg, if_false]

theorem yields_whereValue_group {s tok s' s'' : Text} {q : Query} {out : Outcome}
    (hr : Reads s tok s') (hg : Reads s' (str "GROUP BY") s'')
    (hy : Yields s'' { q with Condition := q.Condition ++ [tok] } step.stepGroupByField out) :
    Yields s q step.stepWhereValue out := by
  obtain ⟨hne, h1, h2⟩ := hr
  have e : str "GROUP BY" ≠ str "ORDER BY" := by decide
  refine yields_via s' ({ q with Condition := q.Condition ++ [tok] })
    step.stepGroupBy (fun fuel => ?_) (yields_groupBy hg hy)
  rw [run_whereValue fuel s q hne]
  simp [h1, h2, hg.2.1, e]

theorem yields_whereValue_order {s tok s' s'' : Text} {q : Query} {out : Outcome}
    (hr : Reads s tok s') (ho : Reads s' (str "ORDER BY") s'')
    (hy : Yields s'' { q with Condition := q.Condition ++ [tok] } step.stepOrderByField out) :
    Yields s q step.stepWhereValue out := by
  obtain ⟨hne, h1, h2⟩ := hr
  refine yields_via s' ({ q with Condition := q.Condition ++ [tok] })
    step.stepOrderBy (fun fuel => ?_) (yields_orderBy ho hy)
  rw [run_whereValue fuel s q hne]
  simp [h1, h2, ho.2.1]

theorem yields_groupByField_comma {s tok s' s'' : Text} {q : Query} {out : Outcome}
    (hr : Reads s tok s') (hc : Reads s' (str ",") s'')
    (hy : Yields s'' { q with GroupByFields := q.GroupByFields ++ [tok] }
      step.stepGroupByField out) :
    Yields s q step.stepGroupByField out := by
  obtain ⟨hne, h1, h2⟩ := hr
  have e : str "," ≠ str "ORDER BY" := by decide
  refine yields_via s' ({ q with GroupByFields := q.GroupByFields ++ [tok] })
    step.stepGroupByComma (fun fuel => ?_) (yields_groupByComma hc hy)
  rw [run_groupByField fuel s q hne]
  simp [h1, h2, hc.2.1, e]

theorem yields_groupByField_order {s tok s' s'' : Text} {q : Query} {out : Outcome}
    (hr : Reads s tok s') (ho : Reads s' (str "ORDER BY") s'')
    (hy : Yields s'' { q with GroupByFields := q.GroupByFields ++ [tok] }
      step.stepOrderByField out) :
    Yields s q step.stepGroupByField out := by
  obtain ⟨hne, h1, h2⟩ := hr
  refine yields_via s' ({ q with GroupByFields := q.GroupByFields ++ [tok] })
    step.stepOrderBy (fun fuel => ?_) (yields_orderBy ho hy)
  rw [run_groupByField fuel s q hne]
  simp [h1, h2, ho.2.1]

theorem yields_groupByField_end {s tok : Text} {q : Query} (hr : Reads s tok []) :
    Yields s q step.stepGroupByField
      (Outcome.ok { q with GroupByFields := q.GroupByFields ++ [tok] }) := by
  obtain ⟨hne, h1, h2⟩ := hr
  have e1 : ([] : Text) ≠ str "ORDER BY" := by decide
  have e2 : ([] : Text) ≠ str "," := by decide
  refine yields_via [] ({ q with GroupByFields := q.GroupByFields ++ [tok] })
    step.stepEnd (fun fuel => ?_) (yields_nil _ _)
  rw [run_groupByField fuel s q hne]
  simp [h1, h2, scan_nil, e1, e2]

theorem yields_orderByField_comma {s tok s' s'' : Text} {q : Query} {out : Outcome}
    (hr : Reads s tok s') (hc : Reads s' (str ",") s'')
    (hy : Yields s'' { q with OrderByFields := q.OrderByFields ++ [tok] }
      step.stepOrderByField out) :
    Yields s q step.stepOrderByField out := by
  obtain ⟨hne, h1, h2⟩ := hr
  refine yields_via s' ({ q with OrderByFields := q.OrderByFields ++ [tok] })
    step.stepOrderByComma (fun fuel => ?_) (yields_orderByComma hc hy)
  rw [run_orderByField fuel s q hne]
  simp [h1, h2, hc.2.1]

theorem yields_orderByField_end {s tok : Text} {q : Query} (hr : Reads s tok []) :
    Yields s q step.stepOrderByField
      (Outcome.ok { q with OrderByFields := q.OrderByFields ++ [tok] }) := by
  obtain ⟨hne, h1, h2⟩ := hr
  have e2 : ([] : Text) ≠ str "," := by decide
  refine yields_via [] ({ q with OrderByFields := q.OrderByFields ++ [tok] })
    step.stepEnd (fun fuel => ?_) (yields_nil _ _)
  rw [run_orderByField fuel s q hne]
  simp [h1, h2, scan_nil, e2]

/-! ## Statement texts -/

theorem initItems_lastItem (more : List (Nat × Text)) :
    ∀ f : Text, initItems f more ++ [lastItem f more] = f :: more.map Prod.snd := by
  induction more with
  | nil => intro f; rfl
  | cons m more ih =>
    intro f
    obtain ⟨k, g⟩ := m
    simp only [initItems, lastItem, List.cons_append, List.map_cons, ih g]

theorem lastItem_plain (more : List (Nat × Text)) :
    ∀ f : Text, Plain f → (∀ m ∈ more, Plain m.2) → Plain (lastItem f more) := by
  induction more with
  | nil => intro f hf _; exact hf
  | cons m more ih =>
    intro f _ hm
    obtain ⟨k, g⟩ := m
    exact ih g (hm (k, g) (List.mem_cons_self _ _)) (fun x hx => hm x (List.mem_cons_of_mem _ hx))

theorem commaListSp_head (g : Text) (more : List (Nat × Text)) :
    ∃ r, commaListSp g more = g ++ r := by
  cases more with
  | nil => exact ⟨[], by simp [commaListSp]⟩
  | cons m more =>
    obtain ⟨k, h⟩ := m
    exact ⟨str "," ++ List.replicate k 32 ++ commaListSp h more, by
      simp [commaListSp, List.append_assoc]⟩

theorem commaList_eq (fs : List Text) :
    ∀ f : Text, commaList (f :: fs) = commaListSp f (fs.map (fun g => (1, g))) := by
  induction fs with
  | nil => intro f; rfl
  | cons g fs ih =>
    intro f
    have e : str ", " = str "," ++ List.replicate 1 32 := by decide
    simp only [commaList, List.map_cons, commaListSp, ih g, e, List.append_assoc]

theorem comma_cons (r : Text) : str "," ++ r = 44 :: r := rfl

theorem cut_comma (r : Text) : Cut (str "," ++ r) := Or.inr ⟨44, r, rfl, by decide⟩

theorem cut_close (r : Text) : Cut (str ")" ++ r) := Or.inr ⟨41, r, rfl, by decide⟩

theorem cut_space (r : Text) : Cut (32 :: r) := Or.inr ⟨32, r, rfl, by decide⟩

theorem cut_nil : Cut [] := Or.inl rfl

theorem reads_comma (r : Text) : Reads (str "," ++ r) (str ",") (skip r) :=
  reads_reserved _ _ (by decide) (first_comma r)

/-- A plain token followed by a comma. -/
theorem reads_plain_comma (tok r : Text) (hp : Plain tok) :
    Reads (tok ++ (str "," ++ r)) tok (str "," ++ r) := by
  have h := reads_plain tok (str "," ++ r) hp (cut_comma r) (Or.inl rfl)
  rwa [comma_cons, skip_cons 44 r (by decide)] at h

/-- A list of plain items separated by commas, in a state that reads an item and, on a
comma after it, comes back for the next one: the run reaches the last item. -/
theorem yields_items (stA : step) (upd : Query → Text → Query) (tail : Text) (out : Outcome)
    (hAB : ∀ (s tok s' s'' : Text) (q : Query), Reads s tok s' → Reads s' (str ",") s'' →
      Yields s'' (upd q tok) stA out → Yields s q stA out) :
    ∀ (more : List (Nat × Text)) (f : Text) (q : Query), Plain f → (∀ m ∈ more, Plain m.2) →
      Yields (lastItem f more ++ tail) ((initItems f more).foldl upd q) stA out →
      Yields (commaListSp f more ++ tail) q stA out := by
  intro more
  induction more with
  | nil => intro f q _ _ hy; exact hy
  | cons m more ih =>
    intro f q hf hm hy
    obtain ⟨k, g⟩ := m
    have hg : Plain g := hm (k, g) (List.mem_cons_self _ _)
    have hm' : ∀ x ∈ more, Plain x.2 := fun x hx => hm x (List.mem_cons_of_mem _ hx)
    obtain ⟨r, hr⟩ := commaListSp_head g more
    have e : commaListSp f ((k, g) :: more) ++ tail
        = f ++ (str "," ++ (List.replicate k 32 ++ (commaListSp g more ++ tail))) := by
      simp [commaListSp, List.append_assoc]
    rw [e]
    refine hAB _ f _ _ q (reads_plain_comma f _ hf) (reads_comma _) ?_
    rw [skip_replicate, hr, List.append_assoc, skip_plain g _ hg, ← List.append_assoc, ← hr]
    exact ih g (upd q f) hg hm' hy

theorem yields_nil_eq {q q' : Query} (st : step) (h : q = q') :
    Yields [] q st (Outcome.ok q') := h ▸ yields_nil q st

theorem foldl_Fields (l : List Text) : ∀ q : Query,
    l.foldl (fun q tok => { q with Fields := q.Fields ++ [tok] }) q
      = { q with Fields := q.Fields ++ l } := by
  induction l with
  | nil => intro q; simp
  | cons a l ih => intro q; simp [ih]

theorem foldl_GroupByFields (l : List Text) : ∀ q : Query,
    l.foldl (fun q tok => { q with GroupByFields := q.GroupByFields ++ [tok] }) q
      = { q with GroupByFields := q.GroupByFields ++ l } := by
  induction l with
  | nil => intro q; simp
  | cons a l ih => intro q; simp [ih]

theorem foldl_OrderByFields (l : List Text) : ∀ q : Query,
    l.foldl (fun q tok => { q with OrderByFields := q.OrderByFields ++ [tok] }) q
      = { q with OrderByFields := q.OrderByFields ++ l } := by
  induction l with
  | nil => intro q; simp
  | cons a l ih => intro q; simp [ih]

/-- A keyword in mixed case does not start with a space. -/
theorem skip_mixed (k kw r : Text) (hk : k.map upperByte = kw) (hne : kw.head? ≠ some 32)
    (hnil : kw ≠ []) : skip (k ++ r) = k ++ r := by
  cases k with
  | nil => exact absurd hk.symm hnil
  | cons a k' =>
    have ha : a ≠ 32 := by
      intro e
      subst e
      rw [← hk] at hne
      simp [upperByte] at hne
    rw [List.cons_append, skip_cons a _ ha]

theorem byAhead_mixed (k kw r : Text) (hk : k.map upperByte = kw)
    (h2 : kw.take 2 ≠ [66, 89]) (hlen : 2 ≤ kw.length) : byAhead (32 :: (k ++ r)) = false := by
  have hl : k.length = kw.length := by rw [← hk]; simp
  match k, hk, hl with
  | [], _, hl => simp at hl; omega
  | [_], _, hl => simp at hl; omega
  | a :: b :: k', hk, _ =>
    rw [← hk] at h2
    simp only [List.map_cons, List.take_succ_cons, List.take_zero, ne_eq, List.cons.injEq,
      and_true] at h2
    simp only [byAhead, List.cons_append, Bool.and_eq_false_imp, beq_iff_eq]
    intro ha
    simpa [ha] using h2

/-- The field list of a SELECT, up to the text after it. -/
theorem yields_selectFields (f : Text) (more : List (Nat × Text)) (tail : Text) (q : Query)
    (out : Outcome) (hf : Plain f) (hm : ∀ m ∈ more, Plain m.2) (hc : Cut tail)
    (hby : byAhead tail = false)
    (hy : Yields (skip tail) { q with Fields := q.Fields ++ f :: more.map Prod.snd }
      step.stepSelectComma out) :
    Yields (commaListSp f more ++ tail) q step.stepSelectField out := by
  refine yields_items step.stepSelectField (fun q tok => { q with Fields := q.Fields ++ [tok] })
    tail out (fun s tok s' s'' q h1 h2 h3 => yields_selectField h1 (yields_selectComma h2 h3))
    more f q hf hm ?_
  refine yields_selectField
    (reads_plain _ tail (lastItem_plain more f hf hm) hc (Or.inl hby)) ?_
  rw [foldl_Fields]
  simp only [List.append_assoc]
  rw [initItems_lastItem]
  exact hy

theorem skip_plain_self (t : Text) (ht : Plain t) : skip t = t := by
  have := skip_plain t [] ht
  rwa [List.append_nil] at this

theorem plain_append_nil (t : Text) (ht : Plain t) : Reads t t [] := by
  have := reads_plain t [] ht cut_nil (Or.inl rfl)
  rwa [List.append_nil, skip_nil] at this

/-! ## UPDATE statements -/

theorem eq_cons (r : Text) : str "=" ++ r = 61 :: r := rfl

theorem reads_eq (r : Text) : Reads (str "=" ++ r) (str "=") (skip r) :=
  reads_reserved _ _ (by decide) (first_eq r)

theorem assignList_cons (f v : Text) (p : Text × Text) (ps : List (Text × Text)) :
    assignList ((f, v) :: p :: ps)
      = f ++ (32 :: (str "=" ++ (32 :: (v ++ (str "," ++ (32 :: assignList (p :: ps))))))) := by
  have e1 : str " = " = 32 :: (str "=" ++ [32]) := by decide
  have e2 : str ", " = str "," ++ [32] := by decide
  simp [assignList, e1, e2, List.append_assoc]

theorem assignList_one (f v : Text) :
    assignList [(f, v)] = f ++ (32 :: (str "=" ++ (32 :: (v ++ [])))) := by
  have e1 : str " = " = 32 :: (str "=" ++ [32]) := by decide
  simp [assignList, e1, List.append_assoc]

theorem assignList_head (p : Text × Text) (ps : List (Text × Text)) :
    ∃ r, assignList (p :: ps) = p.1 ++ r := by
  obtain ⟨f, v⟩ := p
  cases ps with
  | nil => exact ⟨_, assignList_one f v⟩
  | cons p' ps => exact ⟨_, assignList_cons f v p' ps⟩

/-- The assignments of an UPDATE, read to the end of the text. -/
theorem yields_assignments (ps : List (Text × Text)) :
    ∀ (p : Text × Text) (q : Query), Plain p.1 → Plain p.2 →
      (∀ x ∈ ps, Plain x.1 ∧ Plain x.2) →
      Yields (assignList (p :: ps)) q step.stepUpdateField
        (Outcome.ok { q with Fields := q.Fields ++ (p :: ps).map Prod.fst,
                             UpdateValues := q.UpdateValues ++ (p :: ps).map Prod.snd }) := by
  induction ps with
  | nil =>
    intro p q h1 h2 _
    obtain ⟨f, v⟩ := p
    rw [assignList_one]
    refine yields_updateField (reads_plain f _ h1 (cut_space _) (Or.inl rfl)) ?_
    rw [skip_space, eq_cons, skip_cons 61 _ (by decide), ← eq_cons]
    refine yields_updateEquals (reads_eq _) ?_
    rw [skip_space, skip_plain v _ h2]
    refine yields_updateValue (reads_plain v [] h2 cut_nil (Or.inl rfl)) ?_
    exact yields_nil_eq _ rfl
  | cons p' ps ih =>
    intro p q h1 h2 hps
    obtain ⟨f, v⟩ := p
    have hp' := hps p' (List.mem_cons_self _ _)
    have hps' : ∀ x ∈ ps, Plain x.1 ∧ Plain x.2 := fun x hx => hps x (List.mem_cons_of_mem _ hx)
    obtain ⟨r, hr⟩ := assignList_head p' ps
    rw [assignList_cons]
    refine yields_updateField (reads_plain f _ h1 (cut_space _) (Or.inl rfl)) ?_
    rw [skip_space, eq_cons, skip_cons 61 _ (by decide), ← eq_cons]
    refine yields_updateEquals (reads_eq _) ?_
    rw [skip_space, skip_plain v _ h2]
    refine yields_updateValue (reads_plain_comma v _ h2) ?_
    refine yields_updateComma (reads_comma _) ?_
    rw [skip_space, hr, skip_plain _ _ hp'.1, ← hr]
    have := ih p' { q with Fields := q.Fields ++ [f], UpdateValues := q.UpdateValues ++ [v] }
      hp'.1 hp'.2 hps'
    simpa [List.append_assoc] using this

theorem plain_ne_SET (t : Text) (ht : Plain t) : t ≠ str "SET" := by
  intro e
  subst e
  revert ht
  decide

/-! ## WHERE conditions -/

theorem reads_cond (c r : Text) (hc : CondTok c) (hr : r = [] ∨ ∃ r', r = 32 :: r') :
    Reads (c ++ r) c (skip r) := by
  rcases hc with h | ⟨hp, hg⟩
  · exact reads_reserved c r (operator_ne_nil c h) (first_operator c h r hr)
  · refine reads_plain c r hp ?_ (Or.inr hg)
    rcases hr with rfl | ⟨r', rfl⟩
    · exact cut_nil
    · exact cut_space r'

theorem plain_no_space (c : Text) (hp : Plain c) : (32 : Nat) ∉ c := by
  intro h
  have := hp.2.1 32 h
  simp [isDelim] at this

theorem cond_ne_clause (c : Text) (hc : CondTok c) :
    c ≠ str "ORDER BY" ∧ c ≠ str "GROUP BY" := by
  rcases hc with h | ⟨hp, _⟩
  · constructor <;> (intro e; subst e; revert h; decide)
  · have hs := plain_no_space c hp
    constructor <;> (intro e; subst e; revert hs; decide)

theorem skip_cond (c r : Text) (hc : CondTok c) : skip (c ++ r) = c ++ r := by
  rcases hc with h | ⟨hp, _⟩
  · have e1 : str "=" = [61] := by decide
    have e2 : str ">" = [62] := by decide
    have e3 : str "<" = [60] := by decide
    have e4 : str ">=" = [62, 61] := by decide
    have e5 : str "<=" = [60, 61] := by decide
    have e6 : str "!=" = [33, 61] := by decide
    simp only [operators, e1, e2, e3, e4, e5, e6, List.mem_cons, List.mem_singleton,
      List.not_mem_nil, or_false] at h
    rcases h with rfl | rfl | rfl | rfl | rfl | rfl <;> simp [skip]
  · exact skip_plain c r hp

theorem spaceList_cons (c d : Text) (cs : List Text) :
    spaceList (c :: d :: cs) = c ++ (32 :: spaceList (d :: cs)) := by
  have : str " " = [32] := by decide
  simp [spaceList, this, List.append_assoc]

theorem spaceList_head (c : Text) (cs : List Text) : ∃ r, spaceList (c :: cs) = c ++ r := by
  cases cs with
  | nil => exact ⟨[], by simp [spaceList]⟩
  | cons d cs => exact ⟨_, spaceList_cons c d cs⟩

/-- The tokens of a condition, read to the end of the text from any of the three
WHERE states: each is appended to `Condition`. -/
theorem yields_conditions (cs : List Text) :
    ∀ (q : Query) (st : step),
      (st = step.stepWhereField ∨ st = step.stepWhereOperator ∨ st = step.stepWhereValue) →
      (∀ c ∈ cs, CondTok c) →
      Yields (spaceList cs) q st (Outcome.ok { q with Condition := q.Condition ++ cs }) := by
  induction cs with
  | nil => intro q st _ _; exact yields_nil_eq _ (by simp)
  | cons c cs ih =>
    intro q st hst hcs
    have hc := hcs c (List.mem_cons_self _ _)
    have hcs' : ∀ x ∈ cs, CondTok x := fun x hx => hcs x (List.mem_cons_of_mem _ hx)
    cases cs with
    | nil =>
      have hr : Reads c c [] := by
        have := reads_cond c [] hc (Or.inl rfl)
        rwa [List.append_nil, skip_nil] at this
      have e1 : ([] : Text) ≠ str "ORDER BY" := by decide
      have e2 : ([] : Text) ≠ str "GROUP BY" := by decide
      rcases hst with rfl | rfl | rfl
      · exact yields_whereField hr (yields_nil_eq _ rfl)
      · exact yields_whereOperator hr (yields_nil_eq _ rfl)
      · exact yields_whereValue hr (by rw [scan_nil]; exact e1) (by rw [scan_nil]; exact e2)
          (yields_nil_eq _ rfl)
    | cons d cs' =>
      have hd := hcs d (List.mem_cons_of_mem _ (List.mem_cons_self _ _))
      obtain ⟨r, hr⟩ := spaceList_head d cs'
      have hsk : skip (32 :: spaceList (d :: cs')) = spaceList (d :: cs') := by
        rw [skip_space, hr, skip_cond d r hd]
      have hread : Reads (spaceList (c :: d :: cs')) c (spaceList (d :: cs')) := by
        have := reads_cond c (32 :: spaceList (d :: cs')) hc (Or.inr ⟨_, rfl⟩)
        rwa [hsk, ← spaceList_cons] at this
      have hnext : (scan (spaceList (d :: cs'))).1 = d := by
        cases cs' with
        | nil =>
          have := reads_cond d [] hd (Or.inl rfl)
          rw [List.append_nil] at this
          exact this.2.1
        | cons e cs'' =>
          rw [spaceList_cons]
          exact (reads_cond d _ hd (Or.inr ⟨_, rfl⟩)).2.1
      have hfin : ∀ st', (st' = step.stepWhereField ∨ st' = step.stepWhereOperator ∨
            st' = step.stepWhereValue) →
          Yields (spaceList (d :: cs')) { q with Condition := q.Condition ++ [c] } st'
            (Outcome.ok { q with Condition := q.Condition ++ c :: d :: cs' }) := by
        intro st' hst'
        have := ih { q with Condition := q.Condition ++ [c] } st' hst' hcs'
        simpa [List.append_assoc] using this
      rcases hst with rfl | rfl | rfl
      · exact yields_whereField hread (hfin _ (Or.inr (Or.inl rfl)))
      · exact yields_whereOperator hread (hfin _ (Or.inr (Or.inr rfl)))
      · exact yields_whereValue hread (by rw [hnext]; exact (cond_ne_clause d hd).1)
          (by rw [hnext]; exact (cond_ne_clause d hd).2) (hfin _ (Or.inr (Or.inl rfl)))

/-! ## SELECT with WHERE, GROUP BY and ORDER BY -/

theorem byAhead_other (b : Nat) (r : Text) (h : upperByte b ≠ 66) :
    byAhead (32 :: b :: r) = false := by
  cases r with
  | nil => rfl
  | cons y r => simp [byAhead, h]

theorem byAhead_operator (op r : Text) (h : op ∈ operators) : byAhead (32 :: (op ++ r)) = false := by
  have e1 : str "=" = [61] := by decide
  have e2 : str ">" = [62] := by decide
  have e3 : str "<" = [60] := by decide
  have e4 : str ">=" = [62, 61] := by decide
  have e5 : str "<=" = [60, 61] := by decide
  have e6 : str "!=" = [33, 61] := by decide
  simp only [operators, e1, e2, e3, e4, e5, e6, List.mem_cons, List.mem_singleton,
    List.not_mem_nil, or_false] at h
  rcases h with rfl | rfl | rfl | rfl | rfl | rfl <;>
    exact byAhead_other _ _ (by decide)

/-- The field list of an ORDER BY, read to the end of the text. -/
theorem yields_orderFields (o : Text) (more : List (Nat × Text)) (q : Query)
    (ho : Plain o) (hm : ∀ m ∈ more, Plain m.2) :
    Yields (commaListSp o more) q step.stepOrderByField
      (Outcome.ok { q with OrderByFields := q.OrderByFields ++ o :: more.map Prod.snd }) := by
  have h := yields_items step.stepOrderByField
    (fun q tok => { q with OrderByFields := q.OrderByFields ++ [tok] }) []
    (Outcome.ok { q with OrderByFields := q.OrderByFields ++ o :: more.map Prod.snd })
    (fun s tok s' s'' q h1 h2 h3 => yields_orderByField_comma h1 h2 h3) more o q ho hm
  rw [List.append_nil, List.append_nil] at h
  apply h
  have hl := yields_orderByField_end (q := (initItems o more).foldl
      (fun q tok => { q with OrderByFields := q.OrderByFields ++ [tok] }) q)
    (plain_append_nil _ (lastItem_plain more o ho hm))
  rw [foldl_OrderByFields] at hl ⊢
  simp only [List.append_assoc] at hl
  rw [initItems_lastItem] at hl
  exact hl

/-- The field list of a GROUP BY at the end of the text. -/
theorem yields_groupFields (g : Text) (more : List (Nat × Text)) (q : Query)
    (hg : Plain g) (hm : ∀ m ∈ more, Plain m.2) :
    Yields (commaListSp g more) q step.stepGroupByField
      (Outcome.ok { q with GroupByFields := q.GroupByFields ++ g :: more.map Prod.snd }) := by
  have h := yields_items step.stepGroupByField
    (fun q tok => { q with GroupByFields := q.GroupByFields ++ [tok] }) []
    (Outcome.ok { q with GroupByFields := q.GroupByFields ++ g :: more.map Prod.snd })
    (fun s tok s' s'' q h1 h2 h3 => yields_groupByField_comma h1 h2 h3) more g q hg hm
  rw [List.append_nil, List.append_nil] at h
  apply h
  have hl := yields_groupByField_end (q := (initItems g more).foldl
      (fun q tok => { q with GroupByFields := q.GroupByFields ++ [tok] }) q)
    (plain_append_nil _ (lastItem_plain more g hg hm))
  rw [foldl_GroupByFields] at hl ⊢
  simp only [List.append_assoc] at hl
  rw [initItems_lastItem] at hl
  exact hl

/-- The field list of a GROUP BY followed by an ORDER BY clause. -/
theorem yields_groupFields_order (g : Text) (more : List (Nat × Text)) (tail : Text)
    (q : Query) (out : Outcome) (hg : Plain g) (hm : ∀ m ∈ more, Plain m.2)
    (hy : Yields (skip tail)
      { q with GroupByFields := q.GroupByFields ++ g :: more.map Prod.snd }
      step.stepOrderByField out) :
    Yields (commaListSp g more ++ (32 :: (str "ORDER BY" ++ tail))) q step.stepGroupByField
      out := by
  refine yields_items step.stepGroupByField
    (fun q tok => { q with GroupByFields := q.GroupByFields ++ [tok] }) _ out
    (fun s tok s' s'' q h1 h2 h3 => yields_groupByField_comma h1 h2 h3) more g q hg hm ?_
  have hr := reads_plain (lastItem g more) (32 :: (str "ORDER BY" ++ tail))
    (lastItem_plain more g hg hm) (cut_space _) (Or.inl rfl)
  rw [skip_space, show skip (str "ORDER BY" ++ tail) = str "ORDER BY" ++ tail
    from skip_cons 79 _ (by decide)] at hr
  refine yields_groupByField_order hr (reads_reserved _ _ (by decide) (first_ORDER_BY _)) ?_
  rw [foldl_GroupByFields]
  simp only [List.append_assoc]
  rw [initItems_lastItem]
  exact hy

theorem skip_FROM (r : Text) : skip (str "FROM" ++ r) = str "FROM" ++ r :=
  skip_cons 70 _ (by decide)

theorem skip_WHERE (r : Text) : skip (str "WHERE" ++ r) = str "WHERE" ++ r :=
  skip_cons 87 _ (by decide)

theorem skip_GROUP_BY (r : Text) : skip (str "GROUP BY" ++ r) = str "GROUP BY" ++ r :=
  skip_cons 71 _ (by decide)

theorem skip_ORDER_BY (r : Text) : skip (str "ORDER BY" ++ r) = str "ORDER BY" ++ r :=
  skip_cons 79 _ (by decide)

theorem skip_VALUES (r : Text) : skip (str "VALUES" ++ r) = str "VALUES" ++ r :=
  skip_cons 86 _ (by decide)

theorem skip_SET (r : Text) : skip (str "SET" ++ r) = str "SET" ++ r :=
  skip_cons 83 _ (by decide)

theorem skip_INTO (r : Text) : skip (str "INTO" ++ r) = str "INTO" ++ r :=
  skip_cons 73 _ (by decide)

theorem skip_open (r : Text) : skip (str "(" ++ r) = str "(" ++ r :=
  skip_cons 40 _ (by decide)

theorem skip_close (r : Text) : skip (str ")" ++ r) = str ")" ++ r :=
  skip_cons 41 _ (by decide)

theorem skip_comma (r : Text) : skip (str "," ++ r) = str "," ++ r :=
  skip_cons 44 _ (by decide)

theorem plain_map_one (fs : List Text) (h : ∀ x ∈ fs, Plain x) :
    ∀ m ∈ fs.map (fun g => ((1 : Nat), g)), Plain m.2 := by
  intro m hmem
  obtain ⟨g, hg, rfl⟩ := List.mem_map.mp hmem
  exact h g hg

theorem map_one_snd (fs : List Text) : (fs.map (fun g => ((1 : Nat), g))).map Prod.snd = fs := by
  simp [Function.comp_def]

/-- The head of `SELECT * FROM t WHERE a op v ...`, up to the value `v`. -/
theorem yields_select_star (t a op v rest : Text) (out : Outcome) (ht : Plain t) (ha : Plain a)
    (hop : op ∈ operators) (hv : Plain v)
    (hy : Yields (v ++ rest)
      { Type_ := str "SELECT", TableName := t, Fields := [str "*"], Condition := [a, op] }
      step.stepWhereValue out) :
    Yields (str "SELECT" ++ (32 :: (str "*" ++ (32 :: (str "FROM" ++ (32 :: (t ++ (32 ::
      (str "WHERE" ++ (32 :: (a ++ (32 :: (op ++ (32 :: (v ++ rest))))))))))))))) {}
      step.stepType out := by
  have hstar : Plain (str "*") := by decide
  refine yields_type_select (reads_reserved _ _ (by decide) (first_SELECT _)) ?_
  rw [skip_space, skip_plain _ _ hstar]
  refine yields_selectField (reads_plain _ _ hstar (cut_space _) (Or.inl rfl)) ?_
  rw [skip_space, skip_FROM]
  refine yields_selectComma_from (reads_reserved _ _ (by decide) (first_FROM _)) ?_
  rw [skip_space, skip_plain t _ ht]
  refine yields_selectFromTable (reads_plain t _ ht (cut_space _) (Or.inl rfl)) ?_
  rw [skip_space, skip_WHERE]
  refine yields_where (reads_reserved _ _ (by decide) (first_WHERE _)) ?_
  rw [skip_space, skip_plain a _ ha]
  refine yields_whereField
    (reads_plain a _ ha (cut_space _) (Or.inl (byAhead_operator op _ hop))) ?_
  rw [skip_space, skip_cond op _ (Or.inl hop)]
  refine yields_whereOperator (reads_cond op _ (Or.inl hop) (Or.inr ⟨_, rfl⟩)) ?_
  rw [skip_space, skip_plain v _ hv]
  exact hy

/-! ## INSERT statements -/

theorem groupText_eq (it : Items) (tail : Text) :
    groupText it ++ tail = str "(" ++ (commaListSp it.1 it.2 ++ (str ")" ++ tail)) := by
  simp [groupText, List.append_assoc]

theorem rowsText_head (r : Items) (more : List (Nat × Items)) :
    ∃ x, rowsText r more = str "(" ++ x := by
  cases more with
  | nil => exact ⟨_, by rw [rowsText, ← List.append_nil (groupText r), groupText_eq]⟩
  | cons m more =>
    obtain ⟨k, r'⟩ := m
    exact ⟨_, by rw [rowsText, List.append_assoc, List.append_assoc, groupText_eq]⟩

/-- The column names of an INSERT, from the first name to the closing parenthesis. -/
theorem yields_insertColumns (c : Text) (more : List (Nat × Text)) (tail : Text) (q : Query)
    (out : Outcome) (hc : Plain c) (hm : ∀ m ∈ more, Plain m.2)
    (hy : Yields (skip tail) { q with Fields := q.Fields ++ c :: more.map Prod.snd }
      step.stepInsertValuesRWord out) :
    Yields (commaListSp c more ++ (str ")" ++ tail)) q step.stepInsertFields out := by
  refine yields_items step.stepInsertFields (fun q tok => { q with Fields := q.Fields ++ [tok] })
    _ out (fun s tok s' s'' q h1 h2 h3 => yields_insertFields h1 (yields_insertFieldsComma h2 h3))
    more c q hc hm ?_
  have hr := reads_plain (lastItem c more) (str ")" ++ tail) (lastItem_plain more c hc hm)
    (cut_close _) (Or.inl rfl)
  rw [skip_close] at hr
  refine yields_insertFields hr ?_
  refine yields_insertFieldsClose (reads_reserved _ _ (by decide) (first_close _)) ?_
  rw [foldl_Fields]
  simp only [List.append_assoc]
  rw [initItems_lastItem]
  exact hy

/-- The values of one row, from the first value to the closing parenthesis: they are
appended to the last row of `InsertValues`. -/
theorem yields_rowValues (more : List (Nat × Text)) :
    ∀ (v : Text) (q : Query) (rs : List (List Text)) (row : List Text) (tail : Text)
      (out : Outcome), q.InsertValues = rs ++ [row] → Plain v → (∀ m ∈ more, Plain m.2) →
      Yields (skip tail) { q with InsertValues := rs ++ [row ++ v :: more.map Prod.snd] }
        step.stepInsertValuesCommaBeforeOpeningParens out →
      Yields (commaListSp v more ++ (str ")" ++ tail)) q step.stepInsertValues out := by
  induction more with
  | nil =>
    intro v q rs row tail out hq hv _ hy
    have hr := reads_plain v (str ")" ++ tail) hv (cut_close _) (Or.inl rfl)
    rw [skip_close] at hr
    refine yields_insertValues hr hq ?_
    exact yields_insertValuesClose (reads_reserved _ _ (by decide) (first_close _)) hy
  | cons m more ih =>
    intro v q rs row tail out hq hv hm hy
    obtain ⟨k, w⟩ := m
    have hw : Plain w := hm (k, w) (List.mem_cons_self _ _)
    have hm' : ∀ x ∈ more, Plain x.2 := fun x hx => hm x (List.mem_cons_of_mem _ hx)
    obtain ⟨r, hr⟩ := commaListSp_head w more
    have e : commaListSp v ((k, w) :: more) ++ (str ")" ++ tail)
        = v ++ (str "," ++ (List.replicate k 32 ++ (commaListSp w more ++ (str ")" ++ tail)))) := by
      simp [commaListSp, List.append_assoc]
    rw [e]
    refine yields_insertValues (reads_plain_comma v _ hv) hq ?_
    refine yields_insertValuesComma (reads_comma _) ?_
    rw [skip_replicate, hr, List.append_assoc, skip_plain w _ hw, ← List.append_assoc, ← hr]
    refine ih w _ rs (row ++ [v]) tail out rfl hw hm' ?_
    simpa [List.append_assoc] using hy

/-- The rows of an INSERT, read to the end of the text: one new row of `InsertValues`
for each group. -/
theorem yields_rows (more : List (Nat × Items)) :
    ∀ (r : Items) (q : Query), PlainItems r → (∀ m ∈ more, PlainItems m.2) →
      Yields (rowsText r more) q step.stepInsertValuesOpeningParens
        (Outcome.ok { q with InsertValues :=
          q.InsertValues ++ itemTokens r :: more.map (fun m => itemTokens m.2) }) := by
  induction more with
  | nil =>
    intro r q hr _
    obtain ⟨x, hx⟩ := commaListSp_head r.1 r.2
    rw [rowsText, ← List.append_nil (groupText r), groupText_eq]
    refine yields_insertValuesOpeningParens (reads_reserved _ _ (by decide) (first_open _)) ?_
    rw [hx, List.append_assoc, skip_plain _ _ hr.1, ← List.append_assoc, ← hx]
    refine yields_rowValues r.2 r.1 _ q.InsertValues [] [] _ rfl hr.1 hr.2 ?_
    exact yields_nil_eq _ (by simp [itemTokens])
  | cons m more ih =>
    intro r q hr hm
    obtain ⟨k, r'⟩ := m
    have hr' : PlainItems r' := hm (k, r') (List.mem_cons_self _ _)
    have hm' : ∀ x ∈ more, PlainItems x.2 := fun x hx => hm x (List.mem_cons_of_mem _ hx)
    obtain ⟨x, hx⟩ := commaListSp_head r.1 r.2
    obtain ⟨y, hy⟩ := rowsText_head r' more
    rw [rowsText, List.append_assoc, List.append_assoc, groupText_eq]
    refine yields_insertValuesOpeningParens (reads_reserved _ _ (by decide) (first_open _)) ?_
    rw [hx, List.append_assoc, skip_plain _ _ hr.1, ← List.append_assoc, ← hx]
    refine yields_rowValues r.2 r.1 _ q.InsertValues [] _ _ rfl hr.1 hr.2 ?_
    rw [skip_comma]
    refine yields_insertRowsComma (reads_comma _) ?_
    rw [skip_replicate, hy, skip_open, ← hy]
    have := ih r' { q with InsertValues := q.InsertValues ++ [itemTokens r] } hr' hm'
    simpa [itemTokens, List.append_assoc] using this

/-! ## The tests of the repository -/

theorem test_no_type :
    Parse 20 freshParser (str "SEGECT a, b FROM table") = some (Outcome.error "syntax error\n") := by
  decide

theorem test_select_fields :
    Parse 20 freshParser (str "SELECT a, b FROM table")
      = some (Outcome.ok { Type_ := str "SELECT", TableName := str "table",
                           Fields := [str "a", str "b"] }) := by
  decide

theorem test_select_star :
    Parse 20 freshParser (str "SELECT * FROM table")
      = some (Outcome.ok { Type_ := str "SELECT", TableName := str "table",
                           Fields := [str "*"] }) := by
  decide

theorem test_select_no_from :
    Parse 20 freshParser (str "SELECT * table") = some (Outcome.error "syntax error\n") := by
  decide

theorem test_select_no_comma :
    Parse 20 freshParser (str "SELECT a b FROM table")
      = some (Outcome.error "syntax error\n") := by
  decide

theorem test_select_where :
    Parse 20 freshParser (str "SELECT * FROM table WHERE a >= 1")
      = some (Outcome.ok { Type_ := str "SELECT", TableName := str "table",
                           Fields := [str "*"],
                           Condition := [str "a", str ">=", str "1"] }) := by
  decide

theorem test_select_order :
    Parse 30 freshParser (str "SELECT * FROM table WHERE a >= 1 ORDER BY b, c")
      = some (Outcome.ok { Type_ := str "SELECT", TableName := str "table",
                           Fields := [str "*"],
                           Condition := [str "a", str ">=", str "1"],
                           OrderByFields := [str "b", str "c"] }) := by
  decide

theorem test_select_group_order :
    Parse 30 freshParser
        (str "SELECT * FROM table WHERE a >= 1 GROUP BY d, e ORDER BY b, c")
      = some (Outcome.ok { Type_ := str "SELECT", TableName := str "table",
                           Fields := [str "*"],
                           Condition := [str "a", str ">=", str "1"],
                           GroupByFields := [str "d", str "e"],
                           OrderByFields := [str "b", str "c"] }) := by
  decide

theorem test_select_group :
    Parse 30 freshParser (str "SELECT * FROM table WHERE a >= 1 GROUP BY d")
      = some (Outcome.ok { Type_ := str "SELECT", TableName := str "table",
                           Fields := [str "*"],
                           Condition := [str "a", str ">=", str "1"],
                           GroupByFields := [str "d"] }) := by
  decide

theorem test_delete :
    Parse 20 freshParser (str "DELETE FROM table")
      = some (Outcome.ok { Type_ := str "DELETE", TableName := str "table" }) := by
  decide

theorem test_delete_where :
    Parse 30 freshParser (str "DELETE FROM table WHERE a >= 1 AND b + c <= 100")
      = some (Outcome.ok { Type_ := str "DELETE", TableName := str "table",
                           Condition := [str "a", str ">=", str "1", str "AND", str "b",
                             str "+", str "c", str "<=", str "100"] }) := by
  decide

theorem test_delete_no_from :
    Parse 20 freshParser (str "DELETE table") = some (Outcome.error "syntax error\n") := by
  decide

theorem test_delete_no_where :
    Parse 20 freshParser (str "DELETE FROM table a >= 1")
      = some (Outcome.error "syntax error\n") := by
  decide

theorem test_insert_one_row :
    Parse 30 freshParser (str "INSERT INTO table VALUES (1, 2, 3)")
      = some (Outcome.ok { Type_ := str "INSERT", TableName := str "table",
                           InsertValues := [[str "1", str "2", str "3"]] }) := by
  decide

theorem test_insert_columns :
    Parse 40 freshParser (str "INSERT INTO table (a, b, c) VALUES (1, 2, 3),(4,5,6)")
      = some (Outcome.ok { Type_ := str "INSERT", TableName := str "table",
                           Fields := [str "a", str "b", str "c"],
                           InsertValues := [[str "1", str "2", str "3"],
                                            [str "4", str "5", str "6"]] }) := by
  decide

theorem test_update :
    Parse 30 freshParser (str "UPDATE table SET a = 1, b = 2")
      = some (Outcome.ok { Type_ := str "UPDATE", TableName := str "table",
                           Fields := [str "a", str "b"],
                           UpdateValues := [str "1", str "2"] }) := by
  decide

/-! ## The statement texts on examples -/

theorem commaList_example : commaList [str "a", str "b", str "c"] = str "a, b, c" := by decide

theorem spaceList_example :
    spaceList [str "a", str ">=", str "1", str "AND", str "b"] = str "a >= 1 AND b" := by
  decide

theorem assignList_example :
    assignList [(str "a", str "1"), (str "b", str "2")] = str "a = 1, b = 2" := by decide

theorem clauses_example :
    groupClause [str "d", str "e"] ++ orderClause [str "b", str "c"]
      = str " GROUP BY d, e ORDER BY b, c" := by
  decide

theorem insert_text_example :
    str "INSERT" ++ str " " ++ str "INTO" ++ str " " ++ str "table" ++
        columnsText (some (str "a", [(1, str "b"), (1, str "c")])) ++
        str " " ++ str "VALUES" ++ str " " ++
        rowsText (str "1", [(1, str "2"), (1, str "3")])
          [(0, (str "4", [(0, str "5"), (0, str "6")]))]
      = str "INSERT INTO table (a, b, c) VALUES (1, 2, 3),(4,5,6)" := by
  decide

/-! ## Syntax errors -/

theorem peek_with (a : Parser) (q : Query) (st : step) :
    peek { SQL := a.SQL, i := a.i, Query := q, step := st } = peek a := rfl

theorem pop_with_i (a : Parser) (q : Query) (st : step) :
    (pop { SQL := a.SQL, i := a.i, Query := q, step := st }).i = (pop a).i := rfl

theorem peek_pop_with (a : Parser) (q : Query) (st : step) :
    peek (pop { SQL := a.SQL, i := a.i, Query := q, step := st }) = peek (pop a) := rfl

/-- Where a required token is missing, the loop returns the error within two passes. -/
theorem loop_missing_required (p : Parser) (fuel : Nat) (hlt : p.i < p.SQL.length)
    (h : MissingRequired p) : ∃ p', loop (fuel + 2) p = some (p', parseError) := by
  have e1 : str "INSERT" ≠ str "SELECT" := by decide
  have e2 : str "INSERT" ≠ str "UPDATE" := by decide
  have e3 : str "DELETE" ≠ str "SELECT" := by decide
  have e4 : str "DELETE" ≠ str "UPDATE" := by decide
  have e5 : str "DELETE" ≠ str "INSERT" := by decide
  rw [loop]
  simp only [hlt, if_true]
  rcases h with ⟨hacc, hno⟩ | ⟨hst, hkw, hnx⟩ | ⟨hst, hkw, hnx⟩
  · cases hst : p.step <;> simp only [hst, accepted, ne_eq, not_true_eq_false,
      List.mem_cons, List.mem_singleton, List.not_mem_nil, or_false, not_or] at hacc hno <;>
      simp [iterate, hst, hno, loop, hlt, peek_with]
  · simp [iterate, hst, hkw, hnx, e1, e2, peek_pop_with]
  · simp [iterate, hst, hkw, hnx, e3, e4, e5, peek_pop_with]

/-! ## Bounds of the scanner -/

theorem firstReserved_some (s rw : Text) (h : firstReserved s = some rw) :
    rw ∈ reservedWords ∧ matchesAt s rw := by
  unfold firstReserved at h
  refine ⟨List.mem_of_find?_eq_some h, ?_⟩
  have := List.find?_some h
  simpa [matchesAt] using this

theorem reserved_length_pos : ∀ rw ∈ reservedWords, 1 ≤ rw.length := by decide

theorem takeWhile_length_le (f : Nat → Bool) (l : Text) : (l.takeWhile f).length ≤ l.length := by
  induction l with
  | nil => simp
  | cons a t ih =>
    rw [List.takeWhile_cons]
    split
    · simp only [List.length_cons]; omega
    · simp

/-- The token found at the head of a non-empty text is not empty and not longer than
the text. -/
theorem scan_length (s : Text) (hs : s ≠ []) : 1 ≤ (scan s).2 ∧ (scan s).2 ≤ s.length := by
  unfold scan
  simp only [hs, if_false]
  cases h : firstReserved s with
  | some rw =>
    obtain ⟨hmem, hm⟩ := firstReserved_some s rw h
    exact ⟨reserved_length_pos rw hmem, (matchesAt_map s rw hm).1⟩
  | none =>
    simp only
    have := takeWhile_length_le (fun b => !isDelim b) (s.drop 1)
    have hl : 1 ≤ s.length := by
      cases s with
      | nil => exact absurd rfl hs
      | cons a t => simp
    simp only [List.length_drop] at this
    omega

/-- Before the end of the text the token has at least one byte and ends inside the
text; at or past the end it is empty. -/
theorem peekWithLength_bounds (p : Parser) :
    (p.i < p.SQL.length →
      1 ≤ (peekWithLength p).2 ∧ p.i + (peekWithLength p).2 ≤ p.SQL.length) ∧
    (p.SQL.length ≤ p.i → peekWithLength p = ([], 0)) := by
  constructor
  · intro h
    have hs : rest p ≠ [] := (rest_ne_nil_iff p).mpr h
    have := scan_length (rest p) hs
    rw [peekWithLength_eq_scan]
    have hl : (rest p).length = p.SQL.length - p.i := by simp [rest]
    omega
  · intro h
    unfold peekWithLength
    simp [h]

/-- Closed form of the whitespace loop: the cursor moves by the number of spaces it
stands before. -/
theorem popWhitespaceLoop_eq (SQL : Text) :
    ∀ (fuel i : Nat), SQL.length ≤ fuel + i →
      popWhitespaceLoop SQL fuel i
        = i + ((SQL.drop i).takeWhile (fun b => decide (b = 32))).length := by
  intro fuel
  induction fuel with
  | zero =>
    intro i h
    have : SQL.drop i = [] := by simp; omega
    simp [popWhitespaceLoop, this]
  | succ fuel ih =>
    intro i h
    unfold popWhitespaceLoop
    by_cases hlt : i < SQL.length
    · have hd : SQL.drop i = SQL[i] :: SQL.drop (i + 1) := List.drop_eq_getElem_cons hlt
      have hg : SQL.getD i 0 = SQL[i] := by
        simp [List.getD_eq_getElem?_getD, List.getElem?_eq_getElem hlt]
      by_cases hsp : SQL[i] = 32
      · simp only [hlt, hg, hsp, and_self, if_true]
        rw [ih (i + 1) (by omega), hd, List.takeWhile_cons]
        simp only [hsp, decide_True, if_true, List.length_cons]
        omega
      · simp only [hlt, hg, hsp, and_false, if_false]
        rw [hd, List.takeWhile_cons]
        simp only [hsp, decide_False, Bool.false_eq_true, if_false, List.length_nil, Nat.add_zero]
    · have : SQL.drop i = [] := by simp; omega
      simp [hlt, this]

theorem pop_i (p : Parser) :
    (pop p).i = p.i + (peekWithLength p).2 +
      ((p.SQL.drop (p.i + (peekWithLength p).2)).takeWhile (fun b => decide (b = 32))).length := by
  unfold pop popWhitespace
  simp only
  rw [popWhitespaceLoop_eq p.SQL p.SQL.length _ (by omega)]

/-- The cursor stays inside the text under `pop`. -/
theorem pop_i_le (p : Parser) (h : p.i ≤ p.SQL.length) : (pop p).i ≤ p.SQL.length := by
  rw [pop_i]
  have h1 := takeWhile_length_le (fun b => decide (b = 32))
    (p.SQL.drop (p.i + (peekWithLength p).2))
  simp only [List.length_drop] at h1
  have hb := peekWithLength_bounds p
  by_cases hlt : p.i < p.SQL.length
  · have := (hb.1 hlt).2
    omega
  · have := hb.2 (by omega)
    rw [this] at h1 ⊢
    simp only at h1 ⊢
    omega

/-! ## The kind of the statement -/

/-- The first pass of the loop sets the kind, unless it returns. -/
theorem iterate_kindSet_first (p : Parser) (h : p.step = step.stepType)
    (hn : (iterate p).2 = none) : kindSet (iterate p).1 := by
  simp only [iterate, h] at hn ⊢
  split_ifs at hn ⊢ <;> simp_all [kindSet, kinds]

/-- Later passes keep the kind. -/
theorem iterate_kindSet (p : Parser) (h : kindSet p) (hn : (iterate p).2 = none) :
    kindSet (iterate p).1 := by
  obtain ⟨h1, h2⟩ := h
  cases hst : p.step <;> simp only [hst, ne_eq, not_true_eq_false, not_false_eq_true,
      reduceCtorEq] at h1 <;>
    simp only [iterate, hst] at hn ⊢ <;>
    (try split at hn) <;> (try split_ifs at hn ⊢) <;>
    (try simp only [reduceCtorEq] at hn) <;>
    simp_all [kindSet]

theorem loop_kindSet (fuel : Nat) :
    ∀ (p p' : Parser) (q : Query), kindSet p → loop fuel p = some (p', Outcome.ok q) →
      q.Type_ ∈ kinds := by
  induction fuel with
  | zero => intro p p' q _ h; simp [loop] at h
  | succ fuel ih =>
    intro p p' q hinv h
    rw [loop] at h
    by_cases hlt : p.i < p.SQL.length
    · simp only [hlt, if_true] at h
      have hpres := iterate_kindSet p hinv
      rcases hp : iterate p with ⟨p1, o⟩
      rw [hp] at h hpres
      cases o with
      | some out =>
        simp only [Option.some.injEq, Prod.mk.injEq] at h
        obtain ⟨rfl, rfl⟩ := h
        have := iterate_not_ok p q
        rw [hp] at this
        exact absurd rfl this
      | none => exact ih p1 p' q (hpres rfl) h
    · simp only [hlt, if_false, Option.some.injEq, Prod.mk.injEq, Outcome.ok.injEq] at h
      obtain ⟨rfl, rfl⟩ := h
      exact hinv.2

/-! ## Identifiers -/

theorem isWordByte_not_delim (b : Nat) (h : isWordByte b = true) : isDelim b = false := by
  simp only [isWordByte, decide_eq_true_eq] at h
  simp only [isDelim, decide_eq_false_iff_not]
  omega

/-- An identifier at whose head no reserved word matches is a plain token. -/
theorem identifier_plain (t : Text) (ht : Identifier t)
    (hno : ∀ rw ∈ reservedWords, ToUpper (t.take rw.length) ≠ rw) : Plain t :=
  ⟨ht.1, fun b hb => isWordByte_not_delim b (ht.2 b hb), hno⟩

/-! ## The texts stored in the record -/

theorem raw_nil (sql : Text) : Raw sql [] := Or.inl ⟨[], sql, rfl⟩

theorem take_part (n : Nat) (l : Text) : l.take n <:+: l := ⟨[], l.drop n, by simp⟩

theorem drop_part (n : Nat) (l : Text) : l.drop n <:+: l := ⟨l.take n, [], by simp⟩

/-- The token at the cursor is matched text of the whole text. -/
theorem peek_raw (p : Parser) : Raw p.SQL (peek p) := by
  rw [peek_eq_scan]
  have hsuf : rest p <:+: p.SQL := drop_part _ _
  unfold scan
  split
  · exact raw_nil _
  · cases h : firstReserved (rest p) with
    | some rw =>
      obtain ⟨hmem, hm⟩ := firstReserved_some (rest p) rw h
      exact Or.inr ⟨hmem, (rest p).take rw.length,
        List.IsInfix.trans (take_part _ _) hsuf, hm⟩
    | none => exact Or.inl (List.IsInfix.trans (take_part _ _) hsuf)

theorem iterate_SQL (p : Parser) : (iterate p).1.SQL = p.SQL := by
  cases hst : p.step <;> simp only [iterate, hst] <;> (try split) <;> (try split_ifs) <;> simp

theorem allRaw_append {sql : Text} {l : List Text} {t : Text} (h : ∀ x ∈ l, Raw sql x)
    (ht : Raw sql t) : ∀ x ∈ l ++ [t], Raw sql x := by
  intro x hx
  rcases List.mem_append.mp hx with hx | hx
  · exact h x hx
  · rw [List.mem_singleton.mp hx]; exact ht

theorem iterate_raw (sql : Text) (p : Parser) (hs : p.SQL = sql) (h : AllRaw sql p.Query) :
    AllRaw sql (iterate p).1.Query := by
  have hr : Raw sql (peek p) := hs ▸ peek_raw p
  obtain ⟨h1, h2, h3, h4, h5, h6, h7⟩ := h
  have a2 := allRaw_append h2 hr
  have a3 := allRaw_append h3 hr
  have a4 := allRaw_append h4 hr
  have a5 := allRaw_append h5 hr
  have a7 := allRaw_append h7 hr
  have a6 : ∀ row ∈ p.Query.InsertValues ++ [[]], ∀ t ∈ row, Raw sql t := by
    intro row hrow t ht
    rcases List.mem_append.mp hrow with hrow | hrow
    · exact h6 row hrow t ht
    · rw [List.mem_singleton.mp hrow] at ht
      exact absurd ht (List.not_mem_nil t)
  have b6 : ∀ last, p.Query.InsertValues.getLast? = some last →
      ∀ row ∈ p.Query.InsertValues.dropLast ++ [last ++ [peek p]], ∀ t ∈ row, Raw sql t := by
    intro last hl row hrow t ht
    rcases List.mem_append.mp hrow with hrow | hrow
    · exact h6 row (List.mem_of_mem_dropLast hrow) t ht
    · rw [List.mem_singleton.mp hrow] at ht
      exact allRaw_append (h6 last (List.mem_of_getLast?_eq_some hl)) hr t ht
  cases hst : p.step <;> simp only [iterate, hst] <;> (try split) <;> (try split_ifs) <;>
    simp only [AllRaw, pop_Query] <;>
    first
    | exact ⟨h1, h2, h3, h4, h5, h6, h7⟩
    | exact ⟨hr, h2, h3, h4, h5, h6, h7⟩
    | exact ⟨h1, a2, h3, h4, h5, h6, h7⟩
    | exact ⟨h1, h2, a3, h4, h5, h6, h7⟩
    | exact ⟨h1, h2, h3, a4, h5, h6, h7⟩
    | exact ⟨h1, h2, h3, h4, a5, h6, h7⟩
    | exact ⟨h1, h2, h3, h4, h5, h6, a7⟩
    | exact ⟨h1, h2, h3, h4, h5, a6, h7⟩
    | exact ⟨h1, h2, h3, h4, h5, b6 _ (by assumption), h7⟩

theorem loop_raw (sql : Text) (fuel : Nat) :
    ∀ (p p' : Parser) (q : Query), p.SQL = sql → AllRaw sql p.Query →
      loop fuel p = some (p', Outcome.ok q) → AllRaw sql q := by
  induction fuel with
  | zero => intro p p' q _ _ h; simp [loop] at h
  | succ fuel ih =>
    intro p p' q hs hinv h
    rw [loop] at h
    by_cases hlt : p.i < p.SQL.length
    · simp only [hlt, if_true] at h
      have hpres := iterate_raw sql p hs hinv
      have hsql := iterate_SQL p
      rcases hp : iterate p with ⟨p1, o⟩
      rw [hp] at h hpres hsql
      cases o with
      | some out =>
        simp only [Option.some.injEq, Prod.mk.injEq] at h
        obtain ⟨rfl, rfl⟩ := h
        have := iterate_not_ok p q
        rw [hp] at this
        exact absurd rfl this
      | none => exact ih p1 p' q (hsql.trans hs) hpres h
    · simp only [hlt, if_false, Option.some.injEq, Prod.mk.injEq, Outcome.ok.injEq] at h
      obtain ⟨rfl, rfl⟩ := h
      exact hinv

/-! ## The order of the reserved-word table -/

/-- Every entry before the one that `find?` returns fails the test. -/
theorem find_first (f : Text → Bool) (a : Text) :
    ∀ l : List Text, l.find? f = some a →
      ∀ b ∈ l.takeWhile (fun x => decide (x ≠ a)), f b = false := by
  intro l
  induction l with
  | nil => intro _ b hb; simp at hb
  | cons x l ih =>
    intro h b hb
    rw [List.find?_cons] at h
    cases hx : f x with
    | true =>
      rw [hx] at h
      simp only [Option.some.injEq] at h
      subst h
      simp at hb
    | false =>
      rw [hx] at h
      rw [List.takeWhile_cons] at hb
      split at hb
      · rcases List.mem_cons.mp hb with hb | hb
        · rw [hb]; exact hx
        · exact ih h b hb
      · simp at hb

/-- When an entry of the table is the head of a longer one, the longer entry stands
before it in the table. -/
theorem reserved_head_order :
    ∀ a ∈ reservedWords, ∀ b ∈ reservedWords, a.length < b.length → b.take a.length = a →
      b ∈ reservedWords.takeWhile (fun x => decide (x ≠ a)) := by
  decide

/-- Of two entries that match at the head of the same text, the shorter is the head of
the longer. -/
theorem matchesAt_take (s a b : Text) (ha : matchesAt s a) (hb : matchesAt s b)
    (hl : a.length ≤ b.length) : b.take a.length = a := by
  obtain ⟨_, ea⟩ := matchesAt_map s a ha
  obtain ⟨_, eb⟩ := matchesAt_map s b hb
  rw [← eb, ← List.map_take, List.take_take, Nat.min_eq_left hl]
  exact ea

/-- The entry found first is the longest of the entries that match. -/
theorem firstReserved_longest (s best rw : Text) (h : firstReserved s = some best)
    (hrw : rw ∈ reservedWords) (hm : matchesAt s rw) : rw.length ≤ best.length := by
  by_contra hlt
  obtain ⟨hbest, hmb⟩ := firstReserved_some s best h
  have htake := matchesAt_take s best rw hmb hm (by omega)
  have hmem := reserved_head_order best hbest rw hrw (by omega) htake
  have := find_first _ best reservedWords h rw hmem
  unfold matchesAt at hm
  simp [hm] at this

/-! ## The identifier scan -/

theorem take_takeWhile_length (f : Nat → Bool) (l : Text) :
    l.take (l.takeWhile f).length = l.takeWhile f := by
  induction l with
  | nil => rfl
  | cons a t ih =>
    rw [List.takeWhile_cons]
    split
    · simp only [List.length_cons, List.take_succ_cons, ih]
    · rfl

/-- The byte after the longest run on which `f` holds fails `f`. -/
theorem takeWhile_next (f : Nat → Bool) (l : Text)
    (h : (l.takeWhile f).length < l.length) :
    f ((l.drop (l.takeWhile f).length).headD 0) = false := by
  induction l with
  | nil => simp at h
  | cons a t ih =>
    rw [List.takeWhile_cons] at h ⊢
    split at h
    · rename_i hfa
      simp only [hfa, if_true, List.length_cons, List.drop_succ_cons] at h ⊢
      exact ih (by omega)
    · rename_i hfa
      simp only [hfa, Bool.false_eq_true, if_false, List.length_nil, List.drop_zero,
        List.headD_cons]

/-- When no reserved word matches, the byte at the cursor is no comma and no closing
parenthesis. -/
theorem head_not_reserved (a : Nat) (t : Text)
    (hno : ∀ rw ∈ reservedWords, ¬ matchesAt (a :: t) rw) : a ≠ 44 ∧ a ≠ 41 := by
  have e1 : str "," = [44] := by decide
  have e2 : str ")" = [41] := by decide
  constructor
  · intro h
    subst h
    refine hno (str ",") (by decide) ?_
    rw [e1]
    simp [matchesAt, ToUpper, upperByte]
  · intro h
    subst h
    refine hno (str ")") (by decide) ?_
    rw [e2]
    simp [matchesAt, ToUpper, upperByte]

/-! ## Runs stay in range -/

theorem iterate_i_le (p : Parser) (h : p.i ≤ p.SQL.length) :
    (iterate p).1.i ≤ (iterate p).1.SQL.length := by
  rw [iterate_SQL]
  cases hst : p.step <;> simp only [iterate, hst] <;> (try split) <;> (try split_ifs) <;>
    first
    | exact h
    | exact pop_i_le _ h
    | exact pop_i_le _ (pop_i_le _ h)

theorem iterate_rows (p : Parser)
    (h : p.step = step.stepInsertValues ∨ p.step = step.stepInsertValuesCommaOrClosingParens →
      p.Query.InsertValues ≠ []) :
    (iterate p).1.step = step.stepInsertValues ∨
        (iterate p).1.step = step.stepInsertValuesCommaOrClosingParens →
      (iterate p).1.Query.InsertValues ≠ [] := by
  cases hst : p.step <;> simp only [hst, reduceCtorEq, or_false, or_true, false_or, true_or,
      true_implies, false_implies] at h <;>
    simp only [iterate, hst] <;> (try split) <;> (try split_ifs) <;>
    simp_all

theorem iterate_no_panic (p : Parser)
    (h : p.step = step.stepInsertValues → p.Query.InsertValues ≠ []) :
    (iterate p).2 ≠ some Outcome.panic := by
  cases hst : p.step <;> simp only [hst, reduceCtorEq, true_implies, false_implies] at h <;>
    simp only [iterate, hst] <;> (try split) <;> (try split_ifs) <;>
    simp_all [parseError]

theorem iterate_inRange (p : Parser) (h : inRange p) : inRange (iterate p).1 :=
  ⟨iterate_i_le p h.1, iterate_rows p h.2⟩

theorem advance_inRange (k : Nat) : ∀ p : Parser, inRange p → inRange (advance k p) := by
  induction k with
  | zero => intro p h; exact h
  | succ k ih => intro p h; exact ih _ (iterate_inRange p h)

theorem advance_SQL (k : Nat) : ∀ p : Parser, (advance k p).SQL = p.SQL := by
  induction k with
  | zero => intro p; rfl
  | succ k ih => intro p; exact (ih _).trans (iterate_SQL p)

theorem pops_in_range (m : Nat) :
    ∀ p : Parser, p.i ≤ p.SQL.length →
      (Nat.iterate pop m p).SQL = p.SQL ∧ (Nat.iterate pop m p).i ≤ p.SQL.length := by
  induction m with
  | zero => intro p h; exact ⟨rfl, h⟩
  | succ m ih =>
    intro p h
    have := ih (pop p) (pop_i_le p h)
    simpa using this

/-- The token lies inside the text when the cursor is not past the end. -/
theorem peek_inside (p : Parser) (h : p.i ≤ p.SQL.length) :
    p.i + (peekWithLength p).2 ≤ p.SQL.length := by
  have hb := peekWithLength_bounds p
  by_cases hlt : p.i < p.SQL.length
  · exact (hb.1 hlt).2
  · rw [hb.2 (by omega)]
    exact h

theorem loop_no_panic (fuel : Nat) :
    ∀ (p p' : Parser), inRange p → loop fuel p ≠ some (p', Outcome.panic) := by
  induction fuel with
  | zero => intro p p' _ h; simp [loop] at h
  | succ fuel ih =>
    intro p p' hinv h
    rw [loop] at h
    by_cases hlt : p.i < p.SQL.length
    · simp only [hlt, if_true] at h
      have hpres := iterate_inRange p hinv
      have hnp := iterate_no_panic p (fun hs => hinv.2 (Or.inl hs))
      rcases hp : iterate p with ⟨p1, o⟩
      rw [hp] at h hpres hnp
      cases o with
      | some out =>
        simp only [Option.some.injEq, Prod.mk.injEq] at h
        obtain ⟨rfl, rfl⟩ := h
        exact hnp rfl
      | none => exact ih p1 p' hpres h
    · simp [hlt] at h

theorem start_inRange (sql : Text) : inRange (start sql) :=
  ⟨Nat.zero_le _, by simp [start]⟩

/-! ## The parser after a call of Parse -/

/-- When the loop returns a record, the text is unchanged and the cursor is at or past
its end. -/
theorem loop_ok_end (fuel : Nat) :
    ∀ (p p' : Parser) (q : Query), loop fuel p = some (p', Outcome.ok q) →
      p'.SQL = p.SQL ∧ p'.SQL.length ≤ p'.i := by
  induction fuel with
  | zero => intro p p' q h; simp [loop] at h
  | succ fuel ih =>
    intro p p' q h
    rw [loop] at h
    by_cases hlt : p.i < p.SQL.length
    · simp only [hlt, if_true] at h
      have hsql := iterate_SQL p
      rcases hp : iterate p with ⟨p1, o⟩
      rw [hp] at h hsql
      cases o with
      | some out =>
        simp only [Option.some.injEq, Prod.mk.injEq] at h
        obtain ⟨rfl, rfl⟩ := h
        have := iterate_not_ok p q
        rw [hp] at this
        exact absurd rfl this
      | none =>
        obtain ⟨h1, h2⟩ := ih p1 p' q h
        exact ⟨h1.trans hsql, h2⟩
    · simp only [hlt, if_false, Option.some.injEq, Prod.mk.injEq, Outcome.ok.injEq] at h
      obtain ⟨rfl, rfl⟩ := h
      exact ⟨rfl, by omega⟩

/-! ## The claims -/

/-- C1 (the code fails the claim): on `SELECT * FROM t WHERE a = 1 GROUP BY b c` the
loop of `Parse` never ends.  After `b` the next token `c` is neither `ORDER BY` nor a
comma, the state becomes `-1`, no case of the switch matches it and the cursor, still
before the end of the text, does not move again: whatever the number of passes, `Parse`
has not returned. -/
theorem parse_loops_after_group_by :
    ∀ fuel, Parse fuel freshParser (str "SELECT * FROM t WHERE a = 1 GROUP BY b c") = none := by
  intro fuel
  unfold Parse ParseRun
  rw [loop_diverges 11 _ (by decide) (by decide) (by decide) fuel]
  rfl

/-- C2 (the claim fails): `Parse` accepts `UPDATE t SET a` and returns a record of kind
UPDATE with one field and no value. -/
theorem update_lengths_differ :
    ∃ q, Parse 10 freshParser (str "UPDATE t SET a") = some (Outcome.ok q) ∧
      q.Type_ = str "UPDATE" ∧ q.Fields.length ≠ q.UpdateValues.length :=
  ⟨{ Type_ := str "UPDATE", TableName := str "t", Fields := [str "a"] },
    by decide, by decide, by decide⟩

/-- C2 (as amended): when `Parse` on a fresh parser returns a record of kind UPDATE,
`Fields` is exactly one longer than `UpdateValues` if the loop ended in the state that
waits for `=` or in the state that waits for the value, and as long as `UpdateValues`
in every other state. -/
theorem update_lengths (fuel : Nat) (sql : Text) (p' : Parser) (q : Query)
    (h : ParseRun fuel freshParser sql = some (p', Outcome.ok q))
    (hu : q.Type_ = str "UPDATE") :
    (p'.step = step.stepUpdateEquals ∨ p'.step = step.stepUpdateValue →
        q.Fields.length = q.UpdateValues.length + 1) ∧
    (¬ (p'.step = step.stepUpdateEquals ∨ p'.step = step.stepUpdateValue) →
        q.Fields.length = q.UpdateValues.length) := by
  have hinv : updateInv { freshParser with SQL := sql, Query := {}, step := step.stepType } :=
    ⟨fun _ => rfl, fun h => absurd rfl h⟩
  obtain ⟨⟨h1, h2⟩, rfl⟩ := loop_updateInv fuel _ p' q hinv h
  have hne : p'.step ≠ step.stepType := by
    intro hs
    rw [h1 hs] at hu
    exact absurd hu (by decide)
  have hshape := h2 hne hu
  cases hst : p'.step <;> rw [hst] at hshape <;> simp_all [updateShape]

/-- Instance of `update_lengths` on `UPDATE t SET a = 1`, which ends in the state after a
value: one field, one value. -/
theorem update_lengths_witness :
    ParseRun 30 freshParser (str "UPDATE t SET a = 1")
        = some ({ SQL := str "UPDATE t SET a = 1", i := 18,
                  Query := { Type_ := str "UPDATE", TableName := str "t", Fields := [str "a"],
                             UpdateValues := [str "1"] },
                  step := step.stepUpdateComma },
                Outcome.ok { Type_ := str "UPDATE", TableName := str "t", Fields := [str "a"],
                             UpdateValues := [str "1"] }) ∧
      [str "a"].length = [str "1"].length :=
  ⟨by decide,
    (update_lengths 30 (str "UPDATE t SET a = 1")
      { SQL := str "UPDATE t SET a = 1", i := 18,
        Query := { Type_ := str "UPDATE", TableName := str "t", Fields := [str "a"],
                   UpdateValues := [str "1"] },
        step := step.stepUpdateComma }
      { Type_ := str "UPDATE", TableName := str "t", Fields := [str "a"],
        UpdateValues := [str "1"] }
      (by decide) (by decide)).2 (by decide)⟩

/-- C3 (the claim fails): the statement `SELECT a, b`, cut off before `FROM`, is not
rejected; `Parse` returns the record built so far. -/
theorem truncated_select_accepted :
    Parse 10 freshParser (str "SELECT a, b")
      = some (Outcome.ok { Type_ := str "SELECT", Fields := [str "a", str "b"] }) := by
  decide

/-- C3 (as amended): cut off before `INTO`, the statement `INSERT` yields the error
and no record; cut off at one of the other places, where the text ends with a complete
token, the statement is accepted and `Parse` returns the record built so far:
`SELECT f1, ..., fn` gives the fields, `UPDATE t` the table, `UPDATE t SET f` the table
and the field, `INSERT INTO t` and `INSERT INTO t VALUES` the table,
`INSERT INTO t VALUES (v` the table and the row `[v]`. -/
theorem truncated_statements (f : Text) (fs : List Text) (t u v : Text)
    (hf : Plain f) (hfs : ∀ x ∈ fs, Plain x) (ht : Plain t) (hu : Plain u) (hv : Plain v) :
    (∃ fuel, Parse fuel freshParser (str "INSERT") = some parseError) ∧
    (∃ fuel, Parse fuel freshParser (str "SELECT" ++ str " " ++ commaList (f :: fs))
      = some (Outcome.ok { Type_ := str "SELECT", Fields := f :: fs })) ∧
    (∃ fuel, Parse fuel freshParser (str "UPDATE" ++ str " " ++ t)
      = some (Outcome.ok { Type_ := str "UPDATE", TableName := t })) ∧
    (∃ fuel, Parse fuel freshParser
        (str "UPDATE" ++ str " " ++ t ++ str " " ++ str "SET" ++ str " " ++ u)
      = some (Outcome.ok { Type_ := str "UPDATE", TableName := t, Fields := [u] })) ∧
    (∃ fuel, Parse fuel freshParser (str "INSERT" ++ str " " ++ str "INTO" ++ str " " ++ t)
      = some (Outcome.ok { Type_ := str "INSERT", TableName := t })) ∧
    (∃ fuel, Parse fuel freshParser
        (str "INSERT" ++ str " " ++ str "INTO" ++ str " " ++ t ++ str " " ++ str "VALUES")
      = some (Outcome.ok { Type_ := str "INSERT", TableName := t })) ∧
    (∃ fuel, Parse fuel freshParser
        (str "INSERT" ++ str " " ++ str "INTO" ++ str " " ++ t ++ str " " ++ str "VALUES" ++
          str " " ++ str "(" ++ v)
      = some (Outcome.ok { Type_ := str "INSERT", TableName := t, InsertValues := [[v]] })) := by
  have hsp : str " " = [32] := by decide
  have hins : ∀ r, Reads (str "INSERT" ++ (32 :: (str "INTO" ++ r))) (str "INSERT")
      (str "INTO" ++ r) := by
    intro r
    have := reads_reserved (str "INSERT") (32 :: (str "INTO" ++ r)) (by decide) (first_INSERT _)
    rwa [skip_space, skip_INTO] at this
  have hinto : ∀ r, Reads (str "INTO" ++ (32 :: (t ++ r))) (str "INTO") (t ++ r) := by
    intro r
    have := reads_reserved (str "INTO") (32 :: (t ++ r)) (by decide) (first_INTO _)
    rwa [skip_space, skip_plain t _ ht] at this
  have hupd : ∀ r, Reads (str "UPDATE" ++ (32 :: (t ++ r))) (str "UPDATE") (t ++ r) := by
    intro r
    have := reads_reserved (str "UPDATE") (32 :: (t ++ r)) (by decide) (first_UPDATE _)
    rwa [skip_space, skip_plain t _ ht] at this
  have htv : Reads (t ++ (32 :: (str "VALUES" ++ []))) t (str "VALUES" ++ []) := by
    have := reads_plain t (32 :: (str "VALUES" ++ [])) ht (cut_space _)
      (Or.inl (byAhead_other 86 _ (by decide)))
    rwa [skip_space, skip_VALUES] at this
  refine ⟨⟨2, by decide⟩, ?_, ?_, ?_, ?_, ?_, ?_⟩
  · apply yields_Parse
    obtain ⟨r, hr⟩ := commaListSp_head f (fs.map (fun g => ((1 : Nat), g)))
    have e : str "SELECT" ++ str " " ++ commaList (f :: fs)
        = str "SELECT" ++ (32 :: (commaListSp f (fs.map (fun g => ((1 : Nat), g))) ++ [])) := by
      rw [commaList_eq]
      simp [hsp, List.append_assoc]
    rw [e]
    refine yields_type_select (reads_reserved _ _ (by decide) (first_SELECT _)) ?_
    rw [skip_space, hr, List.append_assoc, skip_plain f _ hf, ← List.append_assoc, ← hr]
    refine yields_selectFields f _ [] _ _ hf (plain_map_one fs hfs) cut_nil rfl ?_
    rw [skip_nil]
    exact yields_nil_eq _ (by simp [map_one_snd])
  · apply yields_Parse
    have e : str "UPDATE" ++ str " " ++ t = str "UPDATE" ++ (32 :: (t ++ [])) := by
      simp [hsp]
    rw [e]
    refine yields_type_update (hupd []) ?_
    rw [List.append_nil]
    exact yields_updateTable (plain_append_nil t ht) (plain_ne_SET t ht) (yields_nil_eq _ rfl)
  · apply yields_Parse
    have e : str "UPDATE" ++ str " " ++ t ++ str " " ++ str "SET" ++ str " " ++ u
        = str "UPDATE" ++ (32 :: (t ++ (32 :: (str "SET" ++ (32 :: u))))) := by
      simp [hsp, List.append_assoc]
    rw [e]
    refine yields_type_update (hupd _) ?_
    refine yields_updateTable (reads_plain t _ ht (cut_space _) (Or.inl rfl))
      (plain_ne_SET t ht) ?_
    rw [skip_space, skip_SET]
    refine yields_updateSet (reads_reserved _ _ (by decide) (first_SET _)) ?_
    rw [skip_space, skip_plain_self u hu]
    exact yields_updateField (plain_append_nil u hu) (yields_nil_eq _ rfl)
  · apply yields_Parse
    have e : str "INSERT" ++ str " " ++ str "INTO" ++ str " " ++ t
        = str "INSERT" ++ (32 :: (str "INTO" ++ (32 :: (t ++ [])))) := by
      simp [hsp, List.append_assoc]
    rw [e]
    refine yields_type_insert (hins _) (hinto _) ?_
    rw [List.append_nil]
    exact yields_insertTable (plain_append_nil t ht) (yields_nil_eq _ rfl)
  · apply yields_Parse
    have e : str "INSERT" ++ str " " ++ str "INTO" ++ str " " ++ t ++ str " " ++ str "VALUES"
        = str "INSERT" ++ (32 :: (str "INTO" ++ (32 :: (t ++ (32 :: (str "VALUES" ++ [])))))) := by
      simp [hsp, List.append_assoc]
    rw [e]
    refine yields_type_insert (hins _) (hinto _) ?_
    refine yields_insertTable htv ?_
    have hval := reads_reserved (str "VALUES") [] (by decide) (first_VALUES _)
    rw [skip_nil] at hval
    exact yields_insertNoFields hval (yields_nil_eq _ rfl)
  · apply yields_Parse
    have e : str "INSERT" ++ str " " ++ str "INTO" ++ str " " ++ t ++ str " " ++ str "VALUES" ++
          str " " ++ str "(" ++ v
        = str "INSERT" ++ (32 :: (str "INTO" ++ (32 :: (t ++ (32 :: (str "VALUES" ++
            (32 :: (str "(" ++ v)))))))) := by
      simp [hsp, List.append_assoc]
    rw [e]
    refine yields_type_insert (hins _) (hinto _) ?_
    refine yields_insertTable (reads_plain t _ ht (cut_space _) (Or.inl rfl)) ?_
    rw [skip_space, skip_VALUES]
    refine yields_insertNoFields (reads_reserved _ _ (by decide) (first_VALUES _)) ?_
    rw [skip_space, skip_open]
    refine yields_insertValuesOpeningParens (reads_reserved _ _ (by decide) (first_open _)) ?_
    rw [skip_plain_self v hv]
    exact @yields_insertValues _ _ _ _ _ [] [] (plain_append_nil v hv) rfl
      (yields_nil_eq _ rfl)

/-- Instance of `truncated_statements` with fields `a`, `b`, table `table`, field `c` and
value `1`. -/
theorem truncated_statements_witness :
    (Plain (str "a") ∧ (∀ x ∈ [str "b"], Plain x) ∧ Plain (str "table") ∧ Plain (str "c") ∧
      Plain (str "1")) ∧
    ((∃ fuel, Parse fuel freshParser (str "INSERT") = some parseError) ∧
    (∃ fuel, Parse fuel freshParser (str "SELECT" ++ str " " ++ commaList [str "a", str "b"])
      = some (Outcome.ok { Type_ := str "SELECT", Fields := [str "a", str "b"] })) ∧
    (∃ fuel, Parse fuel freshParser (str "UPDATE" ++ str " " ++ str "table")
      = some (Outcome.ok { Type_ := str "UPDATE", TableName := str "table" })) ∧
    (∃ fuel, Parse fuel freshParser
        (str "UPDATE" ++ str " " ++ str "table" ++ str " " ++ str "SET" ++ str " " ++ str "c")
      = some (Outcome.ok { Type_ := str "UPDATE", TableName := str "table",
                           Fields := [str "c"] })) ∧
    (∃ fuel, Parse fuel freshParser
        (str "INSERT" ++ str " " ++ str "INTO" ++ str " " ++ str "table")
      = some (Outcome.ok { Type_ := str "INSERT", TableName := str "table" })) ∧
    (∃ fuel, Parse fuel freshParser
        (str "INSERT" ++ str " " ++ str "INTO" ++ str " " ++ str "table" ++ str " " ++
          str "VALUES")
      = some (Outcome.ok { Type_ := str "INSERT", TableName := str "table" })) ∧
    (∃ fuel, Parse fuel freshParser
        (str "INSERT" ++ str " " ++ str "INTO" ++ str " " ++ str "table" ++ str " " ++
          str "VALUES" ++ str " " ++ str "(" ++ str "1")
      = some (Outcome.ok { Type_ := str "INSERT", TableName := str "table",
                           InsertValues := [[str "1"]] }))) :=
  ⟨by decide, truncated_statements (str "a") [str "b"] (str "table") (str "c") (str "1")
    (by decide) (by decide) (by decide) (by decide) (by decide)⟩

/-- C4: for plain tokens `f1..fn` (n at least 1) and `t`, and `SELECT`, `FROM` written
in any mix of upper and lower case, `Parse` of `SELECT f1, f2, ..., fn FROM t` returns
the record with Type `SELECT`, TableName `t`, Fields `[f1, ..., fn]` in input order and
every other attribute empty. -/
theorem select_from (sel frm f : Text) (fs : List Text) (t : Text)
    (hsel : sel.map upperByte = str "SELECT") (hfrm : frm.map upperByte = str "FROM")
    (hf : Plain f) (hfs : ∀ x ∈ fs, Plain x) (ht : Plain t) :
    ∃ fuel, Parse fuel freshParser
        (sel ++ str " " ++ commaList (f :: fs) ++ str " " ++ frm ++ str " " ++ t)
      = some (Outcome.ok { Type_ := str "SELECT", TableName := t, Fields := f :: fs }) := by
  apply yields_Parse
  have hm : ∀ m ∈ fs.map (fun g => ((1 : Nat), g)), Plain m.2 := by
    intro m hmem
    obtain ⟨g, hg, rfl⟩ := List.mem_map.mp hmem
    exact hfs g hg
  obtain ⟨r, hr⟩ := commaListSp_head f (fs.map (fun g => ((1 : Nat), g)))
  have e : sel ++ str " " ++ commaList (f :: fs) ++ str " " ++ frm ++ str " " ++ t
      = sel ++ (32 :: (commaListSp f (fs.map (fun g => ((1 : Nat), g)))
          ++ (32 :: (frm ++ (32 :: t))))) := by
    rw [commaList_eq]
    have : str " " = [32] := by decide
    simp [this, List.append_assoc]
  rw [e]
  refine yields_type_select (reads_mixed sel _ _ hsel (by decide) first_SELECT) ?_
  rw [skip_space, hr, List.append_assoc, skip_plain f _ hf, ← List.append_assoc, ← hr]
  refine yields_selectFields f _ _ _ _ hf hm (cut_space _)
    (byAhead_mixed frm _ _ hfrm (by decide) (by decide)) ?_
  rw [skip_space, skip_mixed frm _ _ hfrm (by decide) (by decide)]
  refine yields_selectComma_from (reads_mixed frm _ _ hfrm (by decide) first_FROM) ?_
  rw [skip_space, skip_plain_self t ht]
  exact yields_selectFromTable (plain_append_nil t ht) (yields_nil_eq _ (by simp [Function.comp_def]))

/-- Instance of `select_from` on `select a, a, b From table`: lower and mixed case
keywords, a repeated field. -/
theorem select_from_witness :
    ((str "select").map upperByte = str "SELECT" ∧ (str "From").map upperByte = str "FROM" ∧
      Plain (str "a") ∧ (∀ x ∈ [str "a", str "b"], Plain x) ∧ Plain (str "table")) ∧
    ∃ fuel, Parse fuel freshParser
        (str "select" ++ str " " ++ commaList [str "a", str "a", str "b"] ++ str " " ++
          str "From" ++ str " " ++ str "table")
      = some (Outcome.ok { Type_ := str "SELECT", TableName := str "table",
                           Fields := [str "a", str "a", str "b"] }) :=
  ⟨by decide, select_from (str "select") (str "From") (str "a") [str "a", str "b"] (str "table")
    (by decide) (by decide) (by decide) (by decide) (by decide)⟩

/-- C5: for a plain table token `t`, an optional column group of plain tokens and a
non-empty list of non-empty rows of plain tokens, each comma followed by any number of
spaces, `Parse` of `INSERT INTO t (c1, ..., ck) VALUES (v11, ..., v1m),(v21, ...),...`
(the column group left out when there are no columns) returns the record with Type
`INSERT`, TableName `t`, Fields `[c1..ck]` and InsertValues holding one inner list per
parenthesised group, in input order, each with its values from left to right. -/
theorem insert_values (t : Text) (cols : Option Items) (row : Items)
    (rows : List (Nat × Items)) (ht : Plain t) (hcols : ∀ it ∈ cols, PlainItems it)
    (hrow : PlainItems row) (hrows : ∀ m ∈ rows, PlainItems m.2) :
    ∃ fuel, Parse fuel freshParser
        (str "INSERT" ++ str " " ++ str "INTO" ++ str " " ++ t ++ columnsText cols ++
          str " " ++ str "VALUES" ++ str " " ++ rowsText row rows)
      = some (Outcome.ok { Type_ := str "INSERT", TableName := t,
                           Fields := columnTokens cols,
                           InsertValues := itemTokens row ::
                             rows.map (fun m => itemTokens m.2) }) := by
  apply yields_Parse
  obtain ⟨y, hy⟩ := rowsText_head row rows
  have hsp : str " " = [32] := by decide
  have hrowsY := yields_rows rows row
  cases cols with
  | none =>
    have e : str "INSERT" ++ str " " ++ str "INTO" ++ str " " ++ t ++ columnsText none ++
          str " " ++ str "VALUES" ++ str " " ++ rowsText row rows
        = str "INSERT" ++ (32 :: (str "INTO" ++ (32 :: (t ++ (32 :: (str "VALUES" ++
            (32 :: rowsText row rows))))))) := by
      simp [hsp, columnsText, List.append_assoc]
    rw [e]
    have h1 := reads_reserved (str "INSERT") (32 :: (str "INTO" ++ (32 :: (t ++ (32 ::
      (str "VALUES" ++ (32 :: rowsText row rows))))))) (by decide) (first_INSERT _)
    rw [skip_space, skip_INTO] at h1
    have h2 := reads_reserved (str "INTO") (32 :: (t ++ (32 ::
      (str "VALUES" ++ (32 :: rowsText row rows))))) (by decide) (first_INTO _)
    rw [skip_space, skip_plain t _ ht] at h2
    refine yields_type_insert h1 h2 ?_
    refine yields_insertTable (reads_plain t _ ht (cut_space _) (Or.inl rfl)) ?_
    rw [skip_space, skip_VALUES]
    refine yields_insertNoFields (reads_reserved _ _ (by decide) (first_VALUES _)) ?_
    rw [skip_space, hy, skip_open, ← hy]
    have := hrowsY { Type_ := str "INSERT", TableName := t } hrow hrows
    simpa [columnTokens] using this
  | some it =>
    have hit : PlainItems it := hcols it rfl
    obtain ⟨x, hx⟩ := commaListSp_head it.1 it.2
    have e : str "INSERT" ++ str " " ++ str "INTO" ++ str " " ++ t ++ columnsText (some it) ++
          str " " ++ str "VALUES" ++ str " " ++ rowsText row rows
        = str "INSERT" ++ (32 :: (str "INTO" ++ (32 :: (t ++ (32 :: (str "(" ++ (commaListSp it.1 it.2 ++ (str ")" ++ (32 :: (str "VALUES" ++ (32 :: (rowsText row rows)))))))))))) := by
      simp [hsp, columnsText, groupText, List.append_assoc]
    rw [e]
    have h1 := reads_reserved (str "INSERT") (32 :: (str "INTO" ++ (32 :: (t ++ (32 :: (str "(" ++ (commaListSp it.1 it.2 ++ (str ")" ++ (32 :: (str "VALUES" ++ (32 :: (rowsText row rows)))))))))))) (by decide) (first_INSERT _)
    rw [skip_space, skip_INTO] at h1
    have h2 := reads_reserved (str "INTO") (32 :: (t ++ (32 :: (str "(" ++ (commaListSp it.1 it.2 ++ (str ")" ++ (32 :: (str "VALUES" ++ (32 :: (rowsText row rows)))))))))) (by decide) (first_INTO _)
    rw [skip_space, skip_plain t _ ht] at h2
    refine yields_type_insert h1 h2 ?_
    refine yields_insertTable
      (reads_plain t _ ht (cut_space _) (Or.inl (byAhead_other 40 _ (by decide)))) ?_
    rw [skip_space, skip_open]
    refine yields_insertFieldsOpeningParens
      (reads_reserved _ _ (by decide) (first_open _)) ?_
    rw [hx, List.append_assoc, skip_plain _ _ hit.1, ← List.append_assoc, ← hx]
    refine yields_insertColumns it.1 it.2 _ _ _ hit.1 hit.2 ?_
    rw [skip_space, skip_VALUES]
    refine yields_insertValuesRWord (reads_reserved _ _ (by decide) (first_VALUES _)) ?_
    rw [skip_space, hy, skip_open, ← hy]
    have := hrowsY { Type_ := str "INSERT", TableName := t, Fields := itemTokens it } hrow hrows
    simpa [columnTokens, itemTokens] using this

/-- Instance of `insert_values` on `INSERT INTO table (a, b, c) VALUES (1, 2, 3),(4,5,6)`. -/
theorem insert_values_witness :
    (Plain (str "table") ∧
      (∀ it ∈ some ((str "a", [(1, str "b"), (1, str "c")]) : Items), PlainItems it) ∧
      PlainItems (str "1", [(1, str "2"), (1, str "3")]) ∧
      (∀ m ∈ [((0 : Nat), ((str "4", [(0, str "5"), (0, str "6")]) : Items))],
        PlainItems m.2)) ∧
    ∃ fuel, Parse fuel freshParser
        (str "INSERT" ++ str " " ++ str "INTO" ++ str " " ++ str "table" ++
          columnsText (some (str "a", [(1, str "b"), (1, str "c")])) ++
          str " " ++ str "VALUES" ++ str " " ++
          rowsText (str "1", [(1, str "2"), (1, str "3")])
            [(0, (str "4", [(0, str "5"), (0, str "6")]))])
      = some (Outcome.ok { Type_ := str "INSERT", TableName := str "table",
                           Fields := columnTokens (some (str "a", [(1, str "b"), (1, str "c")])),
                           InsertValues := itemTokens (str "1", [(1, str "2"), (1, str "3")]) ::
                             [(0, ((str "4", [(0, str "5"), (0, str "6")]) : Items))].map
                               (fun m => itemTokens m.2) }) :=
  ⟨by decide, insert_values (str "table") (some (str "a", [(1, str "b"), (1, str "c")]))
    (str "1", [(1, str "2"), (1, str "3")]) [(0, (str "4", [(0, str "5"), (0, str "6")]))]
    (by decide) (by decide) (by decide) (by decide)⟩

/-- C6: for a plain token `t` and a non-empty list of pairs of plain tokens
`(f1, v1) .. (fn, vn)`, `Parse` of `UPDATE t SET f1 = v1, f2 = v2, ..., fn = vn` returns
the record with Type `UPDATE`, TableName `t`, Fields `[f1..fn]`, UpdateValues `[v1..vn]`
and every other attribute empty. -/
theorem update_set (t : Text) (p : Text × Text) (ps : List (Text × Text))
    (ht : Plain t) (hp1 : Plain p.1) (hp2 : Plain p.2) (hps : ∀ x ∈ ps, Plain x.1 ∧ Plain x.2) :
    ∃ fuel, Parse fuel freshParser
        (str "UPDATE" ++ str " " ++ t ++ str " " ++ str "SET" ++ str " " ++ assignList (p :: ps))
      = some (Outcome.ok { Type_ := str "UPDATE", TableName := t,
                           Fields := (p :: ps).map Prod.fst,
                           UpdateValues := (p :: ps).map Prod.snd }) := by
  apply yields_Parse
  obtain ⟨r, hr⟩ := assignList_head p ps
  have e : str "UPDATE" ++ str " " ++ t ++ str " " ++ str "SET" ++ str " " ++ assignList (p :: ps)
      = str "UPDATE" ++ (32 :: (t ++ (32 :: (str "SET" ++ (32 :: assignList (p :: ps)))))) := by
    have : str " " = [32] := by decide
    simp [this, List.append_assoc]
  rw [e]
  refine yields_type_update (reads_reserved _ _ (by decide) (first_UPDATE _)) ?_
  rw [skip_space, skip_plain t _ ht]
  refine yields_updateTable (reads_plain t _ ht (cut_space _) (Or.inl rfl)) (plain_ne_SET t ht) ?_
  rw [skip_space]
  have hs : skip (str "SET" ++ (32 :: assignList (p :: ps)))
      = str "SET" ++ (32 :: assignList (p :: ps)) := skip_cons 83 _ (by decide)
  rw [hs]
  refine yields_updateSet (reads_reserved _ _ (by decide) (first_SET _)) ?_
  rw [skip_space, hr, skip_plain _ _ hp1, ← hr]
  have := yields_assignments ps p { Type_ := str "UPDATE", TableName := t } hp1 hp2 hps
  simpa using this

/-- Instance of `update_set` on `UPDATE table SET a = 1, b = 2`. -/
theorem update_set_witness :
    (Plain (str "table") ∧ Plain (str "a") ∧ Plain (str "1") ∧
      ∀ x ∈ [(str "b", str "2")], Plain x.1 ∧ Plain x.2) ∧
    ∃ fuel, Parse fuel freshParser
        (str "UPDATE" ++ str " " ++ str "table" ++ str " " ++ str "SET" ++ str " " ++
          assignList [(str "a", str "1"), (str "b", str "2")])
      = some (Outcome.ok { Type_ := str "UPDATE", TableName := str "table",
                           Fields := [str "a", str "b"],
                           UpdateValues := [str "1", str "2"] }) :=
  ⟨by decide, update_set (str "table") (str "a", str "1") [(str "b", str "2")]
    (by decide) (by decide) (by decide) (by decide)⟩

/-- C7: for a plain token `t` and a non-empty list of condition tokens `c1..cn`, each a
comparison operator or a plain token other than `GROUP` and `ORDER` in any case,
`Parse` of `DELETE FROM t WHERE c1 c2 ... cn` returns the record with Type `DELETE`,
TableName `t` and Condition `[c1, ..., cn]`, one flat list in input order. -/
theorem delete_where (t c : Text) (cs : List Text) (ht : Plain t)
    (hcs : ∀ x ∈ c :: cs, CondTok x) :
    ∃ fuel, Parse fuel freshParser
        (str "DELETE" ++ str " " ++ str "FROM" ++ str " " ++ t ++ str " " ++ str "WHERE" ++
          str " " ++ spaceList (c :: cs))
      = some (Outcome.ok { Type_ := str "DELETE", TableName := t, Condition := c :: cs }) := by
  apply yields_Parse
  obtain ⟨r, hr⟩ := spaceList_head c cs
  have e : str "DELETE" ++ str " " ++ str "FROM" ++ str " " ++ t ++ str " " ++ str "WHERE" ++
        str " " ++ spaceList (c :: cs)
      = str "DELETE" ++ (32 :: (str "FROM" ++ (32 :: (t ++ (32 :: (str "WHERE" ++
          (32 :: spaceList (c :: cs)))))))) := by
    have : str " " = [32] := by decide
    simp [this, List.append_assoc]
  rw [e]
  have h1 := reads_reserved (str "DELETE") (32 :: (str "FROM" ++ (32 :: (t ++ (32 :: (str "WHERE" ++
          (32 :: spaceList (c :: cs)))))))) (by decide) (first_DELETE _)
  rw [skip_space, show skip (str "FROM" ++ (32 :: (t ++ (32 :: (str "WHERE" ++
          (32 :: spaceList (c :: cs)))))))
        = str "FROM" ++ (32 :: (t ++ (32 :: (str "WHERE" ++ (32 :: spaceList (c :: cs))))))
      from skip_cons 70 _ (by decide)] at h1
  have h2 := reads_reserved (str "FROM") (32 :: (t ++ (32 :: (str "WHERE" ++
          (32 :: spaceList (c :: cs)))))) (by decide) (first_FROM _)
  rw [skip_space, skip_plain t _ ht] at h2
  refine yields_type_delete h1 h2 ?_
  refine yields_deleteFromTable (reads_plain t _ ht (cut_space _) (Or.inl rfl)) ?_
  rw [skip_space, show skip (str "WHERE" ++ (32 :: spaceList (c :: cs)))
        = str "WHERE" ++ (32 :: spaceList (c :: cs)) from skip_cons 87 _ (by decide)]
  refine yields_where (reads_reserved _ _ (by decide) (first_WHERE _)) ?_
  rw [skip_space, hr, skip_cond c r (hcs c (List.mem_cons_self _ _)), ← hr]
  have := yields_conditions (c :: cs) { Type_ := str "DELETE", TableName := t }
    step.stepWhereField (Or.inl rfl) hcs
  simpa using this

/-- Instance of `delete_where` on `DELETE FROM table WHERE a >= 1 AND b + c <= 100`. -/
theorem delete_where_witness :
    (Plain (str "table") ∧
      ∀ x ∈ [str "a", str ">=", str "1", str "AND", str "b", str "+", str "c", str "<=",
        str "100"], CondTok x) ∧
    ∃ fuel, Parse fuel freshParser
        (str "DELETE" ++ str " " ++ str "FROM" ++ str " " ++ str "table" ++ str " " ++
          str "WHERE" ++ str " " ++
          spaceList [str "a", str ">=", str "1", str "AND", str "b", str "+", str "c",
            str "<=", str "100"])
      = some (Outcome.ok { Type_ := str "DELETE", TableName := str "table",
                           Condition := [str "a", str ">=", str "1", str "AND", str "b",
                             str "+", str "c", str "<=", str "100"] }) :=
  ⟨by decide, delete_where (str "table") (str "a")
    [str ">=", str "1", str "AND", str "b", str "+", str "c", str "<=", str "100"]
    (by decide) (by decide)⟩

/-- C8: for plain tokens `t`, `a`, `v`, a comparison operator `op` and lists `g1..gk`,
`o1..om` of plain tokens, `Parse` of
`SELECT * FROM t WHERE a op v GROUP BY g1, ..., gk ORDER BY o1, ..., om` returns the
record with Fields `[*]`, TableName `t`, Condition `[a, op, v]`, GroupByFields `[g1..gk]`
and OrderByFields `[o1..om]`; a clause whose list is empty is left out of the text, and
its attribute is then empty. -/
theorem select_where_group_order (t a op v : Text) (gs os : List Text)
    (ht : Plain t) (ha : Plain a) (hop : op ∈ operators) (hv : Plain v)
    (hgs : ∀ x ∈ gs, Plain x) (hos : ∀ x ∈ os, Plain x) :
    ∃ fuel, Parse fuel freshParser
        (str "SELECT" ++ str " " ++ str "*" ++ str " " ++ str "FROM" ++ str " " ++ t ++
          str " " ++ str "WHERE" ++ str " " ++ a ++ str " " ++ op ++ str " " ++ v ++
          groupClause gs ++ orderClause os)
      = some (Outcome.ok { Type_ := str "SELECT", TableName := t, Fields := [str "*"],
                           Condition := [a, op, v], GroupByFields := gs,
                           OrderByFields := os }) := by
  apply yields_Parse
  have e : str "SELECT" ++ str " " ++ str "*" ++ str " " ++ str "FROM" ++ str " " ++ t ++
        str " " ++ str "WHERE" ++ str " " ++ a ++ str " " ++ op ++ str " " ++ v ++
        groupClause gs ++ orderClause os
      = str "SELECT" ++ (32 :: (str "*" ++ (32 :: (str "FROM" ++ (32 :: (t ++ (32 ::
        (str "WHERE" ++ (32 :: (a ++ (32 :: (op ++ (32 :: (v ++
          (groupClause gs ++ orderClause os))))))))))))))) := by
    have : str " " = [32] := by decide
    simp [this, List.append_assoc]
  rw [e]
  refine yields_select_star t a op v _ _ ht ha hop hv ?_
  have eg : str " GROUP BY " = 32 :: (str "GROUP BY" ++ [32]) := by decide
  have eo : str " ORDER BY " = 32 :: (str "ORDER BY" ++ [32]) := by decide
  have e1 : ([] : Text) ≠ str "ORDER BY" := by decide
  have e2 : ([] : Text) ≠ str "GROUP BY" := by decide
  cases gs with
  | nil =>
    cases os with
    | nil =>
      simp only [groupClause, orderClause, List.append_nil]
      exact yields_whereValue (plain_append_nil v hv) (by rw [scan_nil]; exact e1)
        (by rw [scan_nil]; exact e2) (yields_nil_eq _ rfl)
    | cons o os =>
      have ho := hos o (List.mem_cons_self _ _)
      have hos' : ∀ x ∈ os, Plain x := fun x hx => hos x (List.mem_cons_of_mem _ hx)
      obtain ⟨r, hr⟩ := commaListSp_head o (os.map (fun g => ((1 : Nat), g)))
      have et : groupClause [] ++ orderClause (o :: os)
          = 32 :: (str "ORDER BY" ++ (32 :: commaListSp o (os.map (fun g => ((1 : Nat), g))))) := by
        simp [groupClause, orderClause, eo, commaList_eq, List.append_assoc]
      rw [et]
      have h1 := reads_plain v _ hv (cut_space
        (str "ORDER BY" ++ (32 :: commaListSp o (os.map (fun g => ((1 : Nat), g)))))) (Or.inl rfl)
      rw [skip_space, skip_ORDER_BY] at h1
      refine yields_whereValue_order h1 (reads_reserved _ _ (by decide) (first_ORDER_BY _)) ?_
      rw [skip_space, hr, skip_plain o _ ho, ← hr]
      have := yields_orderFields o (os.map (fun g => ((1 : Nat), g)))
        { Type_ := str "SELECT", TableName := t, Fields := [str "*"], Condition := [a, op, v] }
        ho (plain_map_one os hos')
      simpa [map_one_snd] using this
  | cons g gs =>
    have hg := hgs g (List.mem_cons_self _ _)
    have hgs' : ∀ x ∈ gs, Plain x := fun x hx => hgs x (List.mem_cons_of_mem _ hx)
    obtain ⟨r, hr⟩ := commaListSp_head g (gs.map (fun g => ((1 : Nat), g)))
    cases os with
    | nil =>
      have et : groupClause (g :: gs) ++ orderClause []
          = 32 :: (str "GROUP BY" ++ (32 :: commaListSp g (gs.map (fun g => ((1 : Nat), g))))) := by
        simp [groupClause, orderClause, eg, commaList_eq, List.append_assoc]
      rw [et]
      have h1 := reads_plain v _ hv (cut_space
        (str "GROUP BY" ++ (32 :: commaListSp g (gs.map (fun g => ((1 : Nat), g)))))) (Or.inl rfl)
      rw [skip_space, skip_GROUP_BY] at h1
      refine yields_whereValue_group h1 (reads_reserved _ _ (by decide) (first_GROUP_BY _)) ?_
      rw [skip_space, hr, skip_plain g _ hg, ← hr]
      have := yields_groupFields g (gs.map (fun g => ((1 : Nat), g)))
        { Type_ := str "SELECT", TableName := t, Fields := [str "*"], Condition := [a, op, v] }
        hg (plain_map_one gs hgs')
      simpa [map_one_snd] using this
    | cons o os =>
      have ho := hos o (List.mem_cons_self _ _)
      have hos' : ∀ x ∈ os, Plain x := fun x hx => hos x (List.mem_cons_of_mem _ hx)
      obtain ⟨r', hr'⟩ := commaListSp_head o (os.map (fun g => ((1 : Nat), g)))
      have et : groupClause (g :: gs) ++ orderClause (o :: os)
          = 32 :: (str "GROUP BY" ++ (32 :: (commaListSp g (gs.map (fun g => ((1 : Nat), g))) ++
              (32 :: (str "ORDER BY" ++
                (32 :: commaListSp o (os.map (fun g => ((1 : Nat), g))))))))) := by
        simp [groupClause, orderClause, eg, eo, commaList_eq, List.append_assoc]
      rw [et]
      have h1 := reads_plain v _ hv (cut_space
        (str "GROUP BY" ++ (32 :: (commaListSp g (gs.map (fun g => ((1 : Nat), g))) ++
              (32 :: (str "ORDER BY" ++
                (32 :: commaListSp o (os.map (fun g => ((1 : Nat), g)))))))))) (Or.inl rfl)
      rw [skip_space, skip_GROUP_BY] at h1
      refine yields_whereValue_group h1 (reads_reserved _ _ (by decide) (first_GROUP_BY _)) ?_
      rw [skip_space, hr, List.append_assoc, skip_plain g _ hg, ← List.append_assoc, ← hr]
      refine yields_groupFields_order g _ _ _ _ hg (plain_map_one gs hgs') ?_
      rw [skip_space, hr', skip_plain o _ ho, ← hr']
      have := yields_orderFields o (os.map (fun g => ((1 : Nat), g)))
        { Type_ := str "SELECT", TableName := t, Fields := [str "*"], Condition := [a, op, v],
          GroupByFields := g :: gs }
        ho (plain_map_one os hos')
      simpa [map_one_snd] using this

/-- Instance of `select_where_group_order` on
`SELECT * FROM table WHERE a >= 1 GROUP BY d, e ORDER BY b, c`. -/
theorem select_where_group_order_witness :
    (Plain (str "table") ∧ Plain (str "a") ∧ str ">=" ∈ operators ∧ Plain (str "1") ∧
      (∀ x ∈ [str "d", str "e"], Plain x) ∧ (∀ x ∈ [str "b", str "c"], Plain x)) ∧
    ∃ fuel, Parse fuel freshParser
        (str "SELECT" ++ str " " ++ str "*" ++ str " " ++ str "FROM" ++ str " " ++
          str "table" ++ str " " ++ str "WHERE" ++ str " " ++ str "a" ++ str " " ++
          str ">=" ++ str " " ++ str "1" ++ groupClause [str "d", str "e"] ++
          orderClause [str "b", str "c"])
      = some (Outcome.ok { Type_ := str "SELECT", TableName := str "table",
                           Fields := [str "*"],
                           Condition := [str "a", str ">=", str "1"],
                           GroupByFields := [str "d", str "e"],
                           OrderByFields := [str "b", str "c"] }) :=
  ⟨by decide, select_where_group_order (str "table") (str "a") (str ">=") (str "1")
    [str "d", str "e"] [str "b", str "c"]
    (by decide) (by decide) (by decide) (by decide) (by decide) (by decide)⟩

/-- C9 (the code fails the claim): on `SELECT * FROM t WHERE a = 1 ORDER BY b c` the
engine does enter the terminal state after eleven passes, with OrderByFields `[b]` and
the cursor before the end of the text, but `Parse` does not treat it as done: no case of
the switch matches the state, the cursor stays where it is and the loop never ends. -/
theorem parse_loops_in_terminal_state :
    (advance 11 { freshParser with SQL := str "SELECT * FROM t WHERE a = 1 ORDER BY b c",
                                   Query := {}, step := step.stepType }).step = step.stepEnd ∧
    (advance 11 { freshParser with SQL := str "SELECT * FROM t WHERE a = 1 ORDER BY b c",
                                   Query := {}, step := step.stepType }).Query.OrderByFields
      = [str "b"] ∧
    ∀ fuel, Parse fuel freshParser (str "SELECT * FROM t WHERE a = 1 ORDER BY b c") = none := by
  refine ⟨by decide, by decide, ?_⟩
  intro fuel
  unfold Parse ParseRun
  rw [loop_diverges 11 _ (by decide) (by decide) (by decide) fuel]
  rfl

/-- C10 (the code fails the claim): on `UPDATE t SET a = 1 x` the engine reaches the
state after a value with Fields `[a]` and UpdateValues `[1]` in six passes; the token
`x` there is neither a comma nor `WHERE`, the switch of that state has no other case,
nothing is consumed and the state stays: the loop never ends and no record is
returned. -/
theorem parse_loops_after_update_value :
    (advance 6 { freshParser with SQL := str "UPDATE t SET a = 1 x",
                                  Query := {}, step := step.stepType }).step
      = step.stepUpdateComma ∧
    (advance 6 { freshParser with SQL := str "UPDATE t SET a = 1 x",
                                  Query := {}, step := step.stepType }).Query
      = { Type_ := str "UPDATE", TableName := str "t", Fields := [str "a"],
          UpdateValues := [str "1"] } ∧
    ∀ fuel, Parse fuel freshParser (str "UPDATE t SET a = 1 x") = none := by
  refine ⟨by decide, by decide, ?_⟩
  intro fuel
  unfold Parse ParseRun
  rw [loop_diverges 6 _ (by decide) (by decide) (by decide) fuel]
  rfl

/-- C11: for every non-empty text whose first token (the token at cursor 0), upper-cased,
is none of `SELECT`, `UPDATE`, `INSERT`, `DELETE`, `Parse` on a fresh parser returns
the error `syntax error\n` and no record, in its first pass. -/
theorem unknown_kind_rejected (sql : Text) (fuel : Nat) (hne : sql ≠ [])
    (hkw : ToUpper (peek (start sql)) ∉
      [str "SELECT", str "UPDATE", str "INSERT", str "DELETE"]) :
    Parse (fuel + 1) freshParser sql = some (Outcome.error "syntax error\n") := by
  have hp : peek (start sql) = (scan sql).1 := by rw [peek_eq_scan]; rfl
  rw [hp] at hkw
  simp only [List.mem_cons, List.mem_singleton, List.not_mem_nil, or_false, not_or] at hkw
  rw [Parse_eq_run, run_type fuel sql _ hne]
  simp [hkw, parseError]

/-- Instance of `unknown_kind_rejected` on the text of the test `SEGECT a, b FROM table`. -/
theorem unknown_kind_rejected_witness :
    (str "SEGECT a, b FROM table" ≠ [] ∧
      ToUpper (peek (start (str "SEGECT a, b FROM table"))) ∉
        [str "SELECT", str "UPDATE", str "INSERT", str "DELETE"]) ∧
    Parse (0 + 1) freshParser (str "SEGECT a, b FROM table")
      = some (Outcome.error "syntax error\n") :=
  ⟨by decide, unknown_kind_rejected (str "SEGECT a, b FROM table") 0 (by decide) (by decide)⟩

/-- C12: whenever a run of `Parse` from a fresh parser stands, before the end of the
text, at a position that requires a specific token (`FROM` after `DELETE`, `INTO` after
`INSERT`, `FROM` after the SELECT fields, `WHERE` after a SELECT or DELETE table, `SET`
after an UPDATE table, `=` after an UPDATE field, `(` or `VALUES` after an INSERT table,
`,` or `)` after an INSERT column or value, `VALUES` after the column group, `(` after
`VALUES`, `,` after a closed row) and the next token is none of those the position
accepts, `Parse` returns the error and no record. -/
theorem required_token_missing (sql : Text) (k fuel : Nat)
    (hrun : loop k (start sql) = none)
    (hlt : (advance k (start sql)).i < (advance k (start sql)).SQL.length)
    (hmiss : MissingRequired (advance k (start sql))) :
    Parse (k + (fuel + 2)) freshParser sql = some parseError := by
  obtain ⟨p', hp'⟩ := loop_missing_required (advance k (start sql)) fuel hlt hmiss
  have h := loop_add k (fuel + 2) (start sql) hrun
  rw [hp'] at h
  unfold Parse ParseRun
  have e : ({ freshParser with SQL := sql, Query := {}, step := step.stepType } : Parser)
      = start sql := rfl
  rw [e, h]
  rfl

/-- Instances of `required_token_missing` on the four texts of the tests:
`DELETE FROM table a >= 1` (no `WHERE`), `DELETE table` (no `FROM`), `SELECT * table`
(no `FROM`) and `SELECT a b FROM table` (no comma). -/
theorem required_token_missing_witness :
    (loop 2 (start (str "DELETE FROM table a >= 1")) = none ∧
      (advance 2 (start (str "DELETE FROM table a >= 1"))).i
        < (advance 2 (start (str "DELETE FROM table a >= 1"))).SQL.length ∧
      MissingRequired (advance 2 (start (str "DELETE FROM table a >= 1")))) ∧
    Parse (2 + (0 + 2)) freshParser (str "DELETE FROM table a >= 1") = some parseError ∧
    Parse (0 + (0 + 2)) freshParser (str "DELETE table") = some parseError ∧
    Parse (2 + (0 + 2)) freshParser (str "SELECT * table") = some parseError ∧
    Parse (2 + (0 + 2)) freshParser (str "SELECT a b FROM table") = some parseError :=
  ⟨by decide,
    required_token_missing (str "DELETE FROM table a >= 1") 2 0
      (by decide) (by decide) (by decide),
    required_token_missing (str "DELETE table") 0 0 (by decide) (by decide) (by decide),
    required_token_missing (str "SELECT * table") 2 0 (by decide) (by decide) (by decide),
    required_token_missing (str "SELECT a b FROM table") 2 0
      (by decide) (by decide) (by decide)⟩

/-- C13, counterexample: on the empty text `Parse` returns a record without error, the
empty record, whose Type is the empty text and none of the four kinds. -/
theorem empty_text_has_no_kind :
    Parse 1 freshParser [] = some (Outcome.ok {}) ∧
      ({} : Query).Type_ ∉ [str "SELECT", str "INSERT", str "UPDATE", str "DELETE"] := by
  decide

/-- C13, amended: when `Parse` on a fresh parser returns a record without error, either
the text is empty and the record is the empty record, or the text is not empty and the
Type of the record is one of `SELECT`, `INSERT`, `UPDATE`, `DELETE`. -/
theorem parse_kind (sql : Text) (fuel : Nat) (q : Query)
    (h : Parse fuel freshParser sql = some (Outcome.ok q)) :
    (sql = [] ∧ q = {}) ∨
      (sql ≠ [] ∧ q.Type_ ∈ [str "SELECT", str "INSERT", str "UPDATE", str "DELETE"]) := by
  cases fuel with
  | zero => simp [Parse, ParseRun, loop] at h
  | succ fuel =>
    by_cases hs : sql = []
    · subst hs
      left
      refine ⟨rfl, ?_⟩
      have : Parse (fuel + 1) freshParser [] = some (Outcome.ok {}) := rfl
      rw [this] at h
      simp only [Option.some.injEq, Outcome.ok.injEq] at h
      exact h.symm
    · right
      refine ⟨hs, ?_⟩
      simp only [Parse, ParseRun, Option.map_eq_some', Prod.exists, exists_eq_right] at h
      obtain ⟨p', h⟩ := h
      rw [loop] at h
      have hlt : 0 < sql.length := List.length_pos.mpr hs
      simp only [freshParser, hlt, if_true] at h
      have hfirst := iterate_kindSet_first
        { SQL := sql, i := 0, Query := {}, step := step.stepType } rfl
      rcases hp : iterate { SQL := sql, i := 0, Query := {}, step := step.stepType }
        with ⟨p1, o⟩
      rw [hp] at h hfirst
      cases o with
      | some out =>
        simp only [Option.some.injEq, Prod.mk.injEq] at h
        obtain ⟨rfl, rfl⟩ := h
        have := iterate_not_ok { SQL := sql, i := 0, Query := {}, step := step.stepType } q
        rw [hp] at this
        exact absurd rfl this
      | none => exact loop_kindSet fuel p1 p' q (hfirst rfl) h

/-- Instance of `parse_kind` on `DELETE FROM t`. -/
theorem parse_kind_witness :
    Parse 4 freshParser (str "DELETE FROM t")
        = some (Outcome.ok { Type_ := str "DELETE", TableName := str "t" }) ∧
      ((str "DELETE FROM t" = [] ∧
          ({ Type_ := str "DELETE", TableName := str "t" } : Query) = {}) ∨
        (str "DELETE FROM t" ≠ [] ∧
          ({ Type_ := str "DELETE", TableName := str "t" } : Query).Type_
            ∈ [str "SELECT", str "INSERT", str "UPDATE", str "DELETE"])) :=
  ⟨by decide, parse_kind (str "DELETE FROM t") 4 { Type_ := str "DELETE", TableName := str "t" }
    (by decide)⟩

/-- C14, counterexample: `settings` is a run of letters and is not a reserved word in any
case, yet `Parse` of `DELETE FROM settings` returns the syntax error: the scanner reads
the reserved word `SET` at the head of the name and leaves `tings`. -/
theorem delete_from_settings_rejected :
    Identifier (str "settings") ∧ ToUpper (str "settings") ∉ reservedWords ∧
      Parse 4 freshParser (str "DELETE FROM settings")
        = some (Outcome.error "syntax error\n") := by
  decide

/-- C14, amended: for every identifier `t` (a non-empty run of letters, digits and
underscores) at whose head no reserved word stands in any case (no entry of the table
equals the upper case of the text of its length at the head of `t`), `Parse` of
`DELETE FROM t` returns the record with Type `DELETE` and TableName exactly `t`. -/
theorem delete_from_identifier (t : Text) (ht : Identifier t)
    (hno : ∀ rw ∈ reservedWords, ToUpper (t.take rw.length) ≠ rw) :
    ∃ fuel, Parse fuel freshParser (str "DELETE FROM " ++ t)
      = some (Outcome.ok { Type_ := str "DELETE", TableName := t }) := by
  have hp : Plain t := identifier_plain t ht hno
  apply yields_Parse
  have e : str "DELETE FROM " ++ t = str "DELETE" ++ (32 :: (str "FROM" ++ (32 :: t))) := rfl
  rw [e]
  have h1 := reads_reserved (str "DELETE") (32 :: (str "FROM" ++ (32 :: t))) (by decide)
    (first_DELETE _)
  rw [skip_space, skip_FROM] at h1
  have h2 := reads_reserved (str "FROM") (32 :: t) (by decide) (first_FROM _)
  rw [skip_space, skip_plain_self t hp] at h2
  refine yields_type_delete h1 h2 ?_
  refine yields_deleteFromTable (plain_append_nil t hp) ?_
  exact yields_nil_eq _ rfl

/-- Instance of `delete_from_identifier` on the test input `DELETE FROM table`. -/
theorem delete_from_identifier_witness :
    (Identifier (str "table") ∧
      ∀ rw ∈ reservedWords, ToUpper ((str "table").take rw.length) ≠ rw) ∧
    ∃ fuel, Parse fuel freshParser (str "DELETE FROM " ++ str "table")
      = some (Outcome.ok { Type_ := str "DELETE", TableName := str "table" }) :=
  ⟨by decide, delete_from_identifier (str "table") (by decide) (by decide)⟩

/-- C15, counterexample: `Parse` of `select a from t where into = 1` stores `INTO` in
Condition, in upper case, and `INTO` is no contiguous part of the text, which has `into`. -/
theorem condition_stored_in_upper_case :
    Parse 10 freshParser (str "select a from t where into = 1")
        = some (Outcome.ok
            { Type_ := str "SELECT", TableName := str "t", Fields := [str "a"],
              Condition := [str "INTO", str "=", str "1"] }) ∧
      ¬ (str "INTO" <:+: str "select a from t where into = 1") := by
  decide

/-- C15, amended: when `Parse` on a fresh parser returns a record, every text stored in
TableName, Fields, Condition, GroupByFields, OrderByFields, InsertValues and UpdateValues
is matched text of the input (`Raw`): a contiguous part of the input with its bytes
unchanged, or a reserved word that is the upper-case form of a contiguous part of the
input. -/
theorem parse_stores_matched_text (sql : Text) (fuel : Nat) (q : Query)
    (h : Parse fuel freshParser sql = some (Outcome.ok q)) :
    Raw sql q.TableName ∧ (∀ t ∈ q.Fields, Raw sql t) ∧ (∀ t ∈ q.Condition, Raw sql t) ∧
    (∀ t ∈ q.GroupByFields, Raw sql t) ∧ (∀ t ∈ q.OrderByFields, Raw sql t) ∧
    (∀ row ∈ q.InsertValues, ∀ t ∈ row, Raw sql t) ∧ (∀ t ∈ q.UpdateValues, Raw sql t) := by
  simp only [Parse, ParseRun, Option.map_eq_some', Prod.exists, exists_eq_right] at h
  obtain ⟨p', h⟩ := h
  refine loop_raw sql fuel _ p' q rfl ?_ h
  refine ⟨raw_nil sql, ?_, ?_, ?_, ?_, ?_, ?_⟩ <;> intro t ht <;>
    exact absurd ht (List.not_mem_nil t)

/-- Instance of `parse_stores_matched_text` on `select a from t where into = 1`. -/
theorem parse_stores_matched_text_witness :
    Parse 10 freshParser (str "select a from t where into = 1")
        = some (Outcome.ok
            { Type_ := str "SELECT", TableName := str "t", Fields := [str "a"],
              Condition := [str "INTO", str "=", str "1"] }) ∧
      ∀ t ∈ [str "INTO", str "=", str "1"], Raw (str "select a from t where into = 1") t :=
  ⟨by decide, (parse_stores_matched_text (str "select a from t where into = 1") 10
    { Type_ := str "SELECT", TableName := str "t", Fields := [str "a"],
      Condition := [str "INTO", str "=", str "1"] } (by decide)).2.2.1⟩

/-- C16: for every text and every cursor before its end, if some entry of the
reserved-word table equals the upper case of the text of its length at the cursor, then
`peekWithLength` returns an entry of the table with its length; that entry matches at
the cursor, is in upper case, and no entry that matches at the cursor is longer. -/
theorem peek_longest_reserved (p : Parser) (hlt : p.i < p.SQL.length) (rw : Text)
    (hrw : rw ∈ reservedWords)
    (hm : ToUpper (slice p.SQL p.i (min p.SQL.length (p.i + rw.length))) = rw) :
    ∃ best ∈ reservedWords, peekWithLength p = (best, best.length) ∧
      ToUpper (slice p.SQL p.i (min p.SQL.length (p.i + best.length))) = best ∧
      ToUpper best = best ∧
      ∀ rw' ∈ reservedWords,
        ToUpper (slice p.SQL p.i (min p.SQL.length (p.i + rw'.length))) = rw' →
          rw'.length ≤ best.length := by
  have hne : rest p ≠ [] := (rest_ne_nil_iff p).mpr hlt
  simp only [slice_min] at hm ⊢
  cases h : firstReserved (rest p) with
  | none =>
    unfold firstReserved at h
    rw [List.find?_eq_none] at h
    have := h rw hrw
    simp only [decide_eq_true_eq] at this
    exact absurd hm this
  | some best =>
    obtain ⟨hbest, hmb⟩ := firstReserved_some (rest p) best h
    refine ⟨best, hbest, ?_, hmb, reserved_upper best hbest, ?_⟩
    · rw [peekWithLength_eq_scan]
      exact scan_reserved (rest p) best hne h
    · intro rw' hrw' hm'
      exact firstReserved_longest (rest p) best rw' h hrw' hm'

/-- Instance of `peek_longest_reserved` on `a >= 1` with the cursor on `>`: the entry `>`
matches there, and the token is `>=`. -/
theorem peek_longest_reserved_witness :
    (({ SQL := str "a >= 1", i := 2 } : Parser).i
        < ({ SQL := str "a >= 1", i := 2 } : Parser).SQL.length ∧
      str ">" ∈ reservedWords ∧
      ToUpper (slice (str "a >= 1") 2 (min (str "a >= 1").length (2 + (str ">").length)))
        = str ">") ∧
    peekWithLength { SQL := str "a >= 1", i := 2 } = (str ">=", 2) ∧
    ∃ best ∈ reservedWords,
      peekWithLength { SQL := str "a >= 1", i := 2 } = (best, best.length) ∧
      ToUpper (slice (str "a >= 1") 2 (min (str "a >= 1").length (2 + best.length))) = best ∧
      ToUpper best = best ∧
      ∀ rw' ∈ reservedWords,
        ToUpper (slice (str "a >= 1") 2 (min (str "a >= 1").length (2 + rw'.length))) = rw' →
          rw'.length ≤ best.length :=
  ⟨by decide, by decide,
    peek_longest_reserved { SQL := str "a >= 1", i := 2 } (by decide) (str ">") (by decide)
      (by decide)⟩

/-- C17, counterexample: on the text ` a` with the cursor on the space no reserved word
matches and `peek` returns ` a`, the space included: the scan for a delimiter starts one
byte after the cursor.  (So a statement with a space in front is rejected.) -/
theorem peek_keeps_leading_space :
    (∀ rw ∈ reservedWords,
      ToUpper (slice (str " a") 0 (min (str " a").length (0 + rw.length))) ≠ rw) ∧
    peek { SQL := str " a", i := 0 } = str " a" ∧
    32 ∈ peek { SQL := str " a", i := 0 } ∧
    Parse 1 freshParser (str " DELETE FROM t") = some (Outcome.error "syntax error\n") := by
  decide

/-- C17, amended: for every text and every cursor before its end at which no reserved
word matches, `peekWithLength` returns the text from the cursor up to the first space,
comma or `)` found strictly after the cursor (up to the end of the text when there is
none), with its length: `n` bytes that are no delimiters follow the byte at the cursor,
and the byte after them, if there is one, is a delimiter.  No byte of the token after
its first one is a delimiter, and none at all unless the cursor stands on a space. -/
theorem peek_identifier (p : Parser) (hlt : p.i < p.SQL.length)
    (hno : ∀ rw ∈ reservedWords,
      ToUpper (slice p.SQL p.i (min p.SQL.length (p.i + rw.length))) ≠ rw) :
    peekWithLength p
        = (slice p.SQL p.i
            (p.i + 1 + ((p.SQL.drop (p.i + 1)).takeWhile (fun b => !isDelim b)).length),
           1 + ((p.SQL.drop (p.i + 1)).takeWhile (fun b => !isDelim b)).length) ∧
      p.i + 1 + ((p.SQL.drop (p.i + 1)).takeWhile (fun b => !isDelim b)).length
        ≤ p.SQL.length ∧
      (p.i + 1 + ((p.SQL.drop (p.i + 1)).takeWhile (fun b => !isDelim b)).length
          < p.SQL.length →
        isDelim (p.SQL.getD
          (p.i + 1 + ((p.SQL.drop (p.i + 1)).takeWhile (fun b => !isDelim b)).length) 0)
          = true) ∧
      (∀ b ∈ (peek p).drop 1, isDelim b = false) ∧
      (p.SQL.getD p.i 0 ≠ 32 → ∀ b ∈ peek p, isDelim b = false) := by
  have hne : rest p ≠ [] := (rest_ne_nil_iff p).mpr hlt
  simp only [slice_min] at hno
  have hnone : firstReserved (rest p) = none := firstReserved_none (rest p) hno
  have hd : (rest p).drop 1 = p.SQL.drop (p.i + 1) := by
    unfold rest
    rw [List.drop_drop, Nat.add_comm]
  generalize hn : ((p.SQL.drop (p.i + 1)).takeWhile (fun b => !isDelim b)).length = n
  have hscan : peekWithLength p = ((rest p).take (1 + n), 1 + n) := by
    rw [peekWithLength_eq_scan]
    unfold scan
    simp only [hne, if_false, hnone, hd, hn]
  have hlen := takeWhile_length_le (fun b => !isDelim b) (p.SQL.drop (p.i + 1))
  rw [hn, List.length_drop] at hlen
  have htail : ((rest p).take (1 + n)).drop 1
      = (p.SQL.drop (p.i + 1)).takeWhile (fun b => !isDelim b) := by
    rw [List.drop_take, hd, ← hn, Nat.add_sub_cancel_left, take_takeWhile_length]
  have hpeek : peek p = (rest p).take (1 + n) := by rw [peek, hscan]
  have htailD : ∀ b ∈ (peek p).drop 1, isDelim b = false := by
    intro b hb
    rw [hpeek, htail] at hb
    have := List.mem_takeWhile_imp hb
    simpa using this
  refine ⟨?_, by omega, ?_, htailD, ?_⟩
  · rw [hscan, Nat.add_assoc, slice_add]
    rfl
  · intro hlt2
    have := takeWhile_next (fun b => !isDelim b) (p.SQL.drop (p.i + 1))
      (by rw [hn, List.length_drop]; omega)
    rw [hn, ← getD_add] at this
    simpa using this
  · intro hsp b hb
    have hrest : rest p = p.SQL.getD p.i 0 :: p.SQL.drop (p.i + 1) := by
      unfold rest
      rw [List.drop_eq_getElem_cons hlt]
      simp [List.getD_eq_getElem?_getD, List.getElem?_eq_getElem hlt]
    have hhead := head_not_reserved (p.SQL.getD p.i 0) (p.SQL.drop (p.i + 1))
      (by rw [← hrest]; exact hno)
    have hcons : peek p = p.SQL.getD p.i 0 :: (peek p).drop 1 := by
      rw [hpeek, hrest, Nat.add_comm 1 n, List.take_succ_cons, List.drop_succ_cons,
        List.drop_zero]
    rw [hcons] at hb
    rcases List.mem_cons.mp hb with hb | hb
    · subst hb
      simp only [isDelim, decide_eq_false_iff_not, not_or]
      exact ⟨hsp, hhead.1, hhead.2⟩
    · exact htailD b hb

/-- Instance of `peek_identifier` on `SELECT ab, c` with the cursor on `ab`: the token
is `ab`, cut before the comma. -/
theorem peek_identifier_witness :
    (({ SQL := str "SELECT ab, c", i := 7 } : Parser).i
        < ({ SQL := str "SELECT ab, c", i := 7 } : Parser).SQL.length ∧
      ∀ rw ∈ reservedWords,
        ToUpper (slice (str "SELECT ab, c") 7
          (min (str "SELECT ab, c").length (7 + rw.length))) ≠ rw) ∧
    peekWithLength { SQL := str "SELECT ab, c", i := 7 } = (str "ab", 2) ∧
    (str "SELECT ab, c").getD 9 0 = 44 ∧
    ∀ b ∈ peek { SQL := str "SELECT ab, c", i := 7 }, isDelim b = false :=
  ⟨by decide, by decide, by decide,
    (peek_identifier { SQL := str "SELECT ab, c", i := 7 } (by decide) (by decide)).2.2.2.2
      (by decide)⟩

/-- C18, counterexample: on the text `ab` with the cursor at 5, past the end, `pop` leaves
the cursor at 5, which exceeds the length 2 of the text. -/
theorem pop_cursor_past_end :
    (pop { SQL := str "ab", i := 5 }).i = 5 ∧
      ¬ (pop { SQL := str "ab", i := 5 }).i ≤ (str "ab").length := by
  decide

/-- C18, amended: for every text and every cursor, `pop` moves the cursor by the length
that `peekWithLength` reports and then by the length of the longest run of bytes 32
(spaces) that starts there, and no further: the byte at the new cursor, if there is
one, is no space.  The new cursor does not exceed the length of the text when the old
one did not; it is greater than the old one when the old one was before the end; and at
or past the end `pop` leaves the cursor unchanged. -/
theorem pop_cursor (p : Parser) :
    (pop p).i = p.i + (peekWithLength p).2 +
        ((p.SQL.drop (p.i + (peekWithLength p).2)).takeWhile
          (fun b => decide (b = 32))).length ∧
      ((pop p).i < p.SQL.length → p.SQL.getD (pop p).i 0 ≠ 32) ∧
      (p.i ≤ p.SQL.length → (pop p).i ≤ p.SQL.length) ∧
      (p.i < p.SQL.length → p.i < (pop p).i) ∧
      (p.SQL.length ≤ p.i → (pop p).i = p.i) := by
  have hb := peekWithLength_bounds p
  refine ⟨pop_i p, ?_, pop_i_le p, ?_, ?_⟩
  · intro hlt
    rw [pop_i] at hlt ⊢
    have := takeWhile_next (fun b => decide (b = 32))
      (p.SQL.drop (p.i + (peekWithLength p).2)) (by rw [List.length_drop]; omega)
    rw [← getD_add] at this
    simpa using this
  · intro hlt
    have := (hb.1 hlt).1
    rw [pop_i]
    omega
  · intro hge
    rw [pop_i, hb.2 hge]
    have : p.SQL.drop p.i = [] := by simp; omega
    simp only [Nat.add_zero, this, List.takeWhile_nil, List.length_nil]

/-- Instance of `pop_cursor` on `ab  cd` with the cursor at 0: the new cursor is 4, past
the token `ab` and the two spaces. -/
theorem pop_cursor_witness :
    (pop { SQL := str "ab  cd", i := 0 }).i = 4 ∧
      ({ SQL := str "ab  cd", i := 0 } : Parser).i
        < (pop { SQL := str "ab  cd", i := 0 }).i :=
  ⟨by decide, (pop_cursor { SQL := str "ab  cd", i := 0 }).2.2.2.1 (by decide)⟩

/-- C19: for every input text, in a run of `Parse` from a fresh parser nothing is indexed
out of range.  After any number `k` of passes of the loop and any number `m` of calls
of `pop` after them, the text is the input and the cursor is at most its length, and
the token that `peekWithLength` reports there ends inside the text; in the state
`stepInsertValues` the list InsertValues is not empty, so its last row exists; no pass
panics, and `Parse` never returns a panic. -/
theorem parse_in_range (sql : Text) (k m : Nat) :
    (Nat.iterate pop m (advance k (start sql))).SQL = sql ∧
      (Nat.iterate pop m (advance k (start sql))).i ≤ sql.length ∧
      (Nat.iterate pop m (advance k (start sql))).i +
          (peekWithLength (Nat.iterate pop m (advance k (start sql)))).2 ≤ sql.length ∧
      ((advance k (start sql)).step = step.stepInsertValues →
        (advance k (start sql)).Query.InsertValues ≠ []) ∧
      (iterate (advance k (start sql))).2 ≠ some Outcome.panic ∧
      Parse k freshParser sql ≠ some Outcome.panic := by
  have hinv := advance_inRange k (start sql) (start_inRange sql)
  have hsql : (advance k (start sql)).SQL = sql := advance_SQL k (start sql)
  have hpops := pops_in_range m (advance k (start sql)) hinv.1
  rw [hsql] at hpops
  refine ⟨hpops.1, hpops.2, ?_, fun hs => hinv.2 (Or.inl hs),
    iterate_no_panic _ (fun hs => hinv.2 (Or.inl hs)), ?_⟩
  · have := peek_inside (Nat.iterate pop m (advance k (start sql)))
      (by rw [hpops.1]; exact hpops.2)
    rwa [hpops.1] at this
  · intro h
    simp only [Parse, ParseRun, Option.map_eq_some', Prod.exists, exists_eq_right] at h
    obtain ⟨p', h⟩ := h
    exact loop_no_panic k (start sql) p' (start_inRange sql) h

/-- C20: `Parse` does not reset the cursor, so its result depends on the calls made
before.  When a call of `Parse` on the text `s1` has returned a record and left the
parser `p1`, every later call of `Parse` on `p1` with a text `s2` that is not longer
than `s1` returns the empty record without error, whatever `s2` is: the cursor is
still at the end of `s1`, and the loop is not entered. -/
theorem parse_depends_on_earlier_call (fuel : Nat) (p p1 : Parser) (s1 s2 : Text) (q : Query)
    (h : ParseRun fuel p s1 = some (p1, Outcome.ok q)) (hlen : s2.length ≤ s1.length)
    (n : Nat) : Parse (n + 1) p1 s2 = some (Outcome.ok {}) := by
  obtain ⟨h1, h2⟩ := loop_ok_end fuel _ p1 q h
  simp only at h1
  rw [h1] at h2
  have hnot : ¬ p1.i < s2.length := by omega
  simp [Parse, ParseRun, loop, hnot]

/-- Instance of `parse_depends_on_earlier_call`: on a fresh parser `Parse` of
`DELETE FROM t` returns the record with Type `DELETE` and TableName `t`; called again on
the same parser with the same text, or with `SEGECT`, it returns the empty record. -/
theorem parse_depends_on_earlier_call_witness :
    ParseRun 4 freshParser (str "DELETE FROM t")
        = some ({ SQL := str "DELETE FROM t", i := 13,
                  Query := { Type_ := str "DELETE", TableName := str "t" },
                  step := step.stepWhere },
                Outcome.ok { Type_ := str "DELETE", TableName := str "t" }) ∧
      Parse 4 freshParser (str "DELETE FROM t")
        = some (Outcome.ok { Type_ := str "DELETE", TableName := str "t" }) ∧
      Parse 4 freshParser (str "SEGECT") = some (Outcome.error "syntax error\n") ∧
      Parse 1 { SQL := str "DELETE FROM t", i := 13,
                Query := { Type_ := str "DELETE", TableName := str "t" },
                step := step.stepWhere } (str "SEGECT") = some (Outcome.ok {}) ∧
      Parse 1 { SQL := str "DELETE FROM t", i := 13,
                Query := { Type_ := str "DELETE", TableName := str "t" },
                step := step.stepWhere } (str "DELETE FROM t") = some (Outcome.ok {}) :=
  ⟨by decide, by decide, by decide,
    parse_depends_on_earlier_call 4 freshParser _ (str "DELETE FROM t") (str "SEGECT")
      { Type_ := str "DELETE", TableName := str "t" } (by decide) (by decide) 0,
    by decide⟩

end SqlParser
